import Mathlib

/-! Item state propagation (`src/item_state.c`), preceded by two small pieces of the
program around it: the start-up state of the main window (`src/main.c`) and the
units of the default update interval (`src/ui/ui_prefs.c`).

A shallow embedding of the item state controller of the feed reader: the
entry points `item_set_flag_state` / `item_set_read_state`, the finalizers
`item_flag_state_changed` / `item_read_state_changed`, and the bulk path
`itemset_mark_read`.

The C code mutates an item store (the data base), the node registry (the feed
list) and calls into the GUI.  Here the whole environment is one explicit
`World` value that is threaded through every function; every call into a
collaborator appends an `Event` to `World.trace`, so that "no store write",
"exactly two updates", "in this order" are statements about the trace.

The read-state entry point and its finalizer are mutually recursive through
the subscription handler (duplicate fan-out).  The recursion is modelled with
an explicit recursion budget (`fuel`, the remaining call depth of
`item_set_read_state`); running out of budget yields `none`.

Not modelled: the `debug_start_measurement` / `debug_end_measurement` timers and
the release of the GLib lists (`g_slist_free`, `g_free`), which touch neither the
store, the nodes nor the GUI.  The functions of `db.c`, `node.c`, `itemlist.c`,
`vfolder.c`, `feedlist.c` and `fl_sources/node_source.c` that `item_state.c` calls
are collaborators outside these sources; each is given below with the behaviour
the specification states for it.
-/

/-! ## `main.c`: the initial state of the main window -/

namespace Main

/-- The states the main window can be created in (`MAINWINDOW_SHOWN`,
`MAINWINDOW_ICONIFIED`, `MAINWINDOW_HIDDEN`, the argument of `liferea_shell_create`). -/
inductive MainwindowState where
  | MAINWINDOW_SHOWN
  | MAINWINDOW_ICONIFIED
  | MAINWINDOW_HIDDEN
deriving DecidableEq

/-- The choice of `initialState` in `main` ("how to start liferea").  `initial_state`
is the string of the `--mainwindow-state` option (the variable starts out as
`"shown"` and option parsing overwrites it when the option is given);
`show_tray_icon` and `start_in_tray` are the two preferences read with
`conf_get_bool_value`. -/
def initialState (initial_state : String) (show_tray_icon start_in_tray : Bool) :
    MainwindowState :=
  if initial_state == "iconified" then .MAINWINDOW_ICONIFIED
  else if initial_state == "hidden" || (show_tray_icon && start_in_tray) then
    .MAINWINDOW_HIDDEN
  else .MAINWINDOW_SHOWN

end Main

/-! ## `ui/ui_prefs.c`: the default update interval and its unit -/

namespace UiPrefs

/-- The value of a `gint` computation: the result wrapped into the 32-bit
two's-complement range. -/
def gint (x : Int) : Int := (x + 2147483648) % 4294967296 - 2147483648

/-- The part of `on_prefbtn_clicked` that fills the unit combo box and the spin
button from the stored `DEFAULT_UPDATE_INTERVAL` value `tmp` (minutes): the result
is the active entry of the combo box (0 minutes, 1 hours, 2 days) and the value put
into the spin button.  `%` and `/` are those of C (truncating). -/
def on_prefbtn_clicked (tmp : Int) : Int × Int :=
  if tmp.tmod 1440 = 0 then (2, tmp.tdiv 1440)
  else if tmp.tmod 60 = 0 then (1, tmp.tdiv 60)
  else (0, tmp)

/-- The handler `on_default_update_interval_value_changed`: from the active entry
`intervalUnit` of the unit combo box and the value `updateInterval` of the spin
button, the number of minutes it stores as `DEFAULT_UPDATE_INTERVAL`. -/
def on_default_update_interval_value_changed (intervalUnit updateInterval : Int) : Int :=
  if intervalUnit = 1 then gint (updateInterval * 60)
  else if intervalUnit = 2 then gint (updateInterval * 1440)
  else updateInterval

end UiPrefs

/-! ## `item_state.c`: the environment of the controller -/

namespace ItemState

/-! ## Data model -/

/-- An item (`itemPtr`), restricted to the fields `item_state.c` reads or writes. -/
structure Item where
  id : Nat
  sourceId : String
  validGuid : Bool
  readStatus : Bool
  flagStatus : Bool
  updateStatus : Bool
  nodeId : String
deriving DecidableEq

/-- A node (`nodePtr`) of the feed list.  `itemSet` is the list of item ids that
`node_get_itemset (node)` yields for this node. -/
structure Node where
  id : String
  unreadCount : Nat
  needsRecount : Bool
  itemSet : List Nat
deriving DecidableEq

/-- One call into a collaborator of `item_state.c`, as recorded in the trace. -/
inductive Event where
  | db_item_state_update (item : Item)
  | itemlist_update_item (item : Item)
  | vfolder_check_item (item : Item)
  | feedlist_reset_new_item_count
  | node_update_counters (node : Option Node)
  | node_source_item_mark_read (node : Option Node) (item : Item) (newState : Bool)
  | node_source_item_set_flag (node : Option Node) (item : Item) (newState : Bool)
  | db_item_get_duplicates (sourceId : String)
  | db_item_get_duplicate_nodes (sourceId : String)
  | node_get_itemset (nodeId : String)
  | item_load (id : Nat) (found : Bool)
  | item_unload (id : Nat)
  | set_recount_flag (nodeId : String)
  | g_warning (id : Nat) (nodeId : String)
deriving DecidableEq

/-- The environment of the controller: the rows of the item store, the nodes of
the feed list, and the trace of collaborator calls made so far (oldest first). -/
structure World where
  items : List Item
  nodes : List Node
  trace : List Event
deriving DecidableEq

/-- Modelled from the spec: the subscription-type handler behind
`node_source_item_mark_read` / `node_source_item_set_flag` (`fl_sources/node_source.c`
is not part of the sources).  The spec describes it as a polymorphic interface
with capability set `{acceptFlagChange, acceptReadChange}` where each variant
"decides synchronously or defers and later invokes the finalizer": `true` means
the handler commits the change now by calling the finalizer, `false` that it
defers (nothing more happens in this turn). -/
structure Handler where
  acceptReadChange : Option Node → Item → Bool → Bool
  acceptFlagChange : Option Node → Item → Bool → Bool

/-- The handler of a local subscription: every change is committed synchronously. -/
def syncHandler : Handler := ⟨fun _ _ _ => true, fun _ _ _ => true⟩

/-- Record a collaborator call. -/
def emit (w : World) (e : Event) : World :=
  { w with trace := w.trace ++ [e] }

/-- Modelled from the spec: Node Registry `resolve(nodeId) -> Node?`
(`node_from_id`, `node.c` is not part of the sources): a weak lookup that may fail. -/
def node_from_id (w : World) (nodeId : String) : Option Node :=
  w.nodes.find? (fun n => n.id == nodeId)

/-- Modelled from the spec: the Item Store "persists items keyed by unique id";
this is the lookup of the stored row with a given id (what `item_load` reads). -/
def db_find (w : World) (id : Nat) : Option Item :=
  w.items.find? (fun r => r.id == id)

/-- Modelled from the spec: the Item Store "persists items keyed by unique id";
storing `item` overwrites the row with its id, or adds a row if there is none. -/
def storePut (item : Item) : List Item → List Item
  | [] => [item]
  | r :: rs => if r.id == item.id then item :: rs else r :: storePut item rs

/-- Modelled from the spec: Item Store `update(item)` "(persist full state)"
(`db_item_state_update`, `db.c` is not part of the sources). -/
def db_item_state_update (w : World) (item : Item) : World :=
  emit { w with items := storePut item w.items } (.db_item_state_update item)

/-- Modelled from the spec: Item Store `load(id) -> Item?` (`item_load`). -/
def item_load (w : World) (id : Nat) : World × Option Item :=
  (emit w (.item_load id (db_find w id).isSome), db_find w id)

/-- Modelled from the spec: Item Store `unload(item)` (`item_unload`). -/
def item_unload (w : World) (item : Item) : World :=
  emit w (.item_unload item.id)

/-- Modelled from the spec: Item Store `findDuplicateItemIds(sourceId) -> [id]`
(`db_item_get_duplicates`): the ids of all stored items sharing `sourceId`. -/
def db_item_get_duplicates (w : World) (sourceId : String) : World × List Nat :=
  (emit w (.db_item_get_duplicates sourceId),
   (w.items.filter (fun r => r.sourceId == sourceId)).map (fun r => r.id))

/-- Modelled from the spec: Item Store `findDuplicateOwningNodeIds(sourceId) -> [nodeId]`
(`db_item_get_duplicate_nodes`): the owning node ids of all stored items sharing
`sourceId`. -/
def db_item_get_duplicate_nodes (w : World) (sourceId : String) : World × List String :=
  (emit w (.db_item_get_duplicate_nodes sourceId),
   (w.items.filter (fun r => r.sourceId == sourceId)).map (fun r => r.nodeId))

/-- Modelled from the spec: the node's item set (`node_get_itemset`), the item ids
the bulk path iterates. -/
def node_get_itemset (w : World) (node : Node) : World × List Nat :=
  (emit w (.node_get_itemset node.id), node.itemSet)

/-- Modelled from the spec: Saved-Search Index `recheckMembership(item)`
(`vfolder_foreach_data (vfolder_check_item, item)`). -/
def vfolder_foreach_data_check_item (w : World) (item : Item) : World :=
  emit w (.vfolder_check_item item)

/-- Modelled from the spec: "notify the item-list view that this item's display must
refresh" (`itemlist_update_item`). -/
def itemlist_update_item (w : World) (item : Item) : World :=
  emit w (.itemlist_update_item item)

/-- Modelled from the spec: "request an unread-counter recompute" on a node
(`node_update_counters`); the request is recorded with the node it was made for. -/
def node_update_counters (w : World) (node : Option Node) : World :=
  emit w (.node_update_counters node)

/-- Modelled from the spec: "reset the global new-item notification counter"
(`feedlist_reset_new_item_count`). -/
def feedlist_reset_new_item_count (w : World) : World :=
  emit w .feedlist_reset_new_item_count

/-- Diagnostic of `itemset_mark_read` for a lost item (`g_warning`). -/
def g_warning (w : World) (item : Item) : World :=
  emit w (.g_warning item.id item.nodeId)

/-! ## `item_state.c` -/

/-- Helper `item_state_set_recount_flag`: `node->needsRecount = TRUE`.  The node object
lives in the registry; the updated node is returned as well. -/
def item_state_set_recount_flag (w : World) (node : Node) : World × Node :=
  let flag := fun (n : Node) => if n.id == node.id then { n with needsRecount := true } else n
  (emit { w with nodes := w.nodes.map flag } (.set_recount_flag node.id),
   { node with needsRecount := true })

/-- Finalizer `item_flag_state_changed`. -/
def item_flag_state_changed (w : World) (item : Item) (newState : Bool) : World × Item :=
  /- 2. save state to DB -/
  let item := { item with flagStatus := newState }
  let w := db_item_state_update w item
  /- 3. update item list GUI state -/
  let w := itemlist_update_item w item
  /- 4. check wether we must add the item to a search folder -/
  let w := vfolder_foreach_data_check_item w item
  /- 5. update notification statistics -/
  let w := feedlist_reset_new_item_count w
  (w, item)

/-- Dispatch of `node_source_item_set_flag (node, item, newState)` to the handler,
which commits through `item_flag_state_changed` or defers. -/
def node_source_item_set_flag (h : Handler) (w : World) (node : Option Node)
    (item : Item) (newState : Bool) : World × Item :=
  let w := emit w (.node_source_item_set_flag node item newState)
  if h.acceptFlagChange node item newState then item_flag_state_changed w item newState
  else (w, item)

/-- Entry point `item_set_flag_state`. -/
def item_set_flag_state (h : Handler) (w : World) (item : Item) (newState : Bool) :
    World × Item :=
  if newState == item.flagStatus then (w, item)
  else node_source_item_set_flag h w (node_from_id w item.nodeId) item newState

/-- Dispatch of `node_source_item_mark_read (node, item, newState)` to the handler,
which commits through the finalizer `changed` or defers. -/
def node_source_item_mark_read (h : Handler)
    (changed : World → Item → Bool → Option (World × Item))
    (w : World) (node : Option Node) (item : Item) (newState : Bool) :
    Option (World × Item) :=
  let w := emit w (.node_source_item_mark_read node item newState)
  if h.acceptReadChange node item newState then changed w item newState
  else some (w, item)

/-- The `while (iter)` loop of step 6 of `item_read_state_changed` over the list
returned by `db_item_get_duplicates`; `setRead` is `item_set_read_state`. -/
def duplicatesLoop (setRead : World → Item → Bool → Option (World × Item))
    (item : Item) (newState : Bool) : List Nat → World → Option World
  | [], w => some w
  | id :: iter, w =>
    match item_load w id with
    | (w, none) => duplicatesLoop setRead item newState iter w
    | (w, some duplicate) =>
      let r :=
        if duplicate.id != item.id && (node_from_id w duplicate.nodeId).isSome then
          setRead w duplicate newState
        else some (w, duplicate)
      match r with
      | none => none
      | some (w, duplicate) =>
        duplicatesLoop setRead item newState iter (item_unload w duplicate)

/-- Body of `item_read_state_changed`, with the entry point it re-enters for
duplicates passed as `setRead`. -/
def item_read_state_changed_body (setRead : World → Item → Bool → Option (World × Item))
    (w : World) (item : Item) (newState : Bool) : Option (World × Item) :=
  /- 1. apply to DB -/
  let item := { item with readStatus := newState, updateStatus := false }
  let w := db_item_state_update w item
  /- 2. add propagate to vfolders (must happen after changing the item state) -/
  let w := vfolder_foreach_data_check_item w item
  /- 3. update item list GUI state -/
  let w := itemlist_update_item w item
  /- 4. updated feed list unread counters -/
  let node := node_from_id w item.nodeId
  let w := node_update_counters w node
  /- 5. update notification statistics -/
  let w := feedlist_reset_new_item_count w
  /- 6. duplicate state propagation -/
  if item.validGuid then
    match db_item_get_duplicates w item.sourceId with
    | (w, duplicates) =>
      (duplicatesLoop setRead item newState duplicates w).map (fun w => (w, item))
  else some (w, item)

/-- Entry point `item_set_read_state`, with `fuel` bounding the depth of re-entrant calls. -/
def item_set_read_state (h : Handler) : Nat → World → Item → Bool → Option (World × Item)
  | 0, _, _, _ => none
  | fuel + 1, w, item, newState =>
    if newState == item.readStatus && !item.updateStatus then some (w, item)
    else
      node_source_item_mark_read h (item_read_state_changed_body (item_set_read_state h fuel))
        w (node_from_id w item.nodeId) item newState

/-- Finalizer `item_read_state_changed`; `fuel` is the budget left for the entry point. -/
def item_read_state_changed (h : Handler) (fuel : Nat) (w : World) (item : Item)
    (newState : Bool) : Option (World × Item) :=
  item_read_state_changed_body (item_set_read_state h fuel) w item newState

/-- The inner `while (duplicate)` loop of `itemset_mark_read` over the node ids
returned by `db_item_get_duplicate_nodes`. -/
def duplicateNodesLoop : List String → World → World
  | [], w => w
  | nodeId :: duplicate, w =>
    match node_from_id w nodeId with
    | some affectedNode =>
      duplicateNodesLoop duplicate (item_state_set_recount_flag w affectedNode).1
    | none => duplicateNodesLoop duplicate w

/-- The outer `while (iter)` loop of `itemset_mark_read` over `itemSet->ids`. -/
def itemsetLoop (h : Handler) (fuel : Nat) : List Nat → World → Option World
  | [], w => some w
  | id :: iter, w =>
    match item_load w id with
    | (w, none) => itemsetLoop h fuel iter w
    | (w, some item) =>
      if !item.readStatus then
        let r :=
          match node_from_id w item.nodeId with
          | some node =>
            match item_state_set_recount_flag w node with
            | (w, node) =>
              node_source_item_mark_read h (item_read_state_changed h fuel) w (some node) item true
          | none => some (g_warning w item, item)
        match r with
        | none => none
        | some (w, item) =>
          match db_item_get_duplicate_nodes w item.sourceId with
          | (w, duplicates) =>
            itemsetLoop h fuel iter (item_unload (duplicateNodesLoop duplicates w) item)
      else itemsetLoop h fuel iter (item_unload w item)

/-- Bulk path `itemset_mark_read`. -/
def itemset_mark_read (h : Handler) (fuel : Nat) (w : World) (node : Node) : Option World :=
  if node.unreadCount == 0 then some w
  else
    match node_get_itemset w node with
    | (w, itemSet) => itemsetLoop h fuel itemSet w

/-! ## Concrete scenarios -/

/-- Item A of the two-item scenario: unread, valid GUID, owned by node `n1`. -/
def scenarioA : Item := ⟨1, "guid1", true, false, false, false, "n1"⟩

/-- Item B of the two-item scenario: same source id, owned by node `n2`. -/
def scenarioB : Item := ⟨2, "guid1", true, false, false, false, "n2"⟩

/-- Node `n1`, with one unread item. -/
def scenarioN1 : Node := ⟨"n1", 1, false, [1]⟩

/-- Node `n2`, with one unread item. -/
def scenarioN2 : Node := ⟨"n2", 1, false, [2]⟩

/-- The two-item scenario: A and B unread, in different nodes. -/
def scenarioWorld : World := ⟨[scenarioA, scenarioB], [scenarioN1, scenarioN2], []⟩

/-- Item C: unread, its owning node `gone` is not in the feed list. -/
def scenarioC : Item := ⟨3, "guid1", true, false, false, false, "gone"⟩

/-- The two-item scenario with the lost item C added to the store. -/
def orphanWorld : World := ⟨[scenarioA, scenarioB, scenarioC], [scenarioN1, scenarioN2], []⟩

/-- Item A after it has been read. -/
def readA : Item := { scenarioA with readStatus := true }

/-- A store in which A is already read while its duplicate B is still unread. -/
def staleWorld : World := ⟨[readA, scenarioB], [scenarioN1, scenarioN2], []⟩

/-! ## Vocabulary for the duplicate fan-out -/

/-- The state in which `item_read_state_changed` persists an item. -/
def mark (s : Bool) (r : Item) : Item :=
  { r with readStatus := s, updateStatus := false }

/-- The guard of `item_set_read_state` lets a request for state `s` through. -/
def pending (s : Bool) (r : Item) : Bool :=
  !(s == r.readStatus && !r.updateStatus)

/-- The node id resolves in the registry `nodes`. -/
def resolves (nodes : List Node) (nodeId : String) : Bool :=
  (nodes.find? (fun n => n.id == nodeId)).isSome

/-- The event is a `db_item_state_update` for an item whose id satisfies `q`. -/
def updOf (q : Nat → Bool) : Event → Bool
  | .db_item_state_update x => q x.id
  | _ => false

/-- The event is a saved-search recheck for an item whose id satisfies `q`. -/
def chkOf (q : Nat → Bool) : Event → Bool
  | .vfolder_check_item x => q x.id
  | _ => false

/-- The event is a successful `item_load` of an id satisfying `q`. -/
def loadOf (q : Nat → Bool) : Event → Bool
  | .item_load id true => q id
  | _ => false

/-- The event is an `item_unload` of an id satisfying `q`. -/
def unlOf (q : Nat → Bool) : Event → Bool
  | .item_unload id => q id
  | _ => false

/-- Number of `db_item_state_update` calls in a trace for items whose id satisfies `q`. -/
def updC (q : Nat → Bool) (es : List Event) : Nat := es.countP (updOf q)

/-- Number of saved-search rechecks in a trace for items whose id satisfies `q`. -/
def chkC (q : Nat → Bool) (es : List Event) : Nat := es.countP (chkOf q)

/-- Number of successful `item_load` calls in a trace for ids satisfying `q`. -/
def loadC (q : Nat → Bool) (es : List Event) : Nat := es.countP (loadOf q)

/-- Number of `item_unload` calls in a trace for ids satisfying `q`. -/
def unlC (q : Nat → Bool) (es : List Event) : Nat := es.countP (unlOf q)

/-- One step of replaying a trace against the stack `held` of the item instances
that are loaded and not yet released (most recent first, named by item id): a
successful `item_load` adds the loaded instance, an `item_unload` has to release
the most recently loaded instance still held (otherwise the replay fails, in
particular when nothing is held), and every other call, a failed load included,
leaves the stack alone. -/
def balanceStep (held : List Nat) : Event → Option (List Nat)
  | .item_load id true => some (id :: held)
  | .item_unload id =>
    match held with
    | top :: rest => if top == id then some rest else none
    | [] => none
  | _ => some held

/-- Replay of a whole trace against the stack of held instances. -/
def balance (held : List Nat) (es : List Event) : Option (List Nat) :=
  es.foldlM balanceStep held

/-- The item a store write or a handler call is made for has source id `S`. -/
def evSrc (S : String) : Event → Prop
  | .db_item_state_update x => x.sourceId = S
  | .node_source_item_mark_read _ x _ => x.sourceId = S
  | _ => True

/-- Number of stored rows with id satisfying `q` that a request for state `s`
would not short-circuit on. -/
def pend (q : Nat → Bool) (s : Bool) (l : List Item) : Nat :=
  l.countP (fun r => q r.id && pending s r)

/-- How one stored row may change during a fan-out for state `s`: not at all, or a
row that was pending and whose owning node resolves is replaced by its marked
version; if ids are unique (`U`) such a row has source id `S`. -/
def Touched (nodes : List Node) (s : Bool) (S : String) (U : Prop) (r r' : Item) : Prop :=
  r' = r ∨ (r' = mark s r ∧ pending s r = true ∧ resolves nodes r.nodeId = true
            ∧ (U → r.sourceId = S))

/-- The calls a fan-out can make.  A store write or handler call concerns a stored
row that is pending and whose owning node resolves, and carries that row (for a
write: its marked version); the handler is called for state `s` with the resolved
node.  Diagnostics, dirty-flag writes, duplicate-node lookups, item-set queries and
flag-handler calls do not occur in a fan-out. -/
def okEvent (nodes : List Node) (s : Bool) (l : List Item) : Event → Prop
  | .db_item_state_update x =>
      ∃ r, l.find? (fun r => r.id == x.id) = some r ∧ resolves nodes r.nodeId = true
        ∧ x = mark s r ∧ pending s r = true
  | .node_source_item_mark_read node x b =>
      ∃ r, l.find? (fun r => r.id == x.id) = some r ∧ resolves nodes r.nodeId = true
        ∧ (x = r ∨ x = mark s r) ∧ b = s
        ∧ node = nodes.find? (fun n => n.id == x.nodeId)
        ∧ pending s r = true ∧ x = r
  | .g_warning _ _ => False
  | .set_recount_flag _ => False
  | .db_item_get_duplicate_nodes _ => False
  | .node_get_itemset _ => False
  | .node_source_item_set_flag _ _ _ => False
  | _ => True

/-- Summary of a stretch of execution inside the duplicate fan-out for state `s`:
the store goes from `l` to `l'` while the calls `es` are made.  Loads and unloads
are well bracketed (`bal`), and with unique ids every store write and handler call
is for an item with source id `S` (`src`). -/
structure Run (nodes : List Node) (s : Bool) (S : String) (U : Prop)
    (l : List Item) (es : List Event) (l' : List Item) : Prop where
  items : List.Forall₂ (Touched nodes s S U) l l'
  cons : ∀ q, updC q es + pend q s l' = pend q s l
  chk : ∀ q, chkC q es = updC q es
  unl : ∀ q, unlC q es = loadC q es
  ok : ∀ e ∈ es, okEvent nodes s l e
  bal : ∀ held, balance held es = some held
  src : U → ∀ e ∈ es, evSrc S e

/-- The handler commits every read-state change synchronously. -/
def Sync (h : Handler) : Prop :=
  ∀ (node : Option Node) (item : Item) (newState : Bool),
    h.acceptReadChange node item newState = true

/-- What the fan-out loop relies on when it re-enters the entry point `f` for a
loaded duplicate `d` whose node resolves, while fewer than `n` of the stored rows
counted by `q` are pending (`q` has to cover the ids of all rows the fan-out can
reach: every row, or with unique ids `U` the rows sharing the source id of `d`):
the call returns, does not touch the nodes, and its effect on store and trace is a
`Run`; under a synchronous handler the row of `d` ends up not pending. -/
def EntrySpec (h : Handler) (s : Bool) (U : Prop) (q : Nat → Bool) (n : Nat)
    (f : World → Item → Bool → Option (World × Item)) : Prop :=
  ∀ (w : World) (d : Item), db_find w d.id = some d → resolves w.nodes d.nodeId = true →
    (U → (w.items.map (fun r => r.id)).Nodup) →
    (∀ r ∈ w.items, (U → r.sourceId = d.sourceId) → q r.id = true) →
    pend q s w.items < n →
    ∃ w' d' es, f w d s = some (w', d') ∧ d'.id = d.id ∧ w'.nodes = w.nodes
      ∧ w'.trace = w.trace ++ es ∧ Run w.nodes s d.sourceId U w.items es w'.items
      ∧ (Sync h → ∃ r', db_find w' d.id = some r' ∧ pending s r' = false)

/-- The world after steps 1 to 5 of `item_read_state_changed w item s`: the item is
persisted in state `s`, the saved searches and the item list are told, a counter
recompute is requested for the owning node, the notification counter is reset. -/
def committed (w : World) (item : Item) (s : Bool) : World :=
  feedlist_reset_new_item_count
    (node_update_counters
      (itemlist_update_item
        (vfolder_foreach_data_check_item (db_item_state_update w (mark s item)) (mark s item))
        (mark s item))
      (node_from_id w item.nodeId))

/-- The calls made by steps 1 to 5 of `item_read_state_changed w item s`, in order. -/
def commitEvents (w : World) (item : Item) (s : Bool) : List Event :=
  [.db_item_state_update (mark s item), .vfolder_check_item (mark s item),
   .itemlist_update_item (mark s item), .node_update_counters (node_from_id w item.nodeId),
   .feedlist_reset_new_item_count]

/-! ## Vocabulary for the bulk path -/

/-- Set `needsRecount` on a node when `b` holds, leave it alone otherwise. -/
def flagIf (b : Bool) (x : Node) : Node :=
  if b then { x with needsRecount := true } else x

/-- The node ids one visit of the `itemset_mark_read` loop has to flag: if the item
with this id loads and is unread, its owning node id and every node id returned by
the duplicate-node lookup for its source id; nothing otherwise.  (The code makes
the lookup after the handler call; a read-state change moves no item to another
node or source, so the lookup returns this same list, see `itemsetLoop_visit`.) -/
def visitTargets (w : World) (id : Nat) : List String :=
  match db_find w id with
  | some item =>
    if !item.readStatus then
      item.nodeId :: (db_item_get_duplicate_nodes w item.sourceId).2
    else []
  | none => []

/-- Specification side of the recount marking: the node ids `itemset_mark_read` has
to flag while it walks the item ids `iter` from world `w`.  Each id is looked at in
the world the loop has reached when it visits that id, so "unread" means unread
when visited. -/
def recountTargets (h : Handler) (fuel : Nat) : List Nat → World → List String
  | [], _ => []
  | id :: iter, w =>
    visitTargets w id ++ recountTargets h fuel iter ((itemsetLoop h fuel [id] w).getD w)

/-! ## More scenarios -/

/-- An unread item without a usable GUID (`validGuid = false`), owned by node `n1`. -/
def looseA : Item := ⟨1, "", false, false, false, false, "n1"⟩

/-- An already read item of node `n2` that happens to carry the same (empty) source id. -/
def looseB : Item := ⟨2, "", false, true, false, false, "n2"⟩

/-- A store with the two items without GUID, in different nodes. -/
def looseWorld : World := ⟨[looseA, looseB], [scenarioN1, scenarioN2], []⟩

/-- The event is a duplicate lookup or an item load. -/
def isLookup : Event → Bool
  | .db_item_get_duplicates _ => true
  | .db_item_get_duplicate_nodes _ => true
  | .item_load _ _ => true
  | _ => false

/-- The event is a call of the read-state handler for an item whose id satisfies `q`. -/
def hdlOf (q : Nat → Bool) : Event → Bool
  | .node_source_item_mark_read _ x _ => q x.id
  | _ => false

/-- Number of read-state handler calls in a trace for items whose id satisfies `q`. -/
def hdlC (q : Nat → Bool) (es : List Event) : Nat := es.countP (hdlOf q)

/-- The event is a lost-item diagnostic for an item id satisfying `q`. -/
def warnOf (q : Nat → Bool) : Event → Bool
  | .g_warning id _ => q id
  | _ => false

/-- Number of lost-item diagnostics in a trace for item ids satisfying `q`. -/
def warnC (q : Nat → Bool) (es : List Event) : Nat := es.countP (warnOf q)

/-- A node with its dirty flag cleared. -/
def clr (n : Node) : Node := { n with needsRecount := false }

/-- The calls `itemset_mark_read` can make, relative to the store `l` and registry
`nodes` it started from.  A store write or handler call concerns a stored, unread
or updated row whose owning node resolves; the handler is called with `newState =
true` and with a node that is the item's owning node.  A diagnostic concerns a
stored unread row whose owning node does not resolve.  The flag handler is never
called. -/
def bulkOk (nodes : List Node) (l : List Item) : Event → Prop
  | .db_item_state_update x =>
      ∃ r, l.find? (fun r => r.id == x.id) = some r ∧ resolves nodes r.nodeId = true
        ∧ x = mark true r ∧ pending true r = true
  | .node_source_item_mark_read node x b =>
      ∃ r, l.find? (fun r => r.id == x.id) = some r ∧ resolves nodes r.nodeId = true
        ∧ b = true ∧ x = r ∧ pending true r = true
        ∧ ∃ n, node = some n ∧ n.id = x.nodeId
          ∧ (nodes.find? (fun m => m.id == x.nodeId)).map clr = some (clr n)
  | .g_warning id nodeId =>
      ∃ r, l.find? (fun r => r.id == id) = some r ∧ r.nodeId = nodeId
        ∧ resolves nodes nodeId = false ∧ r.readStatus = false
  | .node_source_item_set_flag _ _ _ => False
  | _ => True

/-- Summary of a stretch of the `itemset_mark_read` loop from world `w` to `w'`:
the calls `es` were made, stored rows changed only by being marked read, node ids
resolve as before. -/
structure Bulk (w : World) (es : List Event) (w' : World) : Prop where
  trace : w'.trace = w.trace ++ es
  items : List.Forall₂ (Touched w.nodes true "" False) w.items w'.items
  res : ∀ n, resolves w'.nodes n = resolves w.nodes n
  nds : w'.nodes.map clr = w.nodes.map clr
  ok : ∀ e ∈ es, bulkOk w.nodes w.items e

/-! ## Vocabulary for comparing two runs -/

/-- The calls one visit of the `itemset_mark_read` loop makes when it concerns `item`
alone: the load and unload of `item`, its handler call, the five steps of its
finalizer, the diagnostic, the duplicate-node lookup for its source id and
dirty-flag writes.  Duplicate-item lookups, loads of other items, and handler
calls or store writes for other items are not among them. -/
def soloEvent (item : Item) : Event → Prop
  | .item_load j _ => j = item.id
  | .item_unload j => j = item.id
  | .g_warning _ _ => True
  | .db_item_get_duplicate_nodes sid => sid = item.sourceId
  | .set_recount_flag _ => True
  | .node_source_item_mark_read _ x _ => x = item
  | .db_item_state_update x => x = mark true item
  | .vfolder_check_item _ => True
  | .itemlist_update_item _ => True
  | .node_update_counters _ => True
  | .feedlist_reset_new_item_count => True
  | _ => False

/-- Item B after it has been read. -/
def readB : Item := { scenarioB with readStatus := true }

/-- The two-item scenario after both items have been read. -/
def readWorld : World := ⟨[readA, readB], [scenarioN1, scenarioN2], []⟩

/-- Item X: already read, marked as updated, of another source than A and B. -/
def updatedX : Item := ⟨4, "guid2", true, true, false, true, "n1"⟩

/-- Node `n1` listing the updated item X and the unread item A. -/
def scenarioN4 : Node := ⟨"n1", 1, false, [4, 1]⟩

/-- The two-item scenario with the updated item X added to node `n1`. -/
def updatedWorld : World := ⟨[scenarioA, scenarioB, updatedX], [scenarioN4, scenarioN2], []⟩

/-! ## Item instances

The functions above pass items by value.  In the C code an `itemPtr` is an instance
in memory: `item_load` makes a new instance, `item_unload` releases the instance it
is given.  The functions of this section are the functions above with the
instances made explicit: every item travels with the number `p` of its instance,
and a record `Mem` of the instances is threaded along with the world.  Apart from
that they are the same, line by line. -/

/-- What happens to an item instance: `item_load` made instance `p` for item `id`, or
`item_unload` released instance `p` (which held item `id`). -/
inductive MemEvent where
  | acquire (p : Nat) (id : Nat)
  | release (p : Nat) (id : Nat)
deriving DecidableEq

/-- The record of item instances: `next` is the number the next instance will get
(all instances made so far have smaller numbers), `log` is what has happened so
far (oldest first). -/
structure Mem where
  next : Nat
  log : List MemEvent
deriving DecidableEq

/-- The call `item_load (id)` with the instance it returns made explicit: a successful
load makes a new instance. -/
def item_load_ptr (w : World) (m : Mem) (id : Nat) : World × Mem × Option (Item × Nat) :=
  match item_load w id with
  | (w, some item) =>
    (w, { next := m.next + 1, log := m.log ++ [.acquire m.next id] }, some (item, m.next))
  | (w, none) => (w, m, none)

/-- The call `item_unload (item)` for the instance `p` that `item` points to. -/
def item_unload_ptr (w : World) (m : Mem) (item : Item) (p : Nat) : World × Mem :=
  (item_unload w item, { m with log := m.log ++ [.release p item.id] })

/-- Dispatch `node_source_item_mark_read (node, item, newState)`, where `item` is
the instance `p`. -/
def node_source_item_mark_read_ptr (h : Handler)
    (changed : World → Mem → Item → Nat → Bool → Option (World × Mem × Item))
    (w : World) (m : Mem) (node : Option Node) (item : Item) (p : Nat) (newState : Bool) :
    Option (World × Mem × Item) :=
  let w := emit w (.node_source_item_mark_read node item newState)
  if h.acceptReadChange node item newState then changed w m item p newState
  else some (w, m, item)

/-- The `while (iter)` loop of step 6 of `item_read_state_changed`; `item` (instance
`p`) is the item the finalizer was called for, `duplicate` (instance `q`) is what
`item_load` returned. -/
def duplicatesLoop_ptr
    (setRead : World → Mem → Item → Nat → Bool → Option (World × Mem × Item))
    (item : Item) (p : Nat) (newState : Bool) :
    List Nat → World → Mem → Option (World × Mem)
  | [], w, m => some (w, m)
  | id :: iter, w, m =>
    match item_load_ptr w m id with
    | (w, m, none) => duplicatesLoop_ptr setRead item p newState iter w m
    | (w, m, some (duplicate, q)) =>
      let r :=
        if duplicate.id != item.id && (node_from_id w duplicate.nodeId).isSome then
          setRead w m duplicate q newState
        else some (w, m, duplicate)
      match r with
      | none => none
      | some (w, m, duplicate) =>
        match item_unload_ptr w m duplicate q with
        | (w, m) => duplicatesLoop_ptr setRead item p newState iter w m

/-- Body of `item_read_state_changed (item, newState)`, `item` being instance `p`. -/
def item_read_state_changed_body_ptr
    (setRead : World → Mem → Item → Nat → Bool → Option (World × Mem × Item))
    (w : World) (m : Mem) (item : Item) (p : Nat) (newState : Bool) :
    Option (World × Mem × Item) :=
  /- 1. apply to DB -/
  let item := { item with readStatus := newState, updateStatus := false }
  let w := db_item_state_update w item
  /- 2. add propagate to vfolders (must happen after changing the item state) -/
  let w := vfolder_foreach_data_check_item w item
  /- 3. update item list GUI state -/
  let w := itemlist_update_item w item
  /- 4. updated feed list unread counters -/
  let node := node_from_id w item.nodeId
  let w := node_update_counters w node
  /- 5. update notification statistics -/
  let w := feedlist_reset_new_item_count w
  /- 6. duplicate state propagation -/
  if item.validGuid then
    match db_item_get_duplicates w item.sourceId with
    | (w, duplicates) =>
      (duplicatesLoop_ptr setRead item p newState duplicates w m).map
        (fun r => (r.1, r.2, item))
  else some (w, m, item)

/-- Entry point `item_set_read_state (item, newState)`, `item` being instance `p`. -/
def item_set_read_state_ptr (h : Handler) :
    Nat → World → Mem → Item → Nat → Bool → Option (World × Mem × Item)
  | 0, _, _, _, _, _ => none
  | fuel + 1, w, m, item, p, newState =>
    if newState == item.readStatus && !item.updateStatus then some (w, m, item)
    else
      node_source_item_mark_read_ptr h
        (item_read_state_changed_body_ptr (item_set_read_state_ptr h fuel))
        w m (node_from_id w item.nodeId) item p newState

/-- Finalizer `item_read_state_changed (item, newState)`, `item` being instance `p`. -/
def item_read_state_changed_ptr (h : Handler) (fuel : Nat) (w : World) (m : Mem)
    (item : Item) (p : Nat) (newState : Bool) : Option (World × Mem × Item) :=
  item_read_state_changed_body_ptr (item_set_read_state_ptr h fuel) w m item p newState

/-- The outer `while (iter)` loop of `itemset_mark_read`; `item` (instance `p`) is what
`item_load` returned. -/
def itemsetLoop_ptr (h : Handler) (fuel : Nat) :
    List Nat → World → Mem → Option (World × Mem)
  | [], w, m => some (w, m)
  | id :: iter, w, m =>
    match item_load_ptr w m id with
    | (w, m, none) => itemsetLoop_ptr h fuel iter w m
    | (w, m, some (item, p)) =>
      if !item.readStatus then
        let r :=
          match node_from_id w item.nodeId with
          | some node =>
            match item_state_set_recount_flag w node with
            | (w, node) =>
              node_source_item_mark_read_ptr h (item_read_state_changed_ptr h fuel)
                w m (some node) item p true
          | none => some (g_warning w item, m, item)
        match r with
        | none => none
        | some (w, m, item) =>
          match db_item_get_duplicate_nodes w item.sourceId with
          | (w, duplicates) =>
            match item_unload_ptr (duplicateNodesLoop duplicates w) m item p with
            | (w, m) => itemsetLoop_ptr h fuel iter w m
      else
        match item_unload_ptr w m item p with
        | (w, m) => itemsetLoop_ptr h fuel iter w m

/-- Bulk path `itemset_mark_read (node)` with the item instances made explicit. -/
def itemset_mark_read_ptr (h : Handler) (fuel : Nat) (w : World) (m : Mem) (node : Node) :
    Option (World × Mem) :=
  if node.unreadCount == 0 then some (w, m)
  else
    match node_get_itemset w node with
    | (w, itemSet) => itemsetLoop_ptr h fuel itemSet w m

/-! ## Vocabulary for item instances -/

/-- The instance an event of the record makes, if it makes one. -/
def acqOf : MemEvent → Option Nat
  | .acquire p _ => some p
  | .release _ _ => none

/-- The call in the trace that an event of the record belongs to. -/
def shadow : MemEvent → Event
  | .acquire _ id => .item_load id true
  | .release _ id => .item_unload id

/-- The event is a successful `item_load` or an `item_unload`. -/
def isLoadUnload : Event → Bool
  | .item_load _ true => true
  | .item_unload _ => true
  | _ => false

/-- One step of replaying the record against the stack `held` of instances that
exist and are not yet released (most recent first): a new instance is added, and a
release has to release the most recent instance still held (the replay fails
otherwise, in particular when it releases another instance or nothing is held). -/
def memStep (held : List Nat) : MemEvent → Option (List Nat)
  | .acquire p _ => some (p :: held)
  | .release p _ =>
    match held with
    | top :: rest => if top == p then some rest else none
    | [] => none

/-- Replay of a whole record against the stack of held instances. -/
def memBalance (held : List Nat) (lg : List MemEvent) : Option (List Nat) :=
  lg.foldlM memStep held

/-- The event makes instance `p`. -/
def isAcq (p : Nat) : MemEvent → Bool
  | .acquire q _ => q == p
  | .release _ _ => false

/-- The event releases instance `p`. -/
def isRel (p : Nat) : MemEvent → Bool
  | .acquire _ _ => false
  | .release q _ => q == p

/-- How a stretch of execution treats item instances, from world `w` and record `m`
to `w'` and `m'`: the record grows by `lg`; releases are well bracketed; the
instances made are new and numbered consecutively from `m.next`; only instances
made in this stretch are released; and `lg` is, event by event, the successful
loads and the unloads of the trace of the stretch. -/
structure Tracks (w : World) (m : Mem) (w' : World) (m' : Mem) (lg : List MemEvent) :
    Prop where
  log : m'.log = m.log ++ lg
  bal : ∀ held, memBalance held lg = some held
  fresh : ∃ k, m'.next = m.next + k ∧ lg.filterMap acqOf = List.range' m.next k
  rel : ∀ p id, MemEvent.release p id ∈ lg → m.next ≤ p ∧ p < m'.next
  calls : w'.trace.filter isLoadUnload = w.trace.filter isLoadUnload ++ lg.map shadow

/-- A result with instances agrees with the result without: both run out of budget,
or both return the same world and item, and the instances are treated as `Tracks`
says. -/
def Agree (w : World) (m : Mem) :
    Option (World × Mem × Item) → Option (World × Item) → Prop
  | none, none => True
  | some r, some r' => r.1 = r'.1 ∧ r.2.2 = r'.2 ∧ ∃ lg, Tracks w m r.1 r.2.1 lg
  | _, _ => False

/-- Acquire-use-release balance of a run that started with record `m`, made the
calls `es` and added `lg` to the record: `lg` is, event by event, the successful
loads and the unloads among `es` (a failed load makes no instance); every
successful load made a new instance; each release releases the most recent of the
instances still held; every instance made in the run is released exactly once;
and only instances made in the run are released. -/
structure Released (m : Mem) (es : List Event) (lg : List MemEvent) : Prop where
  calls : lg.map shadow = es.filter isLoadUnload
  fresh : ∃ k, lg.filterMap acqOf = List.range' m.next k
  bal : ∀ held, memBalance held lg = some held
  once : ∀ q ∈ lg.filterMap acqOf, lg.countP (isRel q) = 1
  own : ∀ q id, MemEvent.release q id ∈ lg → q ∈ lg.filterMap acqOf

/-- The same for the results of a loop. -/
def AgreeW (w : World) (m : Mem) : Option (World × Mem) → Option World → Prop
  | none, none => True
  | some r, some w' => r.1 = w' ∧ ∃ lg, Tracks w m r.1 r.2 lg
  | _, _ => False

/-! ## Facts about the store -/

theorem storePut_cons_eq {item r : Item} (rs : List Item) (h : r.id = item.id) :
    storePut item (r :: rs) = item :: rs := by
  simp [storePut, h]

theorem storePut_cons_ne {item r : Item} (rs : List Item) (h : r.id ≠ item.id) :
    storePut item (r :: rs) = r :: storePut item rs := by
  simp [storePut, h]

theorem find_id_cons_eq {r : Item} {j : Nat} (rs : List Item) (h : r.id = j) :
    (r :: rs).find? (fun r => r.id == j) = some r := by
  simp [List.find?_cons, h]

theorem find_id_cons_ne {r : Item} {j : Nat} (rs : List Item) (h : r.id ≠ j) :
    (r :: rs).find? (fun r => r.id == j) = rs.find? (fun r => r.id == j) := by
  have : (r.id == j) = false := by simpa using h
  simp [List.find?_cons, this]

theorem find_storePut (item : Item) (l : List Item) (j : Nat) :
    (storePut item l).find? (fun r => r.id == j)
      = if item.id == j then some item else l.find? (fun r => r.id == j) := by
  induction l with
  | nil =>
    by_cases hj : item.id = j
    · simp [storePut, hj]
    · simp [storePut, hj]
  | cons r rs ih =>
    by_cases hr : r.id = item.id
    · rw [storePut_cons_eq rs hr]
      by_cases hj : item.id = j
      · rw [find_id_cons_eq rs hj]; simp [hj]
      · rw [find_id_cons_ne rs hj, find_id_cons_ne rs (fun e => hj (hr.symm.trans e))]
        simp [hj]
    · rw [storePut_cons_ne rs hr]
      by_cases hrj : r.id = j
      · rw [find_id_cons_eq _ hrj, find_id_cons_eq _ hrj]
        have : ¬ item.id = j := fun e => hr (hrj.trans e.symm)
        simp [this]
      · rw [find_id_cons_ne _ hrj, find_id_cons_ne _ hrj, ih]

theorem filter_storePut (item : Item) (l : List Item) :
    (storePut item l).filter (fun r => r.id != item.id)
      = l.filter (fun r => r.id != item.id) := by
  induction l with
  | nil => simp [storePut]
  | cons r rs ih =>
    by_cases hr : r.id = item.id
    · simp [storePut, hr]
    · simp [storePut, hr, ih]

theorem db_find_update (w : World) (item : Item) (j : Nat) :
    db_find (db_item_state_update w item) j
      = if item.id == j then some item else db_find w j := by
  simp [db_find, db_item_state_update, emit, find_storePut]

@[simp] theorem db_find_emit (w : World) (e : Event) (j : Nat) :
    db_find (emit w e) j = db_find w j := rfl

@[simp] theorem node_from_id_emit (w : World) (e : Event) (n : String) :
    node_from_id (emit w e) n = node_from_id w n := rfl

@[simp] theorem emit_items (w : World) (e : Event) : (emit w e).items = w.items := rfl

@[simp] theorem emit_nodes (w : World) (e : Event) : (emit w e).nodes = w.nodes := rfl

@[simp] theorem emit_trace (w : World) (e : Event) : (emit w e).trace = w.trace ++ [e] := rfl

/-! ## Facts about marking and the fan-out summary -/

@[simp] theorem mark_id (s : Bool) (r : Item) : (mark s r).id = r.id := rfl

@[simp] theorem mark_nodeId (s : Bool) (r : Item) : (mark s r).nodeId = r.nodeId := rfl

@[simp] theorem mark_sourceId (s : Bool) (r : Item) : (mark s r).sourceId = r.sourceId := rfl

@[simp] theorem mark_mark (s : Bool) (r : Item) : mark s (mark s r) = mark s r := rfl

@[simp] theorem pending_mark (s : Bool) (r : Item) : pending s (mark s r) = false := by
  simp [pending, mark]

theorem Touched.id_eq {nodes : List Node} {s : Bool} {S : String} {U : Prop} {r r' : Item}
    (h : Touched nodes s S U r r') : r'.id = r.id := by
  rcases h with h | ⟨h, _⟩ <;> simp [h]

theorem Touched.nodeId_eq {nodes : List Node} {s : Bool} {S : String} {U : Prop}
    {r r' : Item} (h : Touched nodes s S U r r') : r'.nodeId = r.nodeId := by
  rcases h with h | ⟨h, _⟩ <;> simp [h]

theorem Touched.sourceId_eq {nodes : List Node} {s : Bool} {S : String} {U : Prop}
    {r r' : Item} (h : Touched nodes s S U r r') : r'.sourceId = r.sourceId := by
  rcases h with h | ⟨h, _⟩ <;> simp [h]

theorem Touched.mark_eq {nodes : List Node} {s : Bool} {S : String} {U : Prop}
    {r r' : Item} (h : Touched nodes s S U r r') : mark s r' = mark s r := by
  rcases h with h | ⟨h, _⟩ <;> simp [h]

theorem Touched.not_pending {nodes : List Node} {s : Bool} {S : String} {U : Prop}
    {r r' : Item} (h : Touched nodes s S U r r') (hr : pending s r = false) :
    pending s r' = false := by
  rcases h with h | ⟨h, _⟩ <;> simp [h, hr]

theorem Touched.comp {nodes : List Node} {s : Bool} {S : String} {U : Prop}
    {a b c : Item} (h1 : Touched nodes s S U a b) (h2 : Touched nodes s S U b c) :
    Touched nodes s S U a c := by
  rcases h1 with h1 | ⟨h1, hp, hr, hu⟩
  · subst h1; exact h2
  · rcases h2 with h2 | ⟨_, hp2, _⟩
    · subst h2; exact Or.inr ⟨h1, hp, hr, hu⟩
    · rw [h1, pending_mark] at hp2; exact absurd hp2 (by simp)

theorem forall2_touched_refl (nodes : List Node) (s : Bool) (S : String) (U : Prop)
    (l : List Item) : List.Forall₂ (Touched nodes s S U) l l := by
  induction l with
  | nil => exact List.Forall₂.nil
  | cons r rs ih => exact List.Forall₂.cons (Or.inl rfl) ih

theorem forall2_touched_trans {nodes : List Node} {s : Bool} {S : String} {U : Prop}
    {l1 l2 l3 : List Item} (h1 : List.Forall₂ (Touched nodes s S U) l1 l2)
    (h2 : List.Forall₂ (Touched nodes s S U) l2 l3) :
    List.Forall₂ (Touched nodes s S U) l1 l3 := by
  induction h1 generalizing l3 with
  | nil => cases h2; exact List.Forall₂.nil
  | cons hab _ ih =>
    cases h2 with
    | cons hbc hrest => exact List.Forall₂.cons (hab.comp hbc) (ih hrest)

theorem forall2_touched_ids {nodes : List Node} {s : Bool} {S : String} {U : Prop}
    {l l' : List Item} (h : List.Forall₂ (Touched nodes s S U) l l') :
    l'.map (fun r => r.id) = l.map (fun r => r.id) := by
  induction h with
  | nil => rfl
  | cons hab _ ih => simp [hab.id_eq, ih]

theorem forall2_touched_find {nodes : List Node} {s : Bool} {S : String} {U : Prop}
    {l l' : List Item} (h : List.Forall₂ (Touched nodes s S U) l l') (j : Nat) :
    (∀ r, l.find? (fun r => r.id == j) = some r →
        ∃ r', l'.find? (fun r => r.id == j) = some r' ∧ Touched nodes s S U r r')
    ∧ (∀ r', l'.find? (fun r => r.id == j) = some r' →
        ∃ r, l.find? (fun r => r.id == j) = some r ∧ Touched nodes s S U r r')
    ∧ (l.find? (fun r => r.id == j) = none → l'.find? (fun r => r.id == j) = none) := by
  induction h with
  | nil => simp
  | @cons a b as bs hab _ ih =>
    by_cases ha : a.id = j
    · have hb : b.id = j := hab.id_eq.trans ha
      rw [find_id_cons_eq as ha, find_id_cons_eq bs hb]
      refine ⟨?_, ?_, ?_⟩
      · intro r hr; cases hr; exact ⟨b, rfl, hab⟩
      · intro r' hr'; cases hr'; exact ⟨a, rfl, hab⟩
      · intro hn; cases hn
    · have hb : b.id ≠ j := fun e => ha (hab.id_eq.symm.trans e)
      rw [find_id_cons_ne as ha, find_id_cons_ne bs hb]
      exact ih

theorem forall2_touched_weaken {nodes : List Node} {s : Bool} {S S' : String} {U : Prop}
    {l l' : List Item} (hS : U → S' = S) (h : List.Forall₂ (Touched nodes s S' U) l l') :
    List.Forall₂ (Touched nodes s S U) l l' := by
  induction h with
  | nil => exact List.Forall₂.nil
  | cons hab _ ih =>
    refine List.Forall₂.cons ?_ ih
    rcases hab with h | ⟨h, hp, hr, hu⟩
    · exact Or.inl h
    · exact Or.inr ⟨h, hp, hr, fun u => (hu u).trans (hS u)⟩

theorem updC_append (q : Nat → Bool) (a b : List Event) :
    updC q (a ++ b) = updC q a + updC q b := by
  simp [updC, List.countP_append]

theorem chkC_append (q : Nat → Bool) (a b : List Event) :
    chkC q (a ++ b) = chkC q a + chkC q b := by
  simp [chkC, List.countP_append]

theorem loadC_append (q : Nat → Bool) (a b : List Event) :
    loadC q (a ++ b) = loadC q a + loadC q b := by
  simp [loadC, List.countP_append]

theorem unlC_append (q : Nat → Bool) (a b : List Event) :
    unlC q (a ++ b) = unlC q a + unlC q b := by
  simp [unlC, List.countP_append]

theorem okEvent_transfer {nodes : List Node} {s : Bool} {S : String} {U : Prop}
    {l l1 : List Item} (h : List.Forall₂ (Touched nodes s S U) l l1) (e : Event)
    (he : okEvent nodes s l1 e) : okEvent nodes s l e := by
  cases e with
  | db_item_state_update x =>
    obtain ⟨r1, hf, hres, hx, hp⟩ := he
    obtain ⟨r, hfr, ht⟩ := (forall2_touched_find h x.id).2.1 r1 hf
    have hr1 : r1 = r := by
      rcases ht with ht | ⟨ht, _⟩
      · exact ht
      · rw [ht, pending_mark] at hp; cases hp
    subst hr1
    exact ⟨r1, hfr, hres, hx, hp⟩
  | node_source_item_mark_read node x b =>
    obtain ⟨r1, hf, hres, hx, hb, hn, hp, hxr⟩ := he
    obtain ⟨r, hfr, ht⟩ := (forall2_touched_find h x.id).2.1 r1 hf
    have hr1 : r1 = r := by
      rcases ht with ht | ⟨ht, _⟩
      · exact ht
      · rw [ht, pending_mark] at hp; cases hp
    subst hr1
    exact ⟨r1, hfr, hres, hx, hb, hn, hp, hxr⟩
  | _ => exact he

theorem balance_nil (held : List Nat) : balance held [] = some held := rfl

theorem balance_cons (held : List Nat) (e : Event) (es : List Event) :
    balance held (e :: es) = (balanceStep held e).bind (fun st => balance st es) := by
  simp only [balance, List.foldlM_cons]
  rfl

theorem balance_single (held : List Nat) (e : Event) :
    balance held [e] = balanceStep held e := by
  rw [balance_cons]
  cases balanceStep held e <;> rfl

theorem balance_append (held : List Nat) (a b : List Event) :
    balance held (a ++ b) = (balance held a).bind (fun st => balance st b) := by
  induction a generalizing held with
  | nil => rfl
  | cons e a ih =>
    rw [List.cons_append, balance_cons, balance_cons]
    cases balanceStep held e with
    | none => rfl
    | some st => exact ih st

/-- Two well-bracketed stretches in a row are well bracketed. -/
theorem balance_seq {held : List Nat} {a b : List Event}
    (ha : balance held a = some held) (hb : balance held b = some held) :
    balance held (a ++ b) = some held := by
  rw [balance_append, ha]; exact hb

/-- A successful load, a well-bracketed stretch, and the unload of the loaded item. -/
theorem balance_wrap {es : List Event} (j : Nat) (h : ∀ held, balance held es = some held)
    (held : List Nat) :
    balance held ([.item_load j true] ++ es ++ [.item_unload j]) = some held := by
  rw [balance_append, balance_append, balance_single]
  show (Option.bind (some (j :: held)) (fun st => balance st es)).bind _ = _
  rw [Option.some_bind, h (j :: held), Option.some_bind, balance_single]
  simp [balanceStep]

theorem Run.refl (nodes : List Node) (s : Bool) (S : String) (U : Prop) (l : List Item) :
    Run nodes s S U l [] l where
  items := forall2_touched_refl nodes s S U l
  cons := by intro q; simp [updC, updOf, List.countP_cons]
  chk := by intro q; simp [updC, chkC, updOf, chkOf, List.countP_cons]
  unl := by intro q; simp [unlC, loadC, unlOf, loadOf, List.countP_cons]
  ok := by intro e he; cases he
  bal := fun _ => rfl
  src := by intro _ e he; cases he

theorem Run.trans {nodes : List Node} {s : Bool} {S : String} {U : Prop}
    {l l1 l2 : List Item} {es1 es2 : List Event}
    (h1 : Run nodes s S U l es1 l1) (h2 : Run nodes s S U l1 es2 l2) :
    Run nodes s S U l (es1 ++ es2) l2 where
  items := forall2_touched_trans h1.items h2.items
  cons := by
    intro q
    have a := h1.cons q
    have b := h2.cons q
    rw [updC_append]; omega
  chk := by intro q; rw [chkC_append, updC_append, h1.chk, h2.chk]
  unl := by intro q; rw [unlC_append, loadC_append, h1.unl, h2.unl]
  ok := by
    intro e he
    rcases List.mem_append.mp he with he | he
    · exact h1.ok e he
    · exact okEvent_transfer h1.items e (h2.ok e he)
  bal := fun held => balance_seq (h1.bal held) (h2.bal held)
  src := by
    intro u e he
    rcases List.mem_append.mp he with he | he
    · exact h1.src u e he
    · exact h2.src u e he

theorem Run.weaken {nodes : List Node} {s : Bool} {S S' : String} {U : Prop}
    {l l' : List Item} {es : List Event} (hS : U → S' = S)
    (h : Run nodes s S' U l es l') : Run nodes s S U l es l' where
  items := forall2_touched_weaken hS h.items
  cons := h.cons
  chk := h.chk
  unl := h.unl
  ok := h.ok
  bal := h.bal
  src := by
    intro u e he
    have := h.src u e he
    rw [hS u] at this
    exact this

/-- A summary that does not rely on unique ids. -/
theorem Run.forget {nodes : List Node} {s : Bool} {S : String} {U : Prop}
    {l l' : List Item} {es : List Event}
    (h : Run nodes s S U l es l') : Run nodes s S False l es l' where
  items := h.items.imp (fun _ _ hab =>
    hab.elim Or.inl (fun hm => Or.inr ⟨hm.1, hm.2.1, hm.2.2.1, fun u => u.elim⟩))
  cons := h.cons
  chk := h.chk
  unl := h.unl
  ok := h.ok
  bal := h.bal
  src := fun u => u.elim

/-- A failed load changes nothing and needs no unload. -/
theorem Run.load_none (nodes : List Node) (s : Bool) (S : String) (U : Prop)
    (l : List Item) (j : Nat) : Run nodes s S U l [.item_load j false] l where
  items := forall2_touched_refl nodes s S U l
  cons := by intro q; simp [updC, updOf, List.countP_cons]
  chk := by intro q; simp [updC, chkC, updOf, chkOf, List.countP_cons]
  unl := by intro q; simp [unlC, loadC, unlOf, loadOf, List.countP_cons]
  ok := by
    intro e he
    rw [List.mem_singleton] at he
    subst he; trivial
  bal := fun held => by rw [balance_single]; rfl
  src := by
    intro _ e he
    rw [List.mem_singleton] at he
    subst he; trivial

/-- The duplicate lookup changes nothing. -/
theorem Run.get_duplicates (nodes : List Node) (s : Bool) (S : String) (U : Prop)
    (l : List Item) (sid : String) : Run nodes s S U l [.db_item_get_duplicates sid] l where
  items := forall2_touched_refl nodes s S U l
  cons := by intro q; simp [updC, updOf, List.countP_cons]
  chk := by intro q; simp [updC, chkC, updOf, chkOf, List.countP_cons]
  unl := by intro q; simp [unlC, loadC, unlOf, loadOf, List.countP_cons]
  ok := by
    intro e he
    rw [List.mem_singleton] at he
    subst he; trivial
  bal := fun held => by rw [balance_single]; rfl
  src := by
    intro _ e he
    rw [List.mem_singleton] at he
    subst he; trivial

/-- A successful load, some work, and the unload of the loaded item. -/
theorem Run.wrap {nodes : List Node} {s : Bool} {S : String} {U : Prop}
    {l l' : List Item} {es : List Event} (j : Nat) (h : Run nodes s S U l es l') :
    Run nodes s S U l ([.item_load j true] ++ es ++ [.item_unload j]) l' where
  items := h.items
  cons := by
    intro q
    have a := h.cons q
    rw [updC_append, updC_append]
    simpa [updC, updOf, List.countP_cons] using a
  chk := by
    intro q
    rw [chkC_append, chkC_append, updC_append, updC_append, h.chk]
    simp [updC, chkC, updOf, chkOf, List.countP_cons]
  unl := by
    intro q
    rw [unlC_append, unlC_append, loadC_append, loadC_append, h.unl]
    simp [unlC, loadC, unlOf, loadOf, List.countP_cons]
    omega
  ok := by
    intro e he
    simp only [List.mem_append, List.mem_singleton] at he
    rcases he with (he | he) | he
    · subst he; trivial
    · exact h.ok e he
    · subst he; trivial
  bal := balance_wrap j h.bal
  src := by
    intro u e he
    simp only [List.mem_append, List.mem_singleton] at he
    rcases he with (he | he) | he
    · subst he; trivial
    · exact h.src u e he
    · subst he; trivial

theorem forall2_touched_storePut {nodes : List Node} {s : Bool} {S : String} {U : Prop}
    {l : List Item} {d : Item} (hf : l.find? (fun r => r.id == d.id) = some d)
    (hp : pending s d = true) (hr : resolves nodes d.nodeId = true)
    (hu : U → d.sourceId = S) :
    List.Forall₂ (Touched nodes s S U) l (storePut (mark s d) l) := by
  induction l with
  | nil => simp at hf
  | cons r rs ih =>
    by_cases hrd : r.id = d.id
    · rw [find_id_cons_eq rs hrd] at hf
      cases hf
      rw [storePut_cons_eq rs (by simp)]
      exact List.Forall₂.cons (Or.inr ⟨rfl, hp, hr, hu⟩) (forall2_touched_refl _ _ _ _ rs)
    · rw [find_id_cons_ne rs hrd] at hf
      rw [storePut_cons_ne rs (by simpa using hrd)]
      exact List.Forall₂.cons (Or.inl rfl) (ih hf)

theorem pend_storePut {s : Bool} {l : List Item} {d : Item} (q : Nat → Bool)
    (hf : l.find? (fun r => r.id == d.id) = some d) (hp : pending s d = true) :
    pend q s (storePut (mark s d) l) + (if q d.id then 1 else 0) = pend q s l := by
  induction l with
  | nil => simp at hf
  | cons r rs ih =>
    by_cases hrd : r.id = d.id
    · rw [find_id_cons_eq rs hrd] at hf
      cases hf
      rw [storePut_cons_eq rs (by simp)]
      by_cases hq : q d.id = true
      · simp [pend, List.countP_cons, hq, hp]
      · simp [pend, List.countP_cons, hq, hp]
    · rw [find_id_cons_ne rs hrd] at hf
      rw [storePut_cons_ne rs (by simpa using hrd)]
      have := ih hf
      simp only [pend, List.countP_cons] at this ⊢
      omega

/-- One committed change of a stored, pending item whose node resolves: the
handler call and the first five steps of `item_read_state_changed`. -/
theorem Run.commit {nodes : List Node} {s : Bool} {S : String} {U : Prop}
    {l : List Item} {d : Item} (hf : l.find? (fun r => r.id == d.id) = some d)
    (hp : pending s d = true) (hr : resolves nodes d.nodeId = true)
    (hu : U → d.sourceId = S) (n2 : Option Node) :
    Run nodes s S U l
      [.node_source_item_mark_read (nodes.find? (fun n => n.id == d.nodeId)) d s,
       .db_item_state_update (mark s d), .vfolder_check_item (mark s d),
       .itemlist_update_item (mark s d), .node_update_counters n2,
       .feedlist_reset_new_item_count]
      (storePut (mark s d) l) where
  items := forall2_touched_storePut hf hp hr hu
  cons := by
    intro q
    have := pend_storePut q hf hp
    by_cases hq : q d.id = true
    · simp [updC, updOf, List.countP_cons, hq] at this ⊢; omega
    · simp [updC, updOf, List.countP_cons, hq] at this ⊢; omega
  chk := by intro q; simp [updC, chkC, updOf, chkOf, List.countP_cons]
  unl := by intro q; simp [unlC, loadC, unlOf, loadOf, List.countP_cons]
  ok := by
    intro e he
    simp only [List.mem_cons, List.mem_singleton, List.not_mem_nil, or_false] at he
    rcases he with he | he | he | he | he | he <;> subst he
    · exact ⟨d, hf, hr, Or.inl rfl, rfl, rfl, hp, rfl⟩
    · exact ⟨d, hf, hr, rfl, hp⟩
    all_goals trivial
  bal := fun held => by
    simp only [balance_cons, balanceStep, Option.some_bind, balance_nil]
  src := by
    intro u e he
    simp only [List.mem_cons, List.mem_singleton, List.not_mem_nil, or_false] at he
    rcases he with he | he | he | he | he | he <;> subst he
    · exact hu u
    · exact hu u
    all_goals trivial

/-- A deferred request: only the handler call is made. -/
theorem Run.defer {nodes : List Node} {s : Bool} {S : String} {U : Prop}
    {l : List Item} {d : Item} (hf : l.find? (fun r => r.id == d.id) = some d)
    (hp : pending s d = true) (hr : resolves nodes d.nodeId = true)
    (hu : U → d.sourceId = S) :
    Run nodes s S U l
      [.node_source_item_mark_read (nodes.find? (fun n => n.id == d.nodeId)) d s] l where
  items := forall2_touched_refl nodes s S U l
  cons := by intro q; simp [updC, updOf, List.countP_cons]
  chk := by intro q; simp [updC, chkC, updOf, chkOf, List.countP_cons]
  unl := by intro q; simp [unlC, loadC, unlOf, loadOf, List.countP_cons]
  ok := by
    intro e he
    rw [List.mem_singleton] at he
    subst he
    exact ⟨d, hf, hr, Or.inl rfl, rfl, rfl, hp, rfl⟩
  bal := fun held => by rw [balance_single]; rfl
  src := by
    intro u e he
    rw [List.mem_singleton] at he
    subst he
    exact hu u

/-! ## The duplicate fan-out loop -/

theorem find_id_eq {l : List Item} {j : Nat} {r : Item}
    (h : l.find? (fun r => r.id == j) = some r) : r.id = j := by
  have := List.find?_some h
  simpa using this

theorem duplicatesLoop_cons_none {f : World → Item → Bool → Option (World × Item)}
    {it : Item} {s : Bool} {j : Nat} {L : List Nat} {w : World} (hn : db_find w j = none) :
    duplicatesLoop f it s (j :: L) w
      = duplicatesLoop f it s L (emit w (.item_load j false)) := by
  simp [duplicatesLoop, item_load, hn]

theorem duplicatesLoop_cons_skip {f : World → Item → Bool → Option (World × Item)}
    {it : Item} {s : Bool} {j : Nat} {L : List Nat} {w : World} {d : Item}
    (hd : db_find w j = some d)
    (hc : (d.id != it.id && resolves w.nodes d.nodeId) = false) :
    duplicatesLoop f it s (j :: L) w
      = duplicatesLoop f it s L (emit (emit w (.item_load j true)) (.item_unload d.id)) := by
  have hc2 : (d.id != it.id && (node_from_id (emit w (.item_load j true)) d.nodeId).isSome)
      = false := hc
  simp only [duplicatesLoop, item_load, hd, Option.isSome_some]
  rw [hc2]
  rfl

theorem duplicatesLoop_cons_call {f : World → Item → Bool → Option (World × Item)}
    {it : Item} {s : Bool} {j : Nat} {L : List Nat} {w w2 : World} {d d2 : Item}
    (hd : db_find w j = some d)
    (hc : (d.id != it.id && resolves w.nodes d.nodeId) = true)
    (hf : f (emit w (.item_load j true)) d s = some (w2, d2)) :
    duplicatesLoop f it s (j :: L) w
      = duplicatesLoop f it s L (emit w2 (.item_unload d2.id)) := by
  have hc2 : (d.id != it.id && (node_from_id (emit w (.item_load j true)) d.nodeId).isSome)
      = true := hc
  simp only [duplicatesLoop, item_load, hd, Option.isSome_some]
  rw [hc2]
  simp only [if_true, hf]
  rfl

theorem Run.pend_le {nodes : List Node} {s : Bool} {S : String} {U : Prop}
    {l l' : List Item} {es : List Event} (h : Run nodes s S U l es l') (q : Nat → Bool) :
    pend q s l' ≤ pend q s l := by
  have := h.cons q
  omega

theorem Run.nodup {nodes : List Node} {s : Bool} {S : String} {U : Prop}
    {l l' : List Item} {es : List Event} (h : Run nodes s S U l es l')
    (hn : (l.map (fun r => r.id)).Nodup) : (l'.map (fun r => r.id)).Nodup := by
  rw [forall2_touched_ids h.items]; exact hn

theorem cover_transfer {nodes : List Node} {s : Bool} {S S' : String} {U : Prop}
    {q : Nat → Bool} {l l' : List Item} (h : List.Forall₂ (Touched nodes s S' U) l l')
    (hq : ∀ r ∈ l, (U → r.sourceId = S) → q r.id = true) :
    ∀ r' ∈ l', (U → r'.sourceId = S) → q r'.id = true := by
  induction h with
  | nil => intro r' hr'; cases hr'
  | @cons a b as bs hab _ ih =>
    intro r' hr' hsrc
    rcases List.mem_cons.mp hr' with hb | hb
    · subst hb
      rw [hab.id_eq]
      exact hq a (List.mem_cons_self _ _) (fun u => by rw [← hab.sourceId_eq]; exact hsrc u)
    · exact ih (fun r hr => hq r (List.mem_cons_of_mem _ hr)) r' hb hsrc

theorem duplicatesLoop_spec {h : Handler} {s : Bool} {U : Prop} {q : Nat → Bool} {n : Nat}
    {f : World → Item → Bool → Option (World × Item)} (hf : EntrySpec h s U q n f)
    (it : Item) (S : String) :
    ∀ (L : List Nat) (w : World), (U → (w.items.map (fun r => r.id)).Nodup) →
      (U → ∀ j ∈ L, ∀ r, db_find w j = some r → r.sourceId = S) →
      (∀ r ∈ w.items, (U → r.sourceId = S) → q r.id = true) →
      pend q s w.items < n →
      ∃ w' es, duplicatesLoop f it s L w = some w' ∧ w'.nodes = w.nodes
        ∧ w'.trace = w.trace ++ es ∧ Run w.nodes s S U w.items es w'.items
        ∧ (Sync h → ∀ j ∈ L, j ≠ it.id → ∀ r, db_find w j = some r →
            resolves w.nodes r.nodeId = true →
            ∃ r', db_find w' j = some r' ∧ pending s r' = false) := by
  intro L
  induction L with
  | nil =>
    intro w _ _ _ _
    exact ⟨w, [], rfl, rfl, by simp, Run.refl _ _ _ _ _, by intro _ j hj; cases hj⟩
  | cons j L ih =>
    intro w hU hS hq hfuel
    -- one iteration: from `w` to `w3` with events `es1`
    have step : ∃ w3 es1, duplicatesLoop f it s (j :: L) w = duplicatesLoop f it s L w3
        ∧ w3.nodes = w.nodes ∧ w3.trace = w.trace ++ es1
        ∧ Run w.nodes s S U w.items es1 w3.items
        ∧ (Sync h → j ≠ it.id → ∀ r, db_find w j = some r →
            resolves w.nodes r.nodeId = true →
            ∃ r', db_find w3 j = some r' ∧ pending s r' = false) := by
      cases hd : db_find w j with
      | none =>
        refine ⟨emit w (.item_load j false), [.item_load j false],
          duplicatesLoop_cons_none hd, rfl, rfl, Run.load_none _ _ _ _ _ _, ?_⟩
        intro _ _ r hr; cases hr
      | some d =>
        have hdj : d.id = j := find_id_eq hd
        cases hc : (d.id != it.id && resolves w.nodes d.nodeId) with
        | false =>
          refine ⟨emit (emit w (.item_load j true)) (.item_unload d.id),
            [.item_load j true] ++ [] ++ [.item_unload j],
            duplicatesLoop_cons_skip hd hc, rfl, ?_, Run.wrap j (Run.refl _ _ _ _ _), ?_⟩
          · simp [hdj]
          · intro _ hne r hr hres
            cases hr
            have : d.id ≠ it.id := by rw [hdj]; exact hne
            simp [this, hres] at hc
        | true =>
          have hres : resolves w.nodes d.nodeId = true := by
            simp only [Bool.and_eq_true] at hc; exact hc.2
          obtain ⟨w2, d2, es, hcall, hid, hnodes, htrace, hrun, hsync⟩ :=
            hf (emit w (.item_load j true)) d (by rw [hdj]; exact hd) hres hU
              (fun r hr hsrc => hq r hr
                (fun u => (hsrc u).trans (hS u j (List.mem_cons_self _ _) d hd)))
              hfuel
          have hrun2 : Run w.nodes s S U w.items es w2.items :=
            Run.weaken (fun u => hS u j (List.mem_cons_self _ _) d hd) hrun
          refine ⟨emit w2 (.item_unload d2.id), [.item_load j true] ++ es ++ [.item_unload j],
            duplicatesLoop_cons_call hd hc hcall, hnodes, ?_, Run.wrap j hrun2, ?_⟩
          · simp [htrace, hid, hdj]
          · intro hs _ r _ _
            obtain ⟨r', hr', hp⟩ := hsync hs
            exact ⟨r', by rw [← hdj]; exact hr', hp⟩
    obtain ⟨w3, es1, heq, hnodes3, htrace3, hrun3, hdone3⟩ := step
    have hU3 : U → (w3.items.map (fun r => r.id)).Nodup := fun u => hrun3.nodup (hU u)
    have hS3 : U → ∀ i ∈ L, ∀ r, db_find w3 i = some r → r.sourceId = S := by
      intro u i hi r hr
      obtain ⟨r0, hr0, ht⟩ := (forall2_touched_find hrun3.items i).2.1 r hr
      rw [ht.sourceId_eq]
      exact hS u i (List.mem_cons_of_mem _ hi) r0 hr0
    have hfuel3 : pend q s w3.items < n :=
      lt_of_le_of_lt (hrun3.pend_le _) hfuel
    obtain ⟨w', es2, hloop, hnodes', htrace', hrun', hdone'⟩ :=
      ih w3 hU3 hS3 (cover_transfer hrun3.items hq) hfuel3
    rw [hnodes3] at hrun' hdone'
    refine ⟨w', es1 ++ es2, heq.trans hloop, hnodes'.trans hnodes3, ?_,
      hrun3.trans hrun', ?_⟩
    · rw [htrace', htrace3, List.append_assoc]
    · intro hs i hi hne r hr hres
      rcases List.mem_cons.mp hi with hij | hiL
      · subst hij
        obtain ⟨r3, hr3, hp3⟩ := hdone3 hs hne r hr hres
        obtain ⟨r', hr', ht⟩ := (forall2_touched_find hrun'.items i).1 r3 hr3
        exact ⟨r', hr', ht.not_pending hp3⟩
      · obtain ⟨r3, hr3, ht3⟩ := (forall2_touched_find hrun3.items i).1 r hr
        exact hdone' hs i hiL hne r3 hr3 (by rw [ht3.nodeId_eq]; exact hres)

/-! ## The finalizer and the entry point -/

theorem committed_items (w : World) (item : Item) (s : Bool) :
    (committed w item s).items = storePut (mark s item) w.items := rfl

theorem committed_nodes (w : World) (item : Item) (s : Bool) :
    (committed w item s).nodes = w.nodes := rfl

theorem committed_trace (w : World) (item : Item) (s : Bool) :
    (committed w item s).trace = w.trace ++ commitEvents w item s := by
  simp [committed, commitEvents, feedlist_reset_new_item_count, node_update_counters,
    itemlist_update_item, vfolder_foreach_data_check_item, db_item_state_update, emit]

theorem item_read_state_changed_body_eq (f : World → Item → Bool → Option (World × Item))
    (w : World) (item : Item) (s : Bool) :
    item_read_state_changed_body f w item s
      = if item.validGuid then
          (duplicatesLoop f (mark s item) s
            (((committed w item s).items.filter (fun r => r.sourceId == item.sourceId)).map
              (fun r => r.id))
            (emit (committed w item s) (.db_item_get_duplicates item.sourceId))).map
            (fun w' => (w', mark s item))
        else some (committed w item s, mark s item) := rfl

theorem mem_storePut_of_ne {item r : Item} {l : List Item} (hr : r ∈ l)
    (hne : r.id ≠ item.id) : r ∈ storePut item l := by
  have hmem : r ∈ l.filter (fun r => r.id != item.id) := by
    simp [List.mem_filter, hr, hne]
  rw [← filter_storePut] at hmem
  exact (List.mem_filter.mp hmem).1

theorem find_of_mem_nodup {l : List Item} {r : Item}
    (hn : (l.map (fun r => r.id)).Nodup) (hr : r ∈ l) :
    l.find? (fun x => x.id == r.id) = some r := by
  induction l with
  | nil => cases hr
  | cons a as ih =>
    rw [List.map_cons, List.nodup_cons] at hn
    rcases List.mem_cons.mp hr with h | h
    · subst h; exact find_id_cons_eq as rfl
    · have hne : a.id ≠ r.id := by
        intro e
        exact hn.1 (by rw [e]; exact List.mem_map_of_mem (fun r => r.id) h)
      rw [find_id_cons_ne as hne]
      exact ih hn.2 h

theorem item_read_state_changed_body_spec {h : Handler} {s : Bool} {U : Prop}
    {q : Nat → Bool} {n : Nat}
    {f : World → Item → Bool → Option (World × Item)} (hf : EntrySpec h s U q n f)
    (w : World) (item : Item)
    (hU : U → ((storePut (mark s item) w.items).map (fun r => r.id)).Nodup)
    (hq : ∀ r ∈ storePut (mark s item) w.items, (U → r.sourceId = item.sourceId) →
      q r.id = true)
    (hfuel : pend q s (storePut (mark s item) w.items) < n) :
    ∃ w' es, item_read_state_changed_body f w item s = some (w', mark s item)
      ∧ w'.nodes = w.nodes
      ∧ w'.trace = w.trace ++ commitEvents w item s ++ es
      ∧ Run w.nodes s item.sourceId U (storePut (mark s item) w.items) es w'.items
      ∧ (item.validGuid = false → es = [])
      ∧ (Sync h → item.validGuid = true → ∀ j r, j ≠ item.id → db_find w j = some r →
          r.sourceId = item.sourceId → resolves w.nodes r.nodeId = true →
          ∃ r', db_find w' j = some r' ∧ pending s r' = false)
      ∧ (item.validGuid = true → ∃ rest, es = .db_item_get_duplicates item.sourceId :: rest)
      := by
  rw [item_read_state_changed_body_eq]
  cases hv : item.validGuid with
  | false =>
    refine ⟨committed w item s, [], by simp, rfl, ?_, ?_, (fun _ => rfl), ?_, ?_⟩
    · simp [committed_trace]
    · exact Run.refl _ _ _ _ _
    · intro _ hc; cases hc
    · intro hc; cases hc
  | true =>
    have hS : U → ∀ j ∈ ((committed w item s).items.filter
          (fun r => r.sourceId == item.sourceId)).map (fun r => r.id),
        ∀ r, db_find (emit (committed w item s) (.db_item_get_duplicates item.sourceId)) j
          = some r → r.sourceId = item.sourceId := by
      intro u j hj r hr
      obtain ⟨r0, hr0, hid⟩ := List.mem_map.mp hj
      obtain ⟨hmem, hsrc⟩ := List.mem_filter.mp hr0
      have hfind := find_of_mem_nodup (hU u) hmem
      rw [hid] at hfind
      have : some r = some r0 := hr.symm.trans hfind
      cases this
      simpa using hsrc
    obtain ⟨w', es, hloop, hnodes, htrace, hrun, hdone⟩ :=
      duplicatesLoop_spec hf (mark s item) item.sourceId _
        (emit (committed w item s) (.db_item_get_duplicates item.sourceId)) hU hS hq hfuel
    have hrunT : Run w.nodes s item.sourceId U (storePut (mark s item) w.items)
        ([.db_item_get_duplicates item.sourceId] ++ es) w'.items :=
      (Run.get_duplicates w.nodes s item.sourceId U (storePut (mark s item) w.items)
        item.sourceId).trans hrun
    refine ⟨w', [.db_item_get_duplicates item.sourceId] ++ es, by simp [hloop], hnodes, ?_,
      hrunT, (fun hc => by cases hc), ?_, (fun _ => ⟨es, rfl⟩)⟩
    · rw [htrace]; simp [committed_trace]
    · intro hs _ j r hne hr hsrc hres
      have hrid : r.id = j := find_id_eq hr
      have hmem : r ∈ w.items := List.mem_of_find?_eq_some hr
      have hmem1 : r ∈ storePut (mark s item) w.items :=
        mem_storePut_of_ne hmem (by rw [hrid]; exact hne)
      have hj : j ∈ ((committed w item s).items.filter
          (fun r => r.sourceId == item.sourceId)).map (fun r => r.id) := by
        refine List.mem_map.mpr ⟨r, List.mem_filter.mpr ⟨hmem1, by simpa using hsrc⟩, hrid⟩
      have hfind1 : db_find (emit (committed w item s)
          (.db_item_get_duplicates item.sourceId)) j = some r := by
        have : db_find (emit (committed w item s) (.db_item_get_duplicates item.sourceId)) j
            = (storePut (mark s item) w.items).find? (fun r => r.id == j) := rfl
        rw [this, find_storePut]
        have hne2 : ¬ item.id = j := fun e => hne e.symm
        simpa [hne2] using hr
      exact hdone hs j hj hne r hfind1 hres

theorem guard_of_pending {s : Bool} {d : Item} (hp : pending s d = true) :
    (s == d.readStatus && !d.updateStatus) = false := by
  unfold pending at hp
  cases hg : (s == d.readStatus && !d.updateStatus) with
  | false => rfl
  | true => rw [hg] at hp; cases hp

theorem guard_of_not_pending {s : Bool} {d : Item} (hp : pending s d = false) :
    (s == d.readStatus && !d.updateStatus) = true := by
  unfold pending at hp
  cases hg : (s == d.readStatus && !d.updateStatus) with
  | false => rw [hg] at hp; cases hp
  | true => rfl

theorem pend_pos_of_find {s : Bool} {l : List Item} {d : Item}
    (hf : l.find? (fun r => r.id == d.id) = some d) (hp : pending s d = true) :
    pend (fun _ => true) s (storePut (mark s d) l) + 1 = pend (fun _ => true) s l := by
  simpa using pend_storePut (fun _ => true) hf hp

theorem item_set_read_state_spec (h : Handler) (s : Bool) (U : Prop) (q : Nat → Bool) :
    ∀ n, EntrySpec h s U q n (item_set_read_state h n) := by
  intro n
  induction n with
  | zero => intro w d _ _ _ _ hfuel; exact absurd hfuel (Nat.not_lt_zero _)
  | succ n ih =>
    intro w d hd hres hU hq hfuel
    cases hp : pending s d with
    | false =>
      have hg := guard_of_not_pending hp
      refine ⟨w, d, [], by simp [item_set_read_state, hg], rfl, rfl, by simp,
        Run.refl _ _ _ _ _, fun _ => ⟨d, hd, hp⟩⟩
    | true =>
      have hg := guard_of_pending hp
      cases hacc : h.acceptReadChange (node_from_id w d.nodeId) d s with
      | false =>
        refine ⟨emit w (.node_source_item_mark_read (node_from_id w d.nodeId) d s), d,
          [.node_source_item_mark_read (node_from_id w d.nodeId) d s], ?_, rfl, rfl, rfl,
          Run.defer hd hp hres (fun _ => rfl), ?_⟩
        · simp [item_set_read_state, hg, node_source_item_mark_read, hacc]
        · intro hs; rw [hs] at hacc; cases hacc
      | true =>
        have hF : List.Forall₂ (Touched w.nodes s d.sourceId U) w.items
            (storePut (mark s d) w.items) :=
          forall2_touched_storePut hd hp hres (fun _ => rfl)
        have hqd : q d.id = true := hq d (List.mem_of_find?_eq_some hd) (fun _ => rfl)
        have hfuel1 : pend q s (storePut (mark s d) w.items) < n := by
          have := pend_storePut q hd hp
          rw [hqd] at this
          simp only [if_true] at this
          omega
        obtain ⟨w', es, hbody, hnodes, htrace, hrun, _, _⟩ :=
          item_read_state_changed_body_spec ih
            (emit w (.node_source_item_mark_read (node_from_id w d.nodeId) d s)) d
            (fun u => by
              show ((storePut (mark s d) w.items).map (fun r => r.id)).Nodup
              rw [forall2_touched_ids hF]; exact hU u)
            (cover_transfer hF hq)
            hfuel1
        refine ⟨w', mark s d,
          [.node_source_item_mark_read (node_from_id w d.nodeId) d s]
            ++ commitEvents w d s ++ es, ?_, rfl, hnodes, ?_, ?_, ?_⟩
        · simp [item_set_read_state, hg, node_source_item_mark_read, hacc]
          exact hbody
        · rw [htrace]; simp [commitEvents]
        · have hc := Run.commit (U := U) hd hp hres (fun _ => rfl) (node_from_id w d.nodeId)
          exact hc.trans hrun
        · intro _
          have h1 : (storePut (mark s d) w.items).find? (fun r => r.id == d.id)
              = some (mark s d) := by
            rw [find_storePut]; simp
          obtain ⟨r', hr', ht⟩ := (forall2_touched_find hrun.items d.id).1 _ h1
          exact ⟨r', hr', ht.not_pending (pending_mark s d)⟩

/-! ## The entry point called from outside -/

theorem pend_storePut_le (q : Nat → Bool) (s : Bool) (item : Item) (l : List Item) :
    pend q s (storePut (mark s item) l) ≤ pend q s l := by
  induction l with
  | nil => simp [storePut, pend, List.countP_cons]
  | cons r rs ih =>
    by_cases hr : r.id = item.id
    · rw [storePut_cons_eq rs (by simpa using hr)]
      simp [pend, List.countP_cons]
    · rw [storePut_cons_ne rs (by simpa using hr)]
      simp only [pend, List.countP_cons] at ih ⊢
      omega

theorem pend_le_length (q : Nat → Bool) (s : Bool) (l : List Item) :
    pend q s l ≤ l.length := List.countP_le_length _

theorem mem_ids_storePut {item : Item} {l : List Item} {x : Nat}
    (hx : x ∈ (storePut item l).map (fun r => r.id)) :
    x ∈ l.map (fun r => r.id) ∨ x = item.id := by
  induction l with
  | nil => simp [storePut] at hx; exact Or.inr hx
  | cons r rs ih =>
    by_cases hr : r.id = item.id
    · rw [storePut_cons_eq rs hr] at hx
      simp only [List.map_cons, List.mem_cons] at hx ⊢
      rcases hx with hx | hx
      · exact Or.inr hx
      · exact Or.inl (Or.inr hx)
    · rw [storePut_cons_ne rs hr] at hx
      simp only [List.map_cons, List.mem_cons] at hx ⊢
      rcases hx with hx | hx
      · exact Or.inl (Or.inl hx)
      · rcases ih hx with h | h
        · exact Or.inl (Or.inr h)
        · exact Or.inr h

theorem nodup_storePut {item : Item} {l : List Item}
    (hn : (l.map (fun r => r.id)).Nodup) :
    ((storePut item l).map (fun r => r.id)).Nodup := by
  induction l with
  | nil => simp [storePut]
  | cons r rs ih =>
    rw [List.map_cons, List.nodup_cons] at hn
    by_cases hr : r.id = item.id
    · rw [storePut_cons_eq rs hr, List.map_cons, List.nodup_cons, ← hr]
      exact hn
    · rw [storePut_cons_ne rs hr, List.map_cons, List.nodup_cons]
      refine ⟨?_, ih hn.2⟩
      intro hx
      rcases mem_ids_storePut hx with h | h
      · exact hn.1 h
      · exact hr h

/-- What a request from outside does, for an arbitrary item (stored or not, owning
node resolving or not): it is short-circuited, or deferred by the handler, or
committed; in the last case the trace is the handler call, the five calls of steps
1 to 5, and the fan-out `es'`, which is a `Run` from the store with the item put.
The budget `n` left for re-entrant calls has to exceed the number of pending rows
counted by `q`, where `q` covers the rows the fan-out can reach. -/
theorem item_set_read_state_top_gen (h : Handler) (s : Bool) (U : Prop) (q : Nat → Bool)
    (w : World) (A : Item) (n : Nat) (hU : U → (w.items.map (fun r => r.id)).Nodup)
    (hq : ∀ r ∈ storePut (mark s A) w.items, (U → r.sourceId = A.sourceId) → q r.id = true)
    (hfuel : pend q s (storePut (mark s A) w.items) < n) :
    ∃ w' A' es, item_set_read_state h (n + 1) w A s = some (w', A') ∧ w'.nodes = w.nodes
      ∧ w'.trace = w.trace ++ es
      ∧ ((pending s A = false ∧ w' = w ∧ A' = A ∧ es = [])
        ∨ (pending s A = true ∧ h.acceptReadChange (node_from_id w A.nodeId) A s = false
            ∧ A' = A ∧ w'.items = w.items
            ∧ es = [.node_source_item_mark_read (node_from_id w A.nodeId) A s])
        ∨ (pending s A = true ∧ h.acceptReadChange (node_from_id w A.nodeId) A s = true
            ∧ A' = mark s A
            ∧ ∃ es', es = [.node_source_item_mark_read (node_from_id w A.nodeId) A s]
                  ++ commitEvents w A s ++ es'
              ∧ Run w.nodes s A.sourceId U (storePut (mark s A) w.items) es' w'.items
              ∧ (A.validGuid = false → es' = [])
              ∧ (Sync h → A.validGuid = true → ∀ j r, j ≠ A.id → db_find w j = some r →
                  r.sourceId = A.sourceId → resolves w.nodes r.nodeId = true →
                  ∃ r', db_find w' j = some r' ∧ pending s r' = false))) := by
  cases hp : pending s A with
  | false =>
    have hg := guard_of_not_pending hp
    exact ⟨w, A, [], by simp [item_set_read_state, hg], rfl, by simp,
      Or.inl ⟨rfl, rfl, rfl, rfl⟩⟩
  | true =>
    have hg := guard_of_pending hp
    cases hacc : h.acceptReadChange (node_from_id w A.nodeId) A s with
    | false =>
      refine ⟨emit w (.node_source_item_mark_read (node_from_id w A.nodeId) A s), A,
        [.node_source_item_mark_read (node_from_id w A.nodeId) A s], ?_, rfl, rfl,
        Or.inr (Or.inl ⟨rfl, rfl, rfl, rfl, rfl⟩)⟩
      simp [item_set_read_state, hg, node_source_item_mark_read, hacc]
    | true =>
      obtain ⟨w', es', hbody, hnodes, htrace, hrun, hnv, hdone, _⟩ :=
        item_read_state_changed_body_spec (item_set_read_state_spec h s U q n)
          (emit w (.node_source_item_mark_read (node_from_id w A.nodeId) A s)) A
          (fun u => nodup_storePut (hU u)) hq hfuel
      refine ⟨w', mark s A,
        [.node_source_item_mark_read (node_from_id w A.nodeId) A s]
          ++ commitEvents w A s ++ es', ?_, hnodes, ?_,
        Or.inr (Or.inr ⟨rfl, rfl, rfl, es', rfl, hrun, hnv, hdone⟩)⟩
      · simp [item_set_read_state, hg, node_source_item_mark_read, hacc]
        exact hbody
      · rw [htrace]; simp [commitEvents]

/-- The same with the coarse budget: more than the number of stored rows. -/
theorem item_set_read_state_top (h : Handler) (s : Bool) (U : Prop) (w : World) (A : Item)
    (n : Nat) (hU : U → (w.items.map (fun r => r.id)).Nodup) (hn : w.items.length < n) :
    ∃ w' A' es, item_set_read_state h (n + 1) w A s = some (w', A') ∧ w'.nodes = w.nodes
      ∧ w'.trace = w.trace ++ es
      ∧ ((pending s A = false ∧ w' = w ∧ A' = A ∧ es = [])
        ∨ (pending s A = true ∧ h.acceptReadChange (node_from_id w A.nodeId) A s = false
            ∧ A' = A ∧ w'.items = w.items
            ∧ es = [.node_source_item_mark_read (node_from_id w A.nodeId) A s])
        ∨ (pending s A = true ∧ h.acceptReadChange (node_from_id w A.nodeId) A s = true
            ∧ A' = mark s A
            ∧ ∃ es', es = [.node_source_item_mark_read (node_from_id w A.nodeId) A s]
                  ++ commitEvents w A s ++ es'
              ∧ Run w.nodes s A.sourceId U (storePut (mark s A) w.items) es' w'.items
              ∧ (A.validGuid = false → es' = [])
              ∧ (Sync h → A.validGuid = true → ∀ j r, j ≠ A.id → db_find w j = some r →
                  r.sourceId = A.sourceId → resolves w.nodes r.nodeId = true →
                  ∃ r', db_find w' j = some r' ∧ pending s r' = false))) :=
  item_set_read_state_top_gen h s U (fun _ => true) w A n hU (fun _ _ _ => rfl)
    (lt_of_le_of_lt ((pend_storePut_le _ s A w.items).trans (pend_le_length _ s _)) hn)

/-! ## Short-circuits and the flag path -/

/-- C1: when `newState` equals `item.readStatus` and `item.updateStatus` is false,
`item_set_read_state` returns with the world (store, nodes and trace of collaborator
calls) and the item exactly as they were: nothing is written, nothing is called. -/
theorem item_set_read_state_noop (h : Handler) (fuel : Nat) (w : World) (item : Item)
    (newState : Bool) (hs : newState = item.readStatus) (hu : item.updateStatus = false) :
    item_set_read_state h (fuel + 1) w item newState = some (w, item) := by
  simp [item_set_read_state, hs, hu]

/-- Witness for C1 on item A of the scenario, asked to become unread again. -/
theorem item_set_read_state_noop_witness :
    item_set_read_state syncHandler 1 scenarioWorld scenarioA false
      = some (scenarioWorld, scenarioA) :=
  item_set_read_state_noop syncHandler 0 scenarioWorld scenarioA false rfl rfl

/-- C4: a flag change never touches another item.  Whatever the handler decides,
after `item_set_flag_state h w a newState` every stored row whose id differs from
`a.id` is exactly as before (all fields, so in particular `flagStatus`, also for
rows sharing `a.sourceId`), the nodes are untouched, and when the handler commits
a real change the row of `a` carries the new flag. -/
theorem item_set_flag_state_frame (h : Handler) (w : World) (a : Item) (newState : Bool) :
    (item_set_flag_state h w a newState).1.items.filter (fun r => r.id != a.id)
        = w.items.filter (fun r => r.id != a.id)
    ∧ (∀ j, j ≠ a.id → db_find (item_set_flag_state h w a newState).1 j = db_find w j)
    ∧ (∀ b, b ∈ w.items → b.id ≠ a.id → b.sourceId = a.sourceId →
        b ∈ (item_set_flag_state h w a newState).1.items)
    ∧ (item_set_flag_state h w a newState).1.nodes = w.nodes
    ∧ (h.acceptFlagChange (node_from_id w a.nodeId) a newState = true →
        newState ≠ a.flagStatus →
        db_find (item_set_flag_state h w a newState).1 a.id
          = some { a with flagStatus := newState }) := by
  have key : (item_set_flag_state h w a newState).1.items.filter (fun r => r.id != a.id)
        = w.items.filter (fun r => r.id != a.id) := by
    unfold item_set_flag_state node_source_item_set_flag item_flag_state_changed
    by_cases hs : newState = a.flagStatus
    · simp [hs]
    · by_cases hc : h.acceptFlagChange (node_from_id w a.nodeId) a newState = true
      · simp only [beq_iff_eq, hs, if_false, hc, if_true, feedlist_reset_new_item_count,
          vfolder_foreach_data_check_item, itemlist_update_item, db_item_state_update,
          emit_items]
        exact filter_storePut { a with flagStatus := newState } w.items
      · simp [hs, hc]
  refine ⟨key, ?_, ?_, ?_, ?_⟩
  · intro j hj
    unfold item_set_flag_state node_source_item_set_flag item_flag_state_changed
    by_cases hs : newState = a.flagStatus
    · simp [hs]
    · by_cases hc : h.acceptFlagChange (node_from_id w a.nodeId) a newState = true
      · have hne : ¬ a.id = j := fun e => hj e.symm
        simp [hs, hc, feedlist_reset_new_item_count, vfolder_foreach_data_check_item,
          itemlist_update_item, db_find_update, hne]
      · simp [hs, hc]
  · intro b hb hne _
    have hmem : b ∈ w.items.filter (fun r => r.id != a.id) := by
      simp [List.mem_filter, hb, hne]
    rw [← key] at hmem
    exact (List.mem_filter.mp hmem).1
  · unfold item_set_flag_state node_source_item_set_flag item_flag_state_changed
    by_cases hs : newState = a.flagStatus
    · simp [hs]
    · by_cases hc : h.acceptFlagChange (node_from_id w a.nodeId) a newState = true
      · simp [hs, hc, feedlist_reset_new_item_count, vfolder_foreach_data_check_item,
          itemlist_update_item, db_item_state_update]
      · simp [hs, hc]
  · intro hc hs
    unfold item_set_flag_state node_source_item_set_flag item_flag_state_changed
    simp [hs, hc, feedlist_reset_new_item_count, vfolder_foreach_data_check_item,
      itemlist_update_item, db_find_update]

/-- Witness for C4: flagging A in the two-item scenario leaves its duplicate B as it
was and persists the flag on A. -/
theorem item_set_flag_state_frame_witness :
    db_find (item_set_flag_state syncHandler scenarioWorld scenarioA true).1 scenarioB.id
        = db_find scenarioWorld scenarioB.id
    ∧ db_find (item_set_flag_state syncHandler scenarioWorld scenarioA true).1 scenarioA.id
        = some { scenarioA with flagStatus := true } :=
  ⟨(item_set_flag_state_frame syncHandler scenarioWorld scenarioA true).2.1 scenarioB.id
      (by decide),
   (item_set_flag_state_frame syncHandler scenarioWorld scenarioA true).2.2.2.2 rfl
      (by decide)⟩

/-- C6: on a node whose `unreadCount` is zero `itemset_mark_read` returns at once:
the world is returned as it was, so there is no store write, no handler call, no
item load, no duplicate lookup, and no node (hence no `needsRecount`) changes. -/
theorem itemset_mark_read_zero (h : Handler) (fuel : Nat) (w : World) (node : Node)
    (hz : node.unreadCount = 0) :
    itemset_mark_read h fuel w node = some w := by
  simp [itemset_mark_read, hz]

/-- Witness for C6: a node of the scenario whose unread count has dropped to zero. -/
theorem itemset_mark_read_zero_witness :
    itemset_mark_read syncHandler 0 scenarioWorld { scenarioN1 with unreadCount := 0 }
      = some scenarioWorld :=
  itemset_mark_read_zero syncHandler 0 scenarioWorld { scenarioN1 with unreadCount := 0 } rfl

/-- C8 (failing input): `itemset_mark_read` on node `n1` of the scenario with the
synchronous handler.  The finalizer reached through `node_source_item_mark_read`
refreshes the item list and requests a counter recompute for every item it
commits (here for item 1 and for its duplicate, item 2). -/
theorem itemset_mark_read_refreshes_gui :
    (itemset_mark_read syncHandler 2 scenarioWorld scenarioN1).map
        (fun w => w.trace.filter (fun e =>
          match e with
          | .itemlist_update_item _ => true
          | .node_update_counters _ => true
          | _ => false))
      = some [.itemlist_update_item { scenarioA with readStatus := true },
              .node_update_counters (some { scenarioN1 with needsRecount := true }),
              .itemlist_update_item { scenarioB with readStatus := true },
              .node_update_counters (some scenarioN2)] := by
  decide

/-! ## Read-state changes -/

theorem not_pending_true {r : Item} (h : pending true r = false) :
    r.readStatus = true ∧ r.updateStatus = false := by
  have hg := guard_of_not_pending h
  simpa using hg

theorem find_touched_mark {nodes : List Node} {s : Bool} {S : String} {U : Prop}
    {l l' : List Item} {es : List Event} (hrun : Run nodes s S U (storePut (mark s A) l) es l')
    : l'.find? (fun r => r.id == A.id) = some (mark s A) := by
  have h1 : (storePut (mark s A) l).find? (fun r => r.id == A.id) = some (mark s A) := by
    rw [find_storePut]; simp
  obtain ⟨r', hr', ht⟩ := (forall2_touched_find hrun.items A.id).1 _ h1
  rcases ht with ht | ⟨ht, _⟩
  · rw [hr', ht]
  · rw [hr', ht, mark_mark]

/-- C5: `item_read_state_changed` returns (given a recursion budget above the
number of stored rows) and leaves the item, both as held by the caller and as
persisted in the store, with `readStatus = newState` and `updateStatus = false`,
whatever `updateStatus` and `readStatus` were before and whatever the handlers of
the duplicates decide. -/
theorem item_read_state_changed_clears_update (h : Handler) (fuel : Nat) (w : World)
    (item : Item) (newState : Bool) (hfuel : w.items.length < fuel) :
    ∃ w' item', item_read_state_changed h fuel w item newState = some (w', item')
      ∧ item' = { item with readStatus := newState, updateStatus := false }
      ∧ item'.readStatus = newState ∧ item'.updateStatus = false
      ∧ db_find w' item.id = some item' := by
  have hf : pend (fun _ => true) newState (storePut (mark newState item) w.items) < fuel :=
    lt_of_le_of_lt ((pend_storePut_le _ newState item w.items).trans
      (pend_le_length _ newState _)) hfuel
  obtain ⟨w', es, hbody, _, _, hrun, _, _⟩ :=
    item_read_state_changed_body_spec (U := False)
      (item_set_read_state_spec h newState False (fun _ => true) fuel) w item
      (fun u => u.elim) (fun _ _ _ => rfl) hf
  exact ⟨w', mark newState item, hbody, rfl, rfl, rfl, find_touched_mark hrun⟩

/-- Witness for C5: item A of the scenario with its updated marker set, asked to stay
unread. -/
theorem item_read_state_changed_clears_update_witness :
    ∃ w' item', item_read_state_changed syncHandler 3 scenarioWorld
        { scenarioA with updateStatus := true } false = some (w', item')
      ∧ item' = { ({ scenarioA with updateStatus := true } : Item) with
                    readStatus := false, updateStatus := false }
      ∧ item'.readStatus = false ∧ item'.updateStatus = false
      ∧ db_find w' scenarioA.id = some item' :=
  item_read_state_changed_clears_update syncHandler 3 scenarioWorld
    { scenarioA with updateStatus := true } false (by decide)

/-- C2 (counterexample): A is already read and not marked updated, its duplicate B
(same source id, other id, resolving node) is unread.  The request to mark A read
is short-circuited, so B stays unread. -/
theorem item_set_read_state_stale_duplicate :
    readA.validGuid = true
    ∧ item_set_read_state syncHandler 4 staleWorld readA true = some (staleWorld, readA)
    ∧ db_find staleWorld scenarioB.id = some scenarioB
    ∧ scenarioB.sourceId = readA.sourceId ∧ scenarioB.id ≠ readA.id
    ∧ (node_from_id staleWorld scenarioB.nodeId).isSome = true
    ∧ scenarioB.readStatus = false := by
  decide

/-- C2 (amended): with a handler that commits every change synchronously, for an item
with `validGuid = true` whose request is not short-circuited (it is unread or its
updated marker is set), `item_set_read_state item true` returns, and afterwards the
item itself and every stored item with another id, the same `sourceId` and a
resolving owning node is persisted with `readStatus = true`. -/
theorem item_set_read_state_marks_duplicates (h : Handler) (hs : Sync h) (w : World)
    (item : Item) (fuel : Nat) (hv : item.validGuid = true)
    (hp : item.readStatus = false ∨ item.updateStatus = true)
    (hfuel : w.items.length + 2 ≤ fuel) :
    ∃ w' item', item_set_read_state h fuel w item true = some (w', item')
      ∧ (∃ r, db_find w' item.id = some r ∧ r.readStatus = true)
      ∧ ∀ j r, db_find w j = some r → j ≠ item.id → r.sourceId = item.sourceId →
          (node_from_id w r.nodeId).isSome = true →
          ∃ r', db_find w' j = some r' ∧ r'.readStatus = true := by
  obtain ⟨n, rfl⟩ : ∃ n, fuel = n + 1 := ⟨fuel - 1, by omega⟩
  obtain ⟨w', A', es, hres, _, _, hcase⟩ :=
    item_set_read_state_top h true False w item n (fun u => u.elim) (by omega)
  have hpend : pending true item = true := by
    rcases hp with hp | hp <;> simp [pending, hp]
  rcases hcase with ⟨hp', _⟩ | ⟨_, hacc', _⟩ | ⟨_, _, _, es', _, hrun, _, hdone⟩
  · rw [hpend] at hp'; cases hp'
  · rw [hs] at hacc'; cases hacc'
  · refine ⟨w', A', hres, ⟨mark true item, find_touched_mark hrun, rfl⟩, ?_⟩
    intro j r hr hne hsrc hnode
    obtain ⟨r', hr', hnp⟩ := hdone hs hv j r hne hr hsrc hnode
    exact ⟨r', hr', (not_pending_true hnp).1⟩

/-- Witness for C2 (amended): item A of the two-item scenario. -/
theorem item_set_read_state_marks_duplicates_witness :
    ∃ w' item', item_set_read_state syncHandler 4 scenarioWorld scenarioA true
        = some (w', item')
      ∧ (∃ r, db_find w' scenarioA.id = some r ∧ r.readStatus = true)
      ∧ ∀ j r, db_find scenarioWorld j = some r → j ≠ scenarioA.id →
          r.sourceId = scenarioA.sourceId →
          (node_from_id scenarioWorld r.nodeId).isSome = true →
          ∃ r', db_find w' j = some r' ∧ r'.readStatus = true :=
  item_set_read_state_marks_duplicates syncHandler (fun _ _ _ => rfl) scenarioWorld
    scenarioA 4 rfl (Or.inl rfl) (by decide)

/-- C3: whatever the handler decides, `item_set_read_state item newState` returns, and
every stored item with another id whose owning `nodeId` does not resolve (so in
particular every such duplicate of an item with a valid GUID) is exactly as before
in the store, and none of the calls made (`es`) is a store write or a handler
invocation for it. -/
theorem item_set_read_state_skips_orphans (h : Handler) (w : World) (item : Item)
    (newState : Bool) (fuel : Nat) (hfuel : w.items.length + 2 ≤ fuel) :
    ∃ w' item' es, item_set_read_state h fuel w item newState = some (w', item')
      ∧ w'.trace = w.trace ++ es
      ∧ ∀ j r, db_find w j = some r → j ≠ item.id → node_from_id w r.nodeId = none →
          db_find w' j = some r
          ∧ (∀ x, .db_item_state_update x ∈ es → x.id ≠ j)
          ∧ (∀ node x b, .node_source_item_mark_read node x b ∈ es → x.id ≠ j) := by
  obtain ⟨n, rfl⟩ : ∃ n, fuel = n + 1 := ⟨fuel - 1, by omega⟩
  obtain ⟨w', A', es, hres, _, htrace, hcase⟩ :=
    item_set_read_state_top h newState False w item n (fun u => u.elim) (by omega)
  refine ⟨w', A', es, hres, htrace, ?_⟩
  intro j r hr hne horph
  have hnores : resolves w.nodes r.nodeId = false := by
    show (node_from_id w r.nodeId).isSome = false
    rw [horph]; rfl
  rcases hcase with ⟨_, hw, _, hes⟩ | ⟨_, _, _, hitems, hes⟩ | ⟨_, _, _, es', hes, hrun, _, _⟩
  · subst hw; subst hes
    exact ⟨hr, (fun x hx => by cases hx), (fun nd x b hx => by cases hx)⟩
  · subst hes
    refine ⟨by unfold db_find; rw [hitems]; exact hr, ?_, ?_⟩
    · intro x hx; simp at hx
    · intro nd x b hx
      simp only [List.mem_singleton, Event.node_source_item_mark_read.injEq] at hx
      rw [hx.2.1]; exact fun e => hne e.symm
  · have h1 : (storePut (mark newState item) w.items).find? (fun r => r.id == j) = some r := by
      rw [find_storePut]
      have hne2 : ¬ item.id = j := fun e => hne e.symm
      simpa [hne2] using hr
    refine ⟨?_, ?_, ?_⟩
    · obtain ⟨r', hr', ht⟩ := (forall2_touched_find hrun.items j).1 r h1
      rcases ht with ht | ⟨_, _, hres', _⟩
      · show w'.items.find? (fun r => r.id == j) = some r
        rw [hr', ht]
      · rw [hnores] at hres'; cases hres'
    · intro x hx hxj
      subst hes
      simp only [List.mem_append, List.mem_singleton, commitEvents, List.mem_cons,
        List.not_mem_nil, or_false] at hx
      rcases hx with (hx | hx) | hx
      · cases hx
      · rcases hx with hx | hx | hx | hx | hx
        · cases hx; exact hne hxj.symm
        all_goals cases hx
      · obtain ⟨r0, hr0, hres0, _⟩ := hrun.ok _ hx
        rw [hxj, h1] at hr0
        cases hr0
        rw [hnores] at hres0; cases hres0
    · intro nd x b hx hxj
      subst hes
      simp only [List.mem_append, List.mem_singleton, commitEvents, List.mem_cons,
        List.not_mem_nil, or_false] at hx
      rcases hx with (hx | hx) | hx
      · cases hx; exact hne hxj.symm
      · rcases hx with hx | hx | hx | hx | hx <;> cases hx
      · obtain ⟨r0, hr0, hres0, _⟩ := hrun.ok _ hx
        rw [hxj, h1] at hr0
        cases hr0
        rw [hnores] at hres0; cases hres0

/-- Witness for C3: marking A read in `orphanWorld`, where the duplicate C is lost. -/
theorem item_set_read_state_skips_orphans_witness :
    ∃ w' item' es, item_set_read_state syncHandler 5 orphanWorld scenarioA true
        = some (w', item')
      ∧ w'.trace = orphanWorld.trace ++ es
      ∧ ∀ j r, db_find orphanWorld j = some r → j ≠ scenarioA.id →
          node_from_id orphanWorld r.nodeId = none →
          db_find w' j = some r
          ∧ (∀ x, .db_item_state_update x ∈ es → x.id ≠ j)
          ∧ (∀ node x b, .node_source_item_mark_read node x b ∈ es → x.id ≠ j) :=
  item_set_read_state_skips_orphans syncHandler orphanWorld scenarioA true 5 (by decide)

/-! ## Counting store updates -/

theorem forall2_with_mem {R : Item → Item → Prop} {l l' : List Item}
    (h : List.Forall₂ R l l') :
    List.Forall₂ (fun a b => R a b ∧ a ∈ l ∧ b ∈ l') l l' := by
  induction h with
  | nil => exact List.Forall₂.nil
  | @cons a b as bs hab _ ih =>
    refine List.Forall₂.cons ⟨hab, List.mem_cons_self _ _, List.mem_cons_self _ _⟩ ?_
    exact ih.imp (fun x y hxy =>
      ⟨hxy.1, List.mem_cons_of_mem _ hxy.2.1, List.mem_cons_of_mem _ hxy.2.2⟩)

theorem pend_split {s : Bool} {K : Item → Bool} {l l' : List Item}
    (h : List.Forall₂ (fun r r' => pending s r' = (pending s r && !K r)) l l') :
    pend (fun _ => true) s l' + l.countP (fun r => pending s r && K r)
      = pend (fun _ => true) s l := by
  induction h with
  | nil => simp [pend]
  | @cons a b as bs hab _ ih =>
    simp only [pend, List.countP_cons, Bool.true_and] at ih ⊢
    rw [hab]
    cases pending s a <;> cases K a <;> simp <;> omega

theorem countP_storePut_ne {p : Item → Bool} {item : Item}
    (hp : ∀ r, p r = true → r.id ≠ item.id) (l : List Item) :
    (storePut item l).countP p = l.countP p := by
  have hitem : p item = false := by
    cases h : p item with
    | false => rfl
    | true => exact absurd rfl (hp item h)
  induction l with
  | nil => simp [storePut, List.countP_cons, hitem]
  | cons r rs ih =>
    by_cases hr : r.id = item.id
    · have hr' : p r = false := by
        cases h : p r with
        | false => rfl
        | true => exact absurd hr (hp r h)
      rw [storePut_cons_eq rs hr]
      simp [List.countP_cons, hitem, hr']
    · rw [storePut_cons_ne rs hr]
      simp [List.countP_cons, ih]

theorem count_id_le_one {l : List Item} (hn : (l.map (fun r => r.id)).Nodup) (j : Nat) :
    l.countP (fun r => r.id == j) ≤ 1 := by
  induction l with
  | nil => simp
  | cons r rs ih =>
    rw [List.map_cons, List.nodup_cons] at hn
    by_cases hr : r.id = j
    · have hz : rs.countP (fun r => r.id == j) = 0 := by
        rw [List.countP_eq_zero]
        intro a ha hj
        have : a.id = j := by simpa using hj
        exact hn.1 (by rw [hr, ← this]; exact List.mem_map_of_mem (fun r => r.id) ha)
      simp [List.countP_cons, hr, hz]
    · have := ih hn.2
      simp [List.countP_cons, hr, this]

theorem updC_commitEvents (q : Nat → Bool) (w : World) (A : Item) (s : Bool)
    (node : Option Node) (es : List Event) :
    updC q ([Event.node_source_item_mark_read node A s] ++ commitEvents w A s ++ es)
      = (if q A.id then 1 else 0) + updC q es := by
  rw [updC_append]
  by_cases hq : q A.id = true
  · simp [updC, updOf, commitEvents, List.countP_cons, hq]
  · simp [updC, updOf, commitEvents, List.countP_cons, hq]

theorem chkC_commitEvents (q : Nat → Bool) (w : World) (A : Item) (s : Bool)
    (node : Option Node) (es : List Event) :
    chkC q ([Event.node_source_item_mark_read node A s] ++ commitEvents w A s ++ es)
      = (if q A.id then 1 else 0) + chkC q es := by
  rw [chkC_append]
  by_cases hq : q A.id = true
  · simp [chkC, chkOf, commitEvents, List.countP_cons, hq]
  · simp [chkC, chkOf, commitEvents, List.countP_cons, hq]

/-- C9: no redundant update cascade.  With a handler that commits synchronously and
a store whose ids are unique (each id is returned once by the duplicate lookup), a
request on an item with `validGuid = true` that is not short-circuited returns and
makes, among the calls `es`, exactly `1 + k` store updates and exactly `1 + k`
saved-search rechecks, where `k` counts the stored items with the same `sourceId`,
another id and a resolving owning node whose `readStatus` differs from `s` or whose
`updateStatus` is set; no id is persisted more than once.  In the two-item scenario
(A and B unread, in different nodes) marking A read makes two store updates, one
recheck for A and one for B, and two notification resets. -/
theorem item_set_read_state_update_count :
    (∀ (h : Handler) (w : World) (item : Item) (s : Bool) (fuel : Nat), Sync h →
      (w.items.map (fun r => r.id)).Nodup → item.validGuid = true →
      ¬ (s = item.readStatus ∧ item.updateStatus = false) →
      w.items.length + 2 ≤ fuel →
      ∃ w' item' es, item_set_read_state h fuel w item s = some (w', item')
        ∧ w'.trace = w.trace ++ es
        ∧ updC (fun _ => true) es
            = 1 + (w.items.filter (fun r => r.sourceId == item.sourceId && r.id != item.id
                && (node_from_id w r.nodeId).isSome
                && (r.readStatus != s || r.updateStatus))).length
        ∧ chkC (fun _ => true) es = updC (fun _ => true) es
        ∧ ∀ j, updC (fun i => i == j) es ≤ 1)
    ∧ (item_set_read_state syncHandler 4 scenarioWorld scenarioA true).map
          (fun p => (updC (fun _ => true) p.1.trace, chkC (fun i => i == scenarioA.id) p.1.trace,
            chkC (fun i => i == scenarioB.id) p.1.trace,
            p.1.trace.count .feedlist_reset_new_item_count))
        = some (2, 1, 1, 2)
    ∧ (item_set_read_state syncHandler 4 scenarioWorld scenarioA true).map
          (fun p => p.1.items)
        = some [{ scenarioA with readStatus := true }, { scenarioB with readStatus := true }]
    := by
  refine ⟨?_, by decide, by decide⟩
  intro h w item s fuel hs hnd hv hnoop hfuel
  obtain ⟨n, rfl⟩ : ∃ n, fuel = n + 1 := ⟨fuel - 1, by omega⟩
  obtain ⟨w', A', es, hres, _, htrace, hcase⟩ :=
    item_set_read_state_top h s True w item n (fun _ => hnd) (by omega)
  have hpend : pending s item = true := by
    cases hp : pending s item with
    | true => rfl
    | false =>
      have hg := guard_of_not_pending hp
      simp only [Bool.and_eq_true, beq_iff_eq, Bool.not_eq_true'] at hg
      exact absurd hg hnoop
  rcases hcase with ⟨hp', _⟩ | ⟨_, hacc', _⟩ | ⟨_, _, _, es', hes, hrun, _, hdone⟩
  · rw [hpend] at hp'; cases hp'
  · rw [hs] at hacc'; cases hacc'
  have hnd1 : ((storePut (mark s item) w.items).map (fun r => r.id)).Nodup :=
    nodup_storePut hnd
  have hnd' : (w'.items.map (fun r => r.id)).Nodup := hrun.nodup hnd1
  have hfindA : (storePut (mark s item) w.items).find? (fun r => r.id == item.id)
      = some (mark s item) := by
    rw [find_storePut]; simp
  -- the rows the fan-out has to mark
  let K : Item → Bool := fun r =>
    r.sourceId == item.sourceId && r.id != item.id && resolves w.nodes r.nodeId
  have hpair : List.Forall₂ (fun r r' => pending s r' = (pending s r && !K r))
      (storePut (mark s item) w.items) w'.items := by
    refine (forall2_with_mem hrun.items).imp ?_
    rintro r r' ⟨ht, hr, hr'⟩
    have hfr := find_of_mem_nodup hnd1 hr
    have hfr' := find_of_mem_nodup hnd' hr'
    rw [ht.id_eq] at hfr'
    rcases ht with ht | ⟨ht, hp, hres', hsrc⟩
    · subst ht
      cases hpr : pending s r' with
      | false => simp
      | true =>
        cases hK : K r' with
        | false => simp
        | true =>
          simp only [K, Bool.and_eq_true, beq_iff_eq, bne_iff_ne, ne_eq] at hK
          obtain ⟨⟨hsrc, hne⟩, hres'⟩ := hK
          have hfw : db_find w r'.id = some r' := by
            have := hfr
            rw [find_storePut] at this
            have hne2 : ¬ item.id = r'.id := fun e => hne e.symm
            simpa [hne2] using this
          obtain ⟨r'', hr'', hnp⟩ := hdone hs hv r'.id r' hne hfw hsrc hres'
          have : some r'' = some r' := hr''.symm.trans hfr'
          cases this
          rw [hpr] at hnp; cases hnp
    · have hK : K r = true := by
        have hne : r.id ≠ item.id := by
          intro e
          rw [e, hfindA] at hfr
          cases hfr
          rw [pending_mark] at hp; cases hp
        simp [K, hsrc trivial, hne, hres']
      rw [ht, pending_mark, hp, hK]; rfl
  have hsplit := pend_split hpair
  have hcons := hrun.cons (fun _ => true)
  have hk : (storePut (mark s item) w.items).countP (fun r => pending s r && K r)
      = (w.items.filter (fun r => r.sourceId == item.sourceId && r.id != item.id
          && (node_from_id w r.nodeId).isSome
          && (r.readStatus != s || r.updateStatus))).length := by
    have hput : (storePut (mark s item) w.items).countP (fun r => pending s r && K r)
        = w.items.countP (fun r => pending s r && K r) := by
      apply countP_storePut_ne
      intro r hr
      simp only [K, Bool.and_eq_true, bne_iff_ne, ne_eq] at hr
      exact hr.2.1.2
    rw [hput, List.countP_eq_length_filter]
    congr 1
    apply List.filter_congr
    intro r _
    have hres : resolves w.nodes r.nodeId = (node_from_id w r.nodeId).isSome := rfl
    simp only [K, pending, hres]
    cases s <;> cases r.readStatus <;> cases r.updateStatus <;>
      cases (r.sourceId == item.sourceId) <;> cases (r.id != item.id) <;>
      cases (node_from_id w r.nodeId).isSome <;> rfl
  have hupd : updC (fun _ => true) es
      = 1 + (w.items.filter (fun r => r.sourceId == item.sourceId && r.id != item.id
          && (node_from_id w r.nodeId).isSome
          && (r.readStatus != s || r.updateStatus))).length := by
    rw [hes, updC_commitEvents, ← hk]
    simp only [if_true]
    omega
  refine ⟨w', A', es, hres, htrace, hupd, ?_, ?_⟩
  · rw [hes, updC_commitEvents, chkC_commitEvents, hrun.chk]
  · intro j
    rw [hes, updC_commitEvents]
    have hc := hrun.cons (fun i => i == j)
    by_cases hj : item.id = j
    · have hz : pend (fun i => i == j) s (storePut (mark s item) w.items) = 0 := by
        unfold pend
        rw [List.countP_eq_zero]
        intro r hr hq
        simp only [Bool.and_eq_true, beq_iff_eq] at hq
        have hfr := find_of_mem_nodup hnd1 hr
        rw [hq.1, ← hj, hfindA] at hfr
        cases hfr
        rw [pending_mark] at hq
        exact absurd hq.2 (by simp)
      simp only [hj, beq_self_eq_true, if_true]
      omega
    · have hle : pend (fun i => i == j) s (storePut (mark s item) w.items) ≤ 1 := by
        refine le_trans ?_ (count_id_le_one hnd1 j)
        unfold pend
        apply List.countP_mono_left
        intro r _ hq
        simp only [Bool.and_eq_true] at hq
        exact hq.1
      have hjf : (item.id == j) = false := by simpa using hj
      simp only [hjf]
      simp
      omega

/-- Witness for C9: the two-item scenario. -/
theorem item_set_read_state_update_count_witness :
    ∃ w' item' es, item_set_read_state syncHandler 4 scenarioWorld scenarioA true
        = some (w', item')
      ∧ w'.trace = scenarioWorld.trace ++ es
      ∧ updC (fun _ => true) es
          = 1 + (scenarioWorld.items.filter (fun r => r.sourceId == scenarioA.sourceId
              && r.id != scenarioA.id && (node_from_id scenarioWorld r.nodeId).isSome
              && (r.readStatus != true || r.updateStatus))).length
      ∧ chkC (fun _ => true) es = updC (fun _ => true) es
      ∧ ∀ j, updC (fun i => i == j) es ≤ 1 :=
  item_set_read_state_update_count.1 syncHandler scenarioWorld scenarioA true 4
    (fun _ _ _ => rfl) (by decide) rfl (by decide) (by decide)

/-! ## The bulk path and the recount flags -/

theorem flagIf_flagIf (a b : Bool) (x : Node) : flagIf b (flagIf a x) = flagIf (a || b) x := by
  cases a <;> cases b <;> rfl

theorem find_map_id (f : Node → Node) (hf : ∀ x, (f x).id = x.id) (nodes : List Node)
    (n : String) :
    (nodes.map f).find? (fun x => x.id == n)
      = (nodes.find? (fun x => x.id == n)).map f := by
  rw [List.find?_map]
  have : ((fun x : Node => x.id == n) ∘ f) = (fun x : Node => x.id == n) := by
    funext x
    simp [Function.comp, hf]
  rw [this]

theorem node_from_id_set_recount (w : World) (node : Node) (n : String) :
    node_from_id (item_state_set_recount_flag w node).1 n
      = (node_from_id w n).map (flagIf (n == node.id)) := by
  have h1 : node_from_id (item_state_set_recount_flag w node).1 n
      = (node_from_id w n).map
          (fun x => if x.id == node.id then { x with needsRecount := true } else x) := by
    apply find_map_id
    intro x
    by_cases hx : x.id = node.id <;> simp [hx]
  rw [h1]
  cases hn : node_from_id w n with
  | none => rfl
  | some x =>
    have hx : x.id = n := by
      have := List.find?_some hn
      simpa using this
    simp only [Option.map_some', hx, flagIf]

theorem node_from_id_id {w : World} {n : String} {x : Node}
    (h : node_from_id w n = some x) : x.id = n := by
  have := List.find?_some h
  simpa using this

theorem duplicateNodesLoop_spec :
    ∀ (dups : List String) (w : World),
      (duplicateNodesLoop dups w).items = w.items
      ∧ ∀ n, node_from_id (duplicateNodesLoop dups w) n
          = (node_from_id w n).map (flagIf (decide (n ∈ dups))) := by
  intro dups
  induction dups with
  | nil =>
    intro w
    refine ⟨rfl, fun n => ?_⟩
    show node_from_id w n = (node_from_id w n).map (flagIf (decide (n ∈ ([] : List String))))
    cases hn : node_from_id w n <;> simp [flagIf]
  | cons nid rest ih =>
    intro w
    cases hnode : node_from_id w nid with
    | none =>
      have hstep : duplicateNodesLoop (nid :: rest) w = duplicateNodesLoop rest w := by
        simp [duplicateNodesLoop, hnode]
      rw [hstep]
      refine ⟨(ih w).1, fun n => ?_⟩
      rw [(ih w).2 n]
      by_cases hn : n = nid
      · subst hn; rw [hnode]; rfl
      · have : decide (n ∈ nid :: rest) = decide (n ∈ rest) := by simp [hn]
        rw [this]
    | some a =>
      have hstep : duplicateNodesLoop (nid :: rest) w
          = duplicateNodesLoop rest (item_state_set_recount_flag w a).1 := by
        simp [duplicateNodesLoop, hnode]
      have ha : a.id = nid := node_from_id_id hnode
      rw [hstep]
      refine ⟨(ih _).1, fun n => ?_⟩
      rw [(ih _).2 n, node_from_id_set_recount, Option.map_map, ha]
      have : flagIf (decide (n ∈ rest)) ∘ flagIf (n == nid)
          = flagIf (decide (n ∈ nid :: rest)) := by
        funext x
        simp only [Function.comp, flagIf_flagIf]
        congr 1
        by_cases hn : n = nid <;> simp [hn]
      rw [this]

theorem forall2_touched_dup_nodes {nodes : List Node} {s : Bool} {S : String} {U : Prop}
    {l l' : List Item} (h : List.Forall₂ (Touched nodes s S U) l l') (sid : String) :
    (l'.filter (fun r => r.sourceId == sid)).map (fun r => r.nodeId)
      = (l.filter (fun r => r.sourceId == sid)).map (fun r => r.nodeId) := by
  induction h with
  | nil => rfl
  | @cons a b as bs hab _ ih =>
    simp only [List.filter_cons, hab.sourceId_eq]
    by_cases hs : a.sourceId = sid
    · simp [hs, hab.nodeId_eq, ih]
    · simp [hs, ih]

/-- The handler call made by `itemset_mark_read` for a loaded unread item whose node
resolves: it returns, leaves the nodes alone, and changes stored rows only by
marking them. -/
theorem mark_read_call_spec (h : Handler) (fuel : Nat) (w : World) (node : Option Node)
    (item : Item) (hd : db_find w item.id = some item) (hunread : item.readStatus = false)
    (hres : resolves w.nodes item.nodeId = true) (hfuel : w.items.length ≤ fuel) :
    ∃ w3 item3, node_source_item_mark_read h (item_read_state_changed h fuel) w node item true
        = some (w3, item3)
      ∧ w3.nodes = w.nodes ∧ item3.sourceId = item.sourceId ∧ item3.id = item.id
      ∧ List.Forall₂ (Touched w.nodes true item.sourceId False) w.items w3.items := by
  have hp : pending true item = true := by simp [pending, hunread]
  cases hacc : h.acceptReadChange node item true with
  | false =>
    exact ⟨emit w (.node_source_item_mark_read node item true), item,
      by simp [node_source_item_mark_read, hacc], rfl, rfl, rfl,
      forall2_touched_refl _ _ _ _ _⟩
  | true =>
    have hF : List.Forall₂ (Touched w.nodes true item.sourceId False) w.items
        (storePut (mark true item) w.items) :=
      forall2_touched_storePut hd hp hres (fun u => u.elim)
    have hf : pend (fun _ => true) true (storePut (mark true item) w.items) < fuel := by
      have h1 := pend_pos_of_find hd hp
      have h2 := pend_le_length (fun _ => true) true w.items
      omega
    obtain ⟨w', es, hbody, hnodes, _, hrun, _, _⟩ :=
      item_read_state_changed_body_spec (U := False)
        (item_set_read_state_spec h true False (fun _ => true) fuel)
        (emit w (.node_source_item_mark_read node item true)) item (fun u => u.elim)
        (fun _ _ _ => rfl) hf
    refine ⟨w', mark true item, ?_, hnodes, rfl, rfl, forall2_touched_trans hF hrun.items⟩
    simp only [node_source_item_mark_read, hacc, if_true]
    exact hbody

theorem itemsetLoop_cons (h : Handler) (fuel : Nat) (id : Nat) (L : List Nat) (w : World) :
    itemsetLoop h fuel (id :: L) w
      = (itemsetLoop h fuel [id] w).bind (itemsetLoop h fuel L) := by
  simp only [itemsetLoop, item_load]
  cases hd : db_find w id with
  | none => simp
  | some item =>
    simp only []
    cases hr : item.readStatus with
    | true => simp
    | false =>
      simp only [Bool.not_false, if_true]
      cases hn : node_from_id (emit w (.item_load id (some item).isSome)) item.nodeId with
      | none => simp
      | some node =>
        simp only []
        cases node_source_item_mark_read h (item_read_state_changed h fuel)
          (item_state_set_recount_flag (emit w (.item_load id (some item).isSome)) node).1
          (some (item_state_set_recount_flag (emit w (.item_load id (some item).isSome)) node).2)
          item true with
        | none => simp
        | some p => simp

theorem itemsetLoop_single_none {h : Handler} {fuel : Nat} {id : Nat} {w : World}
    (hd : db_find w id = none) :
    itemsetLoop h fuel [id] w = some (emit w (.item_load id false)) := by
  simp [itemsetLoop, item_load, hd]

theorem itemsetLoop_single_read {h : Handler} {fuel : Nat} {id : Nat} {w : World}
    {item : Item} (hd : db_find w id = some item) (hr : item.readStatus = true) :
    itemsetLoop h fuel [id] w
      = some (emit (emit w (.item_load id true)) (.item_unload item.id)) := by
  simp [itemsetLoop, item_load, hd, hr, item_unload]

theorem itemsetLoop_single_lost {h : Handler} {fuel : Nat} {id : Nat} {w : World}
    {item : Item} (hd : db_find w id = some item) (hr : item.readStatus = false)
    (hn : node_from_id w item.nodeId = none) :
    itemsetLoop h fuel [id] w
      = some (item_unload
          (duplicateNodesLoop (db_item_get_duplicate_nodes w item.sourceId).2
            (emit (g_warning (emit w (.item_load id true)) item)
              (.db_item_get_duplicate_nodes item.sourceId)))
          item) := by
  have hn2 : node_from_id (emit w (.item_load id true)) item.nodeId = none := hn
  simp only [itemsetLoop, item_load, hd, hr, Option.isSome_some, Bool.not_false, if_true, hn2]
  rfl

theorem itemsetLoop_single_call {h : Handler} {fuel : Nat} {id : Nat} {w w3 : World}
    {item item3 : Item} {node : Node} (hd : db_find w id = some item)
    (hr : item.readStatus = false) (hn : node_from_id w item.nodeId = some node)
    (hc : node_source_item_mark_read h (item_read_state_changed h fuel)
        (item_state_set_recount_flag (emit w (.item_load id true)) node).1
        (some (item_state_set_recount_flag (emit w (.item_load id true)) node).2)
        item true = some (w3, item3)) :
    itemsetLoop h fuel [id] w
      = some (item_unload
          (duplicateNodesLoop (db_item_get_duplicate_nodes w3 item3.sourceId).2
            (db_item_get_duplicate_nodes w3 item3.sourceId).1)
          item3) := by
  have hn2 : node_from_id (emit w (.item_load id true)) item.nodeId = some node := hn
  simp only [itemsetLoop, item_load, hd, hr, Option.isSome_some, Bool.not_false, if_true, hn2]
  rw [hc]

theorem map_flagIf_false (o : Option Node) : o.map (flagIf false) = o := by
  cases o <;> rfl

theorem map_flagIf_cons_none {w : World} {k : String} (hk : node_from_id w k = none)
    (dups : List String) (n : String) :
    (node_from_id w n).map (flagIf (decide (n ∈ dups)))
      = (node_from_id w n).map (flagIf (decide (n ∈ k :: dups))) := by
  by_cases hn : n = k
  · subst hn; rw [hk]; rfl
  · have : decide (n ∈ k :: dups) = decide (n ∈ dups) := by simp [hn]
    rw [this]

/-- One visit of the `itemset_mark_read` loop: it returns, keeps the number of stored
rows, and flags exactly the resolving nodes among `visitTargets`. -/
theorem itemsetLoop_visit (h : Handler) (fuel : Nat) (w : World) (id : Nat)
    (hfuel : w.items.length ≤ fuel) :
    ∃ w1, itemsetLoop h fuel [id] w = some w1 ∧ w1.items.length = w.items.length
      ∧ ∀ n, node_from_id w1 n
          = (node_from_id w n).map (flagIf (decide (n ∈ visitTargets w id))) := by
  cases hd : db_find w id with
  | none =>
    refine ⟨_, itemsetLoop_single_none hd, rfl, fun n => ?_⟩
    simp only [visitTargets, hd, List.not_mem_nil, decide_False, map_flagIf_false]
    rfl
  | some item =>
    have hid : item.id = id := find_id_eq hd
    cases hr : item.readStatus with
    | true =>
      refine ⟨_, itemsetLoop_single_read hd hr, rfl, fun n => ?_⟩
      have hvt : visitTargets w id = [] := by simp [visitTargets, hd, hr]
      rw [hvt]
      simp only [List.not_mem_nil, decide_False, map_flagIf_false]
      rfl
    | false =>
      have hvt : visitTargets w id
          = item.nodeId :: (db_item_get_duplicate_nodes w item.sourceId).2 := by
        simp [visitTargets, hd, hr]
      rw [hvt]
      cases hn : node_from_id w item.nodeId with
      | none =>
        refine ⟨_, itemsetLoop_single_lost hd hr hn, ?_, fun n => ?_⟩
        · show (duplicateNodesLoop _ _).items.length = _
          rw [(duplicateNodesLoop_spec _ _).1]; rfl
        · show node_from_id (duplicateNodesLoop _ _) n = _
          rw [(duplicateNodesLoop_spec _ _).2 n, ← map_flagIf_cons_none hn]
          rfl
      | some node =>
        have hnid : node.id = item.nodeId := node_from_id_id hn
        have hres : resolves (item_state_set_recount_flag (emit w (.item_load id true)) node).1.nodes
            item.nodeId = true := by
          show (node_from_id (item_state_set_recount_flag (emit w (.item_load id true)) node).1
            item.nodeId).isSome = true
          rw [node_from_id_set_recount]
          show ((node_from_id w item.nodeId).map _).isSome = true
          rw [hn]; rfl
        obtain ⟨w3, item3, hcall, hnodes, hsrc, _, hF⟩ :=
          mark_read_call_spec h fuel
            (item_state_set_recount_flag (emit w (.item_load id true)) node).1
            (some (item_state_set_recount_flag (emit w (.item_load id true)) node).2)
            item (by rw [hid]; exact hd) hr hres hfuel
        have hdups : (db_item_get_duplicate_nodes w3 item3.sourceId).2
            = (db_item_get_duplicate_nodes w item.sourceId).2 := by
          rw [hsrc]
          exact forall2_touched_dup_nodes hF item.sourceId
        refine ⟨_, itemsetLoop_single_call hd hr hn hcall, ?_, fun n => ?_⟩
        · show (duplicateNodesLoop _ _).items.length = _
          rw [(duplicateNodesLoop_spec _ _).1]
          exact hF.length_eq.symm
        · show node_from_id (duplicateNodesLoop _ _) n = _
          rw [(duplicateNodesLoop_spec _ _).2 n, hdups]
          have h3 : node_from_id (db_item_get_duplicate_nodes w3 item3.sourceId).1 n
              = node_from_id (item_state_set_recount_flag (emit w (.item_load id true)) node).1
                  n := by
            show w3.nodes.find? _ = _
            rw [hnodes]; rfl
          rw [h3, node_from_id_set_recount, Option.map_map, hnid]
          have : flagIf (decide (n ∈ (db_item_get_duplicate_nodes w item.sourceId).2))
                ∘ flagIf (n == item.nodeId)
              = flagIf (decide (n ∈ item.nodeId
                  :: (db_item_get_duplicate_nodes w item.sourceId).2)) := by
            funext x
            simp only [Function.comp, flagIf_flagIf]
            congr 1
            by_cases hx : n = item.nodeId <;> simp [hx]
          rw [this]
          rfl

theorem itemsetLoop_spec (h : Handler) (fuel : Nat) :
    ∀ (L : List Nat) (w : World), w.items.length ≤ fuel →
      ∃ w', itemsetLoop h fuel L w = some w'
        ∧ ∀ n, node_from_id w' n
            = (node_from_id w n).map (flagIf (decide (n ∈ recountTargets h fuel L w))) := by
  intro L
  induction L with
  | nil =>
    intro w _
    refine ⟨w, rfl, fun n => ?_⟩
    simp only [recountTargets, List.not_mem_nil, decide_False, map_flagIf_false]
  | cons id L ih =>
    intro w hfuel
    obtain ⟨w1, hvisit, hlen, hnodes1⟩ := itemsetLoop_visit h fuel w id hfuel
    obtain ⟨w', hloop, hnodes'⟩ := ih w1 (by rw [hlen]; exact hfuel)
    refine ⟨w', ?_, fun n => ?_⟩
    · rw [itemsetLoop_cons, hvisit]; exact hloop
    · rw [hnodes' n, hnodes1 n, Option.map_map]
      have ht : recountTargets h fuel (id :: L) w
          = visitTargets w id ++ recountTargets h fuel L w1 := by
        simp [recountTargets, hvisit]
      rw [ht]
      have : flagIf (decide (n ∈ recountTargets h fuel L w1))
            ∘ flagIf (decide (n ∈ visitTargets w id))
          = flagIf (decide (n ∈ visitTargets w id ++ recountTargets h fuel L w1)) := by
        funext x
        simp only [Function.comp, flagIf_flagIf]
        congr 1
        simp [List.mem_append]
      rw [this]

/-- C7: on a node with `unreadCount > 0` (and a recursion budget of at least the
number of stored rows) `itemset_mark_read` returns, and afterwards every node id
among the recount targets that resolves in the registry (the owning node of each
item of the item set that was unread when visited, and every node id returned for
its source id by the duplicate-node lookup) resolves to the same node with
`needsRecount = true`, while every other node id resolves exactly as before. -/
theorem itemset_mark_read_recount (h : Handler) (fuel : Nat) (w : World) (node : Node)
    (hpos : 0 < node.unreadCount) (hfuel : w.items.length ≤ fuel) :
    ∃ w', itemset_mark_read h fuel w node = some w'
      ∧ (∀ n x, node_from_id w n = some x →
          n ∈ recountTargets h fuel node.itemSet (node_get_itemset w node).1 →
          node_from_id w' n = some { x with needsRecount := true })
      ∧ (∀ n, n ∉ recountTargets h fuel node.itemSet (node_get_itemset w node).1 →
          node_from_id w' n = node_from_id w n) := by
  obtain ⟨w', hloop, hnodes⟩ :=
    itemsetLoop_spec h fuel node.itemSet (node_get_itemset w node).1 hfuel
  have hne : ¬ node.unreadCount = 0 := by omega
  refine ⟨w', by simp [itemset_mark_read, hne]; exact hloop, ?_, ?_⟩
  · intro n x hx hmem
    rw [hnodes n]
    show (node_from_id w n).map _ = _
    rw [hx]
    simp [flagIf, hmem]
  · intro n hmem
    rw [hnodes n]
    show (node_from_id w n).map _ = _
    have : decide (n ∈ recountTargets h fuel node.itemSet (node_get_itemset w node).1)
        = false := by simpa using hmem
    rw [this, map_flagIf_false]

/-- Witness for C7: node `n1` of the two-item scenario. -/
theorem itemset_mark_read_recount_witness :
    ∃ w', itemset_mark_read syncHandler 2 scenarioWorld scenarioN1 = some w'
      ∧ (∀ n x, node_from_id scenarioWorld n = some x →
          n ∈ recountTargets syncHandler 2 scenarioN1.itemSet
                (node_get_itemset scenarioWorld scenarioN1).1 →
          node_from_id w' n = some { x with needsRecount := true })
      ∧ (∀ n, n ∉ recountTargets syncHandler 2 scenarioN1.itemSet
                (node_get_itemset scenarioWorld scenarioN1).1 →
          node_from_id w' n = node_from_id scenarioWorld n) :=
  itemset_mark_read_recount syncHandler 2 scenarioWorld scenarioN1 (by decide) (by decide)

/-! ## Order of effects, dispatch, and missing guards -/

/-- C18: `item_flag_state_changed` makes exactly four calls, in this order: the store
update of the item carrying `flagStatus = newState`, the item-list refresh, the
saved-search recheck, the notification reset.  Nothing else is called (no duplicate
lookup, no counter recompute, no dirty-flag write), the nodes are untouched and
the store changes only by the row of the item, whatever `validGuid` is. -/
theorem item_flag_state_changed_effects (w : World) (item : Item) (newState : Bool) :
    (item_flag_state_changed w item newState).1.trace
        = w.trace ++ [.db_item_state_update { item with flagStatus := newState },
            .itemlist_update_item { item with flagStatus := newState },
            .vfolder_check_item { item with flagStatus := newState },
            .feedlist_reset_new_item_count]
    ∧ (item_flag_state_changed w item newState).1.nodes = w.nodes
    ∧ (item_flag_state_changed w item newState).1.items
        = storePut { item with flagStatus := newState } w.items
    ∧ (item_flag_state_changed w item newState).2 = { item with flagStatus := newState } := by
  refine ⟨?_, rfl, rfl, rfl⟩
  simp [item_flag_state_changed, feedlist_reset_new_item_count,
    vfolder_foreach_data_check_item, itemlist_update_item, db_item_state_update, emit]

/-- C14: for an item with `validGuid = false` a read-state request returns (any
positive budget) without duplicate fan-out: none of the calls it makes is a
duplicate lookup or an item load, and every stored row with another id, also one
with the same `sourceId`, is exactly as before. -/
theorem item_set_read_state_invalid_guid (h : Handler) (w : World) (item : Item)
    (newState : Bool) (fuel : Nat) (hv : item.validGuid = false) :
    ∃ w' item' es, item_set_read_state h (fuel + 1) w item newState = some (w', item')
      ∧ w'.trace = w.trace ++ es
      ∧ es.countP isLookup = 0
      ∧ w'.items.filter (fun r => r.id != item.id) = w.items.filter (fun r => r.id != item.id)
      ∧ (∀ j, j ≠ item.id → db_find w' j = db_find w j)
      ∧ w'.nodes = w.nodes := by
  cases hg : (newState == item.readStatus && !item.updateStatus) with
  | true =>
    exact ⟨w, item, [], by simp [item_set_read_state, hg], by simp, rfl, rfl,
      (fun _ _ => rfl), rfl⟩
  | false =>
    cases hacc : h.acceptReadChange (node_from_id w item.nodeId) item newState with
    | false =>
      refine ⟨emit w (.node_source_item_mark_read (node_from_id w item.nodeId) item newState),
        item, [.node_source_item_mark_read (node_from_id w item.nodeId) item newState],
        ?_, rfl, ?_, rfl, (fun _ _ => rfl), rfl⟩
      · simp [item_set_read_state, hg, node_source_item_mark_read, hacc]
      · simp [isLookup, List.countP_cons]
    | true =>
      refine ⟨committed (emit w (.node_source_item_mark_read (node_from_id w item.nodeId)
            item newState)) item newState, mark newState item,
        [.node_source_item_mark_read (node_from_id w item.nodeId) item newState]
          ++ commitEvents w item newState, ?_, ?_, ?_, ?_, ?_, rfl⟩
      · simp only [item_set_read_state, hg, node_source_item_mark_read, hacc, if_true]
        rw [item_read_state_changed_body_eq]
        simp [hv]
      · rw [committed_trace]; simp [commitEvents]
      · simp [isLookup, commitEvents, List.countP_cons]
      · exact filter_storePut (mark newState item) w.items
      · intro j hj
        show (storePut (mark newState item) w.items).find? (fun r => r.id == j) = _
        rw [find_storePut]
        have hne : ¬ item.id = j := fun e => hj e.symm
        simp [hne, db_find]

/-- Witness for C14: marking the GUID-less item of `looseWorld` read leaves the other
item with the same source id alone. -/
theorem item_set_read_state_invalid_guid_witness :
    ∃ w' item' es, item_set_read_state syncHandler 1 looseWorld looseA true = some (w', item')
      ∧ w'.trace = looseWorld.trace ++ es
      ∧ es.countP isLookup = 0
      ∧ w'.items.filter (fun r => r.id != looseA.id)
          = looseWorld.items.filter (fun r => r.id != looseA.id)
      ∧ (∀ j, j ≠ looseA.id → db_find w' j = db_find looseWorld j)
      ∧ w'.nodes = looseWorld.nodes :=
  item_set_read_state_invalid_guid syncHandler looseWorld looseA true 0 rfl

/-- C11 (failing input): the finalizer on the lost item C of `orphanWorld`.  It
requests a counter recompute with the absent node and logs no diagnostic. -/
theorem item_read_state_changed_lost_node :
    node_from_id orphanWorld scenarioC.nodeId = none
    ∧ (item_read_state_changed syncHandler 4 orphanWorld scenarioC true).map
        (fun p => p.1.trace.filter (fun e =>
          match e with
          | .node_update_counters none => true
          | .g_warning _ _ => true
          | _ => false))
      = some [.node_update_counters none] := by
  decide

/-- C20 (counterexample): `itemset_mark_read` on node `n1` of `looseWorld`, whose only
item has `validGuid = false`.  The duplicate-node lookup is made for its source id
all the same, and node `n2` (owner of an already read item with that source id) is
flagged for a recount. -/
theorem itemset_mark_read_ignores_valid_guid :
    looseA.validGuid = false
    ∧ (itemset_mark_read syncHandler 2 looseWorld scenarioN1).map
        (fun w => (w.trace.filter (fun e =>
            match e with
            | .db_item_get_duplicate_nodes _ => true
            | .set_recount_flag _ => true
            | _ => false),
          w.nodes))
      = some ([.set_recount_flag "n1", .db_item_get_duplicate_nodes "",
               .set_recount_flag "n1", .set_recount_flag "n2"],
              [{ scenarioN1 with needsRecount := true },
               { scenarioN2 with needsRecount := true }]) := by
  decide

/-! ## Handler calls and the order of the finalizer -/

theorem hdlC_append (q : Nat → Bool) (a b : List Event) :
    hdlC q (a ++ b) = hdlC q a + hdlC q b := by
  simp [hdlC, List.countP_append]

/-- In a fan-out nothing is written and no handler is called for an id whose stored
row is not pending. -/
theorem no_calls_of_not_pending {nodes : List Node} {s : Bool} {l : List Item}
    {es : List Event} {j : Nat} (hok : ∀ e ∈ es, okEvent nodes s l e)
    (hj : ∀ r, l.find? (fun r => r.id == j) = some r → pending s r = false) :
    hdlC (fun i => i == j) es = 0 ∧ updC (fun i => i == j) es = 0 := by
  constructor
  · unfold hdlC
    rw [List.countP_eq_zero]
    intro e he hq
    cases e with
    | node_source_item_mark_read node x b =>
      obtain ⟨r, hf, _, _, _, _, hp, _⟩ := hok _ he
      have hx : x.id = j := by simpa [hdlOf] using hq
      rw [hx] at hf
      rw [hj r hf] at hp
      cases hp
    | _ => simp [hdlOf] at hq
  · unfold updC
    rw [List.countP_eq_zero]
    intro e he hq
    cases e with
    | db_item_state_update x =>
      obtain ⟨r, hf, _, _, hp⟩ := hok _ he
      have hx : x.id = j := by simpa [updOf] using hq
      rw [hx] at hf
      rw [hj r hf] at hp
      cases hp
    | _ => simp [updOf] at hq

theorem find_storePut_mark (s : Bool) (item : Item) (l : List Item) :
    (storePut (mark s item) l).find? (fun r => r.id == item.id) = some (mark s item) := by
  rw [find_storePut]; simp

/-- C13: the read-state handler is called for the item exactly once when `newState`
differs from `readStatus` or `updateStatus` is set, and not at all otherwise; when
it is called, that call is the first thing the request does and carries the node
resolved from `item.nodeId`, the unmodified item and `newState`.  In particular a
request for the state the item already has, on an item with `updateStatus = true`,
is not a no-op: the handler is called once, and when it commits the item ends
(in memory and in the store) with `updateStatus = false` and its `readStatus`
unchanged, after exactly one store write for that item. -/
theorem item_set_read_state_updated (h : Handler) (w : World) (item : Item)
    (newState : Bool) (fuel : Nat) (hfuel : w.items.length + 2 ≤ fuel) :
    ∃ w' item' es, item_set_read_state h fuel w item newState = some (w', item')
      ∧ w'.trace = w.trace ++ es
      ∧ hdlC (fun i => i == item.id) es
          = (if (newState != item.readStatus || item.updateStatus) = true then 1 else 0)
      ∧ ((newState != item.readStatus || item.updateStatus) = true →
          es.head? = some (.node_source_item_mark_read (node_from_id w item.nodeId) item
            newState))
      ∧ (item.updateStatus = true → newState = item.readStatus →
          hdlC (fun i => i == item.id) es = 1
          ∧ (h.acceptReadChange (node_from_id w item.nodeId) item newState = true →
              item' = { item with updateStatus := false }
              ∧ item'.readStatus = item.readStatus ∧ item'.updateStatus = false
              ∧ db_find w' item.id = some item'
              ∧ updC (fun i => i == item.id) es = 1)) := by
  obtain ⟨n, rfl⟩ : ∃ n, fuel = n + 1 := ⟨fuel - 1, by omega⟩
  obtain ⟨w', A', es, hres, _, htrace, hcase⟩ :=
    item_set_read_state_top h newState False w item n (fun u => u.elim) (by omega)
  have hpe : pending newState item = (newState != item.readStatus || item.updateStatus) := by
    unfold pending
    cases newState <;> cases item.readStatus <;> cases item.updateStatus <;> rfl
  have hcount : hdlC (fun i => i == item.id) es
        = (if (newState != item.readStatus || item.updateStatus) = true then 1 else 0)
      ∧ ((newState != item.readStatus || item.updateStatus) = true →
          es.head? = some (.node_source_item_mark_read (node_from_id w item.nodeId) item
            newState)) := by
    rw [← hpe]
    rcases hcase with ⟨hp, _, _, hes⟩ | ⟨hp, _, _, _, hes⟩ | ⟨hp, _, _, es', hes, hrun, _, _⟩
    · subst hes
      rw [hp]
      exact ⟨rfl, fun hc => by cases hc⟩
    · subst hes
      rw [hp]
      exact ⟨by simp [hdlC, hdlOf, List.countP_cons], fun _ => rfl⟩
    · subst hes
      rw [hp]
      have hz := (no_calls_of_not_pending (j := item.id) hrun.ok (by
        intro r hr
        rw [find_storePut_mark] at hr
        cases hr
        exact pending_mark newState item)).1
      refine ⟨?_, fun _ => rfl⟩
      rw [hdlC_append, hdlC_append, hz]
      simp [hdlC, hdlOf, commitEvents, List.countP_cons]
  refine ⟨w', A', es, hres, htrace, hcount.1, hcount.2, ?_⟩
  intro hu hs
  have hp : pending newState item = true := by simp [pending, hu]
  refine ⟨by rw [hcount.1, ← hpe, hp]; rfl, fun hacc => ?_⟩
  rcases hcase with ⟨hp', _⟩ | ⟨_, hacc', _⟩ | ⟨_, _, hA, es', hes, hrun, _, _⟩
  · rw [hp] at hp'; cases hp'
  · rw [hacc] at hacc'; cases hacc'
  · have hA2 : A' = { item with updateStatus := false } := by
      rw [hA, hs]; rfl
    have hz := (no_calls_of_not_pending (j := item.id) hrun.ok (by
        intro r hr
        rw [find_storePut_mark] at hr
        cases hr
        exact pending_mark newState item)).2
    refine ⟨hA2, by rw [hA2], by rw [hA2], ?_, ?_⟩
    · rw [hA]; exact find_touched_mark hrun
    · rw [hes, updC_commitEvents, hz]
      simp

/-- Witness for C13: item A of the scenario with its updated marker set, asked to
stay unread. -/
theorem item_set_read_state_updated_witness :
    ∃ w' item', item_set_read_state syncHandler 4 scenarioWorld
        { scenarioA with updateStatus := true } false = some (w', item')
      ∧ item' = scenarioA ∧ db_find w' scenarioA.id = some scenarioA := by
  obtain ⟨w', item', es, hres, _, _, _, hupd⟩ :=
    item_set_read_state_updated syncHandler scenarioWorld
      { scenarioA with updateStatus := true } false 4 (by decide)
  obtain ⟨hi, _, _, hdb, _⟩ := (hupd rfl rfl).2 rfl
  exact ⟨w', item', hres, hi, by rw [hdb, hi]; rfl⟩

/-- C17: for an item whose owning node resolves, `item_read_state_changed` returns
(budget above the number of stored rows) and its calls are, in this order: the
store update of the item carrying `readStatus = newState` and `updateStatus = false`,
the saved-search recheck of that same item, the item-list refresh, one counter
recompute request for the owning node, the notification reset, and only then the
duplicate fan-out `es` (empty without a valid GUID, else starting with the duplicate
lookup).  The store the recheck sees already holds the item in its new state. -/
theorem item_read_state_changed_order (h : Handler) (fuel : Nat) (w : World) (item : Item)
    (newState : Bool) (node : Node) (hnode : node_from_id w item.nodeId = some node)
    (hfuel : w.items.length < fuel) :
    ∃ w' es, item_read_state_changed h fuel w item newState
        = some (w', { item with readStatus := newState, updateStatus := false })
      ∧ w'.trace = w.trace
          ++ [.db_item_state_update { item with readStatus := newState, updateStatus := false },
              .vfolder_check_item { item with readStatus := newState, updateStatus := false },
              .itemlist_update_item { item with readStatus := newState, updateStatus := false },
              .node_update_counters (some node),
              .feedlist_reset_new_item_count]
          ++ es
      ∧ (item.validGuid = false → es = [])
      ∧ (item.validGuid = true → ∃ rest, es = .db_item_get_duplicates item.sourceId :: rest)
      ∧ db_find (db_item_state_update w
            { item with readStatus := newState, updateStatus := false }) item.id
          = some { item with readStatus := newState, updateStatus := false } := by
  have hf : pend (fun _ => true) newState (storePut (mark newState item) w.items) < fuel :=
    lt_of_le_of_lt ((pend_storePut_le _ newState item w.items).trans
      (pend_le_length _ newState _)) hfuel
  obtain ⟨w', es, hbody, _, htrace, _, hnv, _, hhead⟩ :=
    item_read_state_changed_body_spec (U := False)
      (item_set_read_state_spec h newState False (fun _ => true) fuel) w item
      (fun u => u.elim) (fun _ _ _ => rfl) hf
  refine ⟨w', es, hbody, ?_, hnv, hhead, ?_⟩
  · rw [htrace, commitEvents, hnode]; rfl
  · rw [db_find_update]; simp

/-- Witness for C17: the finalizer on item A of the two-item scenario. -/
theorem item_read_state_changed_order_witness :
    ∃ w' es, item_read_state_changed syncHandler 3 scenarioWorld scenarioA true
        = some (w', { scenarioA with readStatus := true, updateStatus := false })
      ∧ w'.trace = scenarioWorld.trace
          ++ [.db_item_state_update { scenarioA with readStatus := true, updateStatus := false },
              .vfolder_check_item { scenarioA with readStatus := true, updateStatus := false },
              .itemlist_update_item { scenarioA with readStatus := true, updateStatus := false },
              .node_update_counters (some scenarioN1),
              .feedlist_reset_new_item_count]
          ++ es
      ∧ (scenarioA.validGuid = false → es = [])
      ∧ (scenarioA.validGuid = true →
          ∃ rest, es = .db_item_get_duplicates scenarioA.sourceId :: rest)
      ∧ db_find (db_item_state_update scenarioWorld
            { scenarioA with readStatus := true, updateStatus := false }) scenarioA.id
          = some { scenarioA with readStatus := true, updateStatus := false } :=
  item_read_state_changed_order syncHandler 3 scenarioWorld scenarioA true scenarioN1
    (by decide) (by decide)

/-! ## Termination of the fan-out -/

/-- The fan-out loop of an item never calls the entry point for the item's own id:
what the entry point would do for that id has no influence on the loop. -/
theorem duplicatesLoop_skips_own_id (f g : World → Item → Bool → Option (World × Item))
    (item : Item) (s : Bool)
    (hfg : ∀ (w : World) (d : Item) (b : Bool), d.id ≠ item.id → f w d b = g w d b) :
    ∀ (L : List Nat) (w : World),
      duplicatesLoop f item s L w = duplicatesLoop g item s L w := by
  intro L
  induction L with
  | nil => intro w; rfl
  | cons j L ih =>
    intro w
    cases hd : db_find w j with
    | none => rw [duplicatesLoop_cons_none hd, duplicatesLoop_cons_none hd, ih]
    | some d =>
      cases hc : (d.id != item.id && resolves w.nodes d.nodeId) with
      | false => rw [duplicatesLoop_cons_skip hd hc, duplicatesLoop_cons_skip hd hc, ih]
      | true =>
        have hne : d.id ≠ item.id := by
          simp only [Bool.and_eq_true, bne_iff_ne, ne_eq] at hc
          exact hc.1
        cases hf : f (emit w (.item_load j true)) d s with
        | none =>
          have hg : g (emit w (.item_load j true)) d s = none := by
            rw [← hfg _ _ _ hne]; exact hf
          have hc2 : (d.id != item.id
              && (node_from_id (emit w (.item_load j true)) d.nodeId).isSome) = true := hc
          simp only [duplicatesLoop, item_load, hd, Option.isSome_some, hc2, if_true, hf, hg]
        | some p =>
          have hg : g (emit w (.item_load j true)) d s = some (p.1, p.2) := by
            rw [← hfg _ _ _ hne]; exact hf
          rw [duplicatesLoop_cons_call hd hc (show f _ d s = some (p.1, p.2) from hf),
            duplicatesLoop_cons_call hd hc hg, ih]

theorem mem_storePut_self (item : Item) (l : List Item) : item ∈ storePut item l := by
  induction l with
  | nil => simp [storePut]
  | cons r rs ih =>
    by_cases hr : r.id = item.id
    · rw [storePut_cons_eq rs hr]; exact List.mem_cons_self _ _
    · rw [storePut_cons_ne rs hr]; exact List.mem_cons_of_mem _ ih

theorem countP_succ_le {p p' : Item → Bool} {l : List Item} {x : Item} (hx : x ∈ l)
    (hpx : p x = true) (hpx' : p' x = false) (hsub : ∀ y, p' y = true → p y = true) :
    l.countP p' + 1 ≤ l.countP p := by
  induction l with
  | nil => cases hx
  | cons a as ih =>
    rcases List.mem_cons.mp hx with h | h
    · subst h
      have := List.countP_mono_left (l := as) (p := p') (q := p) (fun y _ hy => hsub y hy)
      simp only [List.countP_cons, hpx, hpx', if_true]
      simp
      omega
    · have := ih h
      simp only [List.countP_cons]
      cases hpa' : p' a with
      | false => simp; omega
      | true => simp [hsub a hpa']; omega

/-- With unique ids, marking rows of source `S` lowers the number of pending rows by
at most the number of pending rows of source `S`. -/
theorem pend_le_touched {nodes : List Node} {s : Bool} {S : String} {l l' : List Item}
    (h : List.Forall₂ (Touched nodes s S True) l l') :
    pend (fun _ => true) s l
      ≤ pend (fun _ => true) s l' + l.countP (fun r => r.sourceId == S && pending s r) := by
  induction h with
  | nil => simp [pend]
  | @cons a b as bs hab _ ih =>
    simp only [pend, List.countP_cons, Bool.true_and] at ih ⊢
    rcases hab with hab | ⟨hab, hp, _, hsrc⟩
    · subst hab
      cases pending s b <;> cases (b.sourceId == S) <;> simp <;> omega
    · have hS : (a.sourceId == S) = true := by simpa using hsrc trivial
      rw [hab, pending_mark, hp, hS]
      simp
      omega

/-- C19: the duplicate fan-out terminates, within the size of the duplicate set.
Let `D` be the duplicate set of the item: the ids the duplicate lookup returns for
its source id once the item is persisted (it contains the item itself).  With
unique ids in the store, for every handler (in particular the synchronous one),
item and `newState`, `item_set_read_state` returns already with a budget of
`|D| + 1` nested activations of the entry point; the number of finalizer
invocations (one store update each, so also their nesting depth) is at most `|D|`;
handler and finalizer run at most once for the item's own id.  The fan-out loop of
an item never re-enters the entry point with the item's own id. -/
theorem item_set_read_state_terminates :
    (∀ (h : Handler) (w : World) (item : Item) (s : Bool) (fuel : Nat),
      (w.items.map (fun r => r.id)).Nodup →
      (db_item_get_duplicates (committed w item s) item.sourceId).2.length + 1 ≤ fuel →
      ∃ w' item' es, item_set_read_state h fuel w item s = some (w', item')
        ∧ w'.trace = w.trace ++ es
        ∧ updC (fun _ => true) es
            ≤ (db_item_get_duplicates (committed w item s) item.sourceId).2.length
        ∧ hdlC (fun i => i == item.id) es ≤ 1
        ∧ updC (fun i => i == item.id) es ≤ 1)
    ∧ (∀ (f g : World → Item → Bool → Option (World × Item)) (item : Item) (s : Bool)
        (L : List Nat) (w : World),
        (∀ (w : World) (d : Item) (b : Bool), d.id ≠ item.id → f w d b = g w d b) →
        duplicatesLoop f item s L w = duplicatesLoop g item s L w) := by
  refine ⟨?_, fun f g item s L w hfg => duplicatesLoop_skips_own_id f g item s hfg L w⟩
  intro h w item s fuel hnd hfuel
  obtain ⟨n, rfl⟩ : ∃ n, fuel = n + 1 := ⟨fuel - 1, by omega⟩
  have hnd1 : ((storePut (mark s item) w.items).map (fun r => r.id)).Nodup :=
    nodup_storePut hnd
  have hDlen : (db_item_get_duplicates (committed w item s) item.sourceId).2.length
      = (storePut (mark s item) w.items).countP (fun r => r.sourceId == item.sourceId) := by
    show (((storePut (mark s item) w.items).filter _).map _).length = _
    rw [List.length_map, List.countP_eq_length_filter]
  have hmem : mark s item ∈ storePut (mark s item) w.items := mem_storePut_self _ _
  have hsrcP : (storePut (mark s item) w.items).countP
        (fun r => r.sourceId == item.sourceId && pending s r) + 1
      ≤ (storePut (mark s item) w.items).countP (fun r => r.sourceId == item.sourceId) := by
    apply countP_succ_le hmem
    · simp
    · simp
    · intro y hy
      simp only [Bool.and_eq_true] at hy
      exact hy.1
  -- the ids the fan-out can reach
  let q : Nat → Bool := fun j =>
    decide (j ∈ ((storePut (mark s item) w.items).filter
      (fun r => r.sourceId == item.sourceId)).map (fun r => r.id))
  have hq : ∀ r ∈ storePut (mark s item) w.items, (True → r.sourceId = item.sourceId) →
      q r.id = true := by
    intro r hr hsrc
    simp only [q, decide_eq_true_eq]
    exact List.mem_map.mpr ⟨r, List.mem_filter.mpr ⟨hr, by simpa using hsrc trivial⟩, rfl⟩
  have hpendq : pend q s (storePut (mark s item) w.items)
      ≤ (storePut (mark s item) w.items).countP
          (fun r => r.sourceId == item.sourceId && pending s r) := by
    unfold pend
    apply List.countP_mono_left
    intro r hr hqr
    simp only [Bool.and_eq_true, q, decide_eq_true_eq] at hqr
    obtain ⟨r0, hr0, hid⟩ := List.mem_map.mp hqr.1
    obtain ⟨hmem0, hsrc0⟩ := List.mem_filter.mp hr0
    have h1 := find_of_mem_nodup hnd1 hmem0
    have h2 := find_of_mem_nodup hnd1 hr
    rw [hid, h2] at h1
    cases h1
    simp only [Bool.and_eq_true]
    exact ⟨hsrc0, hqr.2⟩
  obtain ⟨w', A', es, hres, _, htrace, hcase⟩ :=
    item_set_read_state_top_gen h s True q w item n (fun _ => hnd) hq (by omega)
  refine ⟨w', A', es, hres, htrace, ?_⟩
  rcases hcase with ⟨_, _, _, hes⟩ | ⟨_, _, _, _, hes⟩ | ⟨_, _, _, es', hes, hrun, _, _⟩
  · subst hes
    exact ⟨Nat.zero_le _, Nat.zero_le _, Nat.zero_le _⟩
  · subst hes
    refine ⟨?_, ?_, ?_⟩
    · simp [updC, updOf, List.countP_cons]
    · simp [hdlC, hdlOf, List.countP_cons]
    · simp [updC, updOf, List.countP_cons]
  · have hz := no_calls_of_not_pending (j := item.id) hrun.ok (by
        intro r hr
        rw [find_storePut_mark] at hr
        cases hr
        exact pending_mark s item)
    have hcons := hrun.cons (fun _ => true)
    have hle := pend_le_touched hrun.items
    subst hes
    refine ⟨?_, ?_, ?_⟩
    · rw [updC_commitEvents, hDlen]
      simp only [if_true]
      omega
    · rw [hdlC_append, hdlC_append, hz.1]
      simp [hdlC, hdlOf, commitEvents, List.countP_cons]
    · rw [updC_commitEvents, hz.2]
      simp

/-- Witness for C19: marking A read in the two-item scenario, whose duplicate set has
two members, with a budget of three. -/
theorem item_set_read_state_terminates_witness :
    ∃ w' item' es, item_set_read_state syncHandler 3 scenarioWorld scenarioA true
        = some (w', item')
      ∧ w'.trace = scenarioWorld.trace ++ es
      ∧ updC (fun _ => true) es
          ≤ (db_item_get_duplicates (committed scenarioWorld scenarioA true)
              scenarioA.sourceId).2.length
      ∧ hdlC (fun i => i == scenarioA.id) es ≤ 1
      ∧ updC (fun i => i == scenarioA.id) es ≤ 1 :=
  item_set_read_state_terminates.1 syncHandler scenarioWorld scenarioA true 3
    (by decide) (by decide)

/-! ## The bulk path: what is called, and for which items -/

theorem resolves_of_map {w w1 : World} {n : String} {g : Node → Node}
    (h : node_from_id w1 n = (node_from_id w n).map g) :
    resolves w1.nodes n = resolves w.nodes n := by
  show (node_from_id w1 n).isSome = (node_from_id w n).isSome
  rw [h]
  cases node_from_id w n <;> rfl

theorem touched_congr {nodes nodes' : List Node} {s : Bool} {S S' : String} {r r' : Item}
    (hres : ∀ n, resolves nodes' n = resolves nodes n)
    (h : Touched nodes' s S False r r') : Touched nodes s S' False r r' := by
  rcases h with h | ⟨h, hp, hr, _⟩
  · exact Or.inl h
  · exact Or.inr ⟨h, hp, by rw [← hres]; exact hr, fun u => u.elim⟩

theorem forall2_touched_congr {nodes nodes' : List Node} {s : Bool} {S S' : String}
    {l l' : List Item} (hres : ∀ n, resolves nodes' n = resolves nodes n)
    (h : List.Forall₂ (Touched nodes' s S False) l l') :
    List.Forall₂ (Touched nodes s S' False) l l' :=
  h.imp (fun _ _ hab => touched_congr hres hab)

theorem find_clr {nodes nodes' : List Node} (hnds : nodes'.map clr = nodes.map clr)
    (n : String) :
    (nodes'.find? (fun m => m.id == n)).map clr = (nodes.find? (fun m => m.id == n)).map clr := by
  rw [← find_map_id clr (fun _ => rfl) nodes' n, ← find_map_id clr (fun _ => rfl) nodes n, hnds]

theorem set_recount_nodes_clr (a : World) (node : Node) :
    (item_state_set_recount_flag a node).1.nodes.map clr = a.nodes.map clr := by
  show (a.nodes.map _).map clr = a.nodes.map clr
  rw [List.map_map]
  apply List.map_congr_left
  intro x _
  by_cases hx : x.id = node.id <;> simp [Function.comp, clr, hx]

theorem okEvent_bulk {nodes nodes' : List Node} {l : List Item} {e : Event}
    (hres : ∀ n, resolves nodes' n = resolves nodes n)
    (hnds : nodes'.map clr = nodes.map clr)
    (he : okEvent nodes' true l e) : bulkOk nodes l e := by
  cases e with
  | db_item_state_update x =>
    obtain ⟨r, hf, hr, hx, hp⟩ := he
    exact ⟨r, hf, by rw [← hres]; exact hr, hx, hp⟩
  | node_source_item_mark_read node x b =>
    obtain ⟨r, hf, hr, _, hb, hn, hp, hxr⟩ := he
    refine ⟨r, hf, by rw [← hres]; exact hr, hb, hxr, hp, ?_⟩
    have hsome : (nodes'.find? (fun n => n.id == x.nodeId)).isSome = true := by
      rw [hxr]; exact hr
    cases hfind : nodes'.find? (fun n => n.id == x.nodeId) with
    | none => rw [hfind] at hsome; cases hsome
    | some n =>
      refine ⟨n, by rw [hn, hfind], ?_, ?_⟩
      · have := List.find?_some hfind
        simpa using this
      · rw [← find_clr hnds, hfind]; rfl
  | g_warning _ _ => exact he.elim
  | set_recount_flag _ => trivial
  | db_item_get_duplicate_nodes _ => trivial
  | node_get_itemset _ => trivial
  | node_source_item_set_flag _ _ _ => exact he.elim
  | _ => trivial

theorem bulkOk_transfer {nodes nodes1 : List Node} {S : String} {l l1 : List Item}
    (hres : ∀ n, resolves nodes1 n = resolves nodes n)
    (hnds : nodes1.map clr = nodes.map clr)
    (h : List.Forall₂ (Touched nodes true S False) l l1) (e : Event)
    (he : bulkOk nodes1 l1 e) : bulkOk nodes l e := by
  cases e with
  | db_item_state_update x =>
    obtain ⟨r1, hf, hr, hx, hp⟩ := he
    obtain ⟨r, hfr, ht⟩ := (forall2_touched_find h x.id).2.1 r1 hf
    have hr1 : r1 = r := by
      rcases ht with ht | ⟨ht, _⟩
      · exact ht
      · rw [ht, pending_mark] at hp; cases hp
    subst hr1
    exact ⟨r1, hfr, by rw [← hres]; exact hr, hx, hp⟩
  | node_source_item_mark_read node x b =>
    obtain ⟨r1, hf, hr, hb, hxr, hp, n, hn, hnid, hnclr⟩ := he
    obtain ⟨r, hfr, ht⟩ := (forall2_touched_find h x.id).2.1 r1 hf
    have hr1 : r1 = r := by
      rcases ht with ht | ⟨ht, _⟩
      · exact ht
      · rw [ht, pending_mark] at hp; cases hp
    subst hr1
    exact ⟨r1, hfr, by rw [← hres]; exact hr, hb, hxr, hp, n, hn, hnid,
      by rw [← find_clr hnds]; exact hnclr⟩
  | g_warning id nid =>
    obtain ⟨r1, hf, hnid, hr, hunread⟩ := he
    obtain ⟨r, hfr, ht⟩ := (forall2_touched_find h id).2.1 r1 hf
    have hr1 : r1 = r := by
      rcases ht with ht | ⟨ht, _⟩
      · exact ht
      · rw [ht] at hunread; cases hunread
    subst hr1
    exact ⟨r1, hfr, hnid, by rw [← hres]; exact hr, hunread⟩
  | _ => exact he

theorem Bulk.single (w : World) (e : Event) (he : bulkOk w.nodes w.items e) :
    Bulk w [e] (emit w e) where
  trace := rfl
  items := forall2_touched_refl _ _ _ _ _
  res := fun _ => rfl
  nds := rfl
  ok := by
    intro e' he'
    rw [List.mem_singleton] at he'
    subst he'; exact he

theorem Bulk.seq {w w1 w2 : World} {es1 es2 : List Event}
    (h1 : Bulk w es1 w1) (h2 : Bulk w1 es2 w2) : Bulk w (es1 ++ es2) w2 where
  trace := by rw [h2.trace, h1.trace, List.append_assoc]
  items := forall2_touched_trans h1.items (forall2_touched_congr h1.res h2.items)
  res := fun n => (h2.res n).trans (h1.res n)
  nds := h2.nds.trans h1.nds
  ok := by
    intro e he
    rcases List.mem_append.mp he with he | he
    · exact h1.ok e he
    · exact bulkOk_transfer h1.res h1.nds h1.items e (h2.ok e he)

theorem Bulk.flag_node (w : World) (node : Node) :
    Bulk w [.set_recount_flag node.id] (item_state_set_recount_flag w node).1 where
  trace := rfl
  items := forall2_touched_refl _ _ _ _ _
  res := fun n => resolves_of_map (node_from_id_set_recount w node n)
  nds := set_recount_nodes_clr w node
  ok := by
    intro e he
    rw [List.mem_singleton] at he
    subst he; trivial

theorem Bulk.flag_nodes : ∀ (dups : List String) (w : World),
    ∃ es, Bulk w es (duplicateNodesLoop dups w) ∧ (∀ q, warnC q es = 0)
      ∧ ∀ e ∈ es, ∃ n ∈ dups, e = .set_recount_flag n := by
  intro dups
  induction dups with
  | nil =>
    intro w
    exact ⟨[], ⟨by simp [duplicateNodesLoop], forall2_touched_refl _ _ _ _ _, fun _ => rfl,
      rfl, by intro e he; cases he⟩, fun _ => rfl, by intro e he; cases he⟩
  | cons nid rest ih =>
    intro w
    cases hnode : node_from_id w nid with
    | none =>
      have hstep : duplicateNodesLoop (nid :: rest) w = duplicateNodesLoop rest w := by
        simp [duplicateNodesLoop, hnode]
      rw [hstep]
      obtain ⟨es, hb, hw, hfl⟩ := ih w
      refine ⟨es, hb, hw, fun e he => ?_⟩
      obtain ⟨n, hn, hen⟩ := hfl e he
      exact ⟨n, List.mem_cons_of_mem _ hn, hen⟩
    | some a =>
      have hstep : duplicateNodesLoop (nid :: rest) w
          = duplicateNodesLoop rest (item_state_set_recount_flag w a).1 := by
        simp [duplicateNodesLoop, hnode]
      rw [hstep]
      obtain ⟨es, hb, hw, hfl⟩ := ih (item_state_set_recount_flag w a).1
      refine ⟨[.set_recount_flag a.id] ++ es, (Bulk.flag_node w a).seq hb, fun q => ?_,
        fun e he => ?_⟩
      · simp only [warnC] at hw ⊢
        rw [List.countP_append, hw q]
        simp [warnOf, List.countP_cons]
      · rcases List.mem_append.mp he with he | he
        · rw [List.mem_singleton] at he
          exact ⟨nid, List.mem_cons_self _ _, by rw [he, node_from_id_id hnode]⟩
        · obtain ⟨n, hn, hen⟩ := hfl e he
          exact ⟨n, List.mem_cons_of_mem _ hn, hen⟩

/-- Dirty-flag writes neither load nor release an item. -/
theorem balance_flags {D : List String} {es : List Event}
    (h : ∀ e ∈ es, ∃ n ∈ D, e = .set_recount_flag n) (held : List Nat) :
    balance held es = some held := by
  induction es with
  | nil => rfl
  | cons e es ih =>
    obtain ⟨n, _, hen⟩ := h e (List.mem_cons_self _ _)
    rw [balance_cons, hen]
    exact ih (fun e' he' => h e' (List.mem_cons_of_mem _ he'))

theorem touched_nodes_congr {nodes nodes' : List Node} {s : Bool} {S : String} {U : Prop}
    {r r' : Item} (hres : ∀ n, resolves nodes' n = resolves nodes n)
    (h : Touched nodes' s S U r r') : Touched nodes s S U r r' := by
  rcases h with h | ⟨h, hp, hr, hu⟩
  · exact Or.inl h
  · exact Or.inr ⟨h, hp, by rw [← hres]; exact hr, hu⟩

theorem warnC_append (q : Nat → Bool) (a b : List Event) :
    warnC q (a ++ b) = warnC q a + warnC q b := by
  simp [warnC, List.countP_append]

theorem warnC_run_zero {nodes : List Node} {s : Bool} {l : List Item} {es : List Event}
    (hok : ∀ e ∈ es, okEvent nodes s l e) (q : Nat → Bool) : warnC q es = 0 := by
  unfold warnC
  rw [List.countP_eq_zero]
  intro e he hq
  cases e with
  | g_warning id nid => exact (hok _ he).elim
  | _ => simp [warnOf] at hq

/-- The handler call made by `itemset_mark_read` for a loaded unread item whose node
resolves, with its trace: a `Run` of the fan-out machinery. -/
theorem mark_read_call_run_gen (U : Prop) (h : Handler) (fuel : Nat) (w : World)
    (item : Item) (hd : db_find w item.id = some item) (hunread : item.readStatus = false)
    (hres : resolves w.nodes item.nodeId = true) (hfuel : w.items.length ≤ fuel)
    (hU : U → (w.items.map (fun r => r.id)).Nodup) :
    ∃ w3 item3 es, node_source_item_mark_read h (item_read_state_changed h fuel) w
        (node_from_id w item.nodeId) item true = some (w3, item3)
      ∧ w3.nodes = w.nodes ∧ item3.sourceId = item.sourceId ∧ item3.id = item.id
      ∧ w3.trace = w.trace ++ es
      ∧ Run w.nodes true item.sourceId U w.items es w3.items
      ∧ (h.acceptReadChange (node_from_id w item.nodeId) item true = true →
          db_find w3 item.id = some (mark true item)) := by
  have hp : pending true item = true := by simp [pending, hunread]
  cases hacc : h.acceptReadChange (node_from_id w item.nodeId) item true with
  | false =>
    exact ⟨emit w (.node_source_item_mark_read (node_from_id w item.nodeId) item true), item,
      [.node_source_item_mark_read (node_from_id w item.nodeId) item true],
      by simp [node_source_item_mark_read, hacc], rfl, rfl, rfl, rfl,
      Run.defer hd hp hres (fun _ => rfl), (fun hc => by cases hc)⟩
  | true =>
    have hf : pend (fun _ => true) true (storePut (mark true item) w.items) < fuel := by
      have h1 := pend_pos_of_find hd hp
      have h2 := pend_le_length (fun _ => true) true w.items
      omega
    obtain ⟨w', es, hbody, hnodes, htrace, hrun, _, _⟩ :=
      item_read_state_changed_body_spec
        (item_set_read_state_spec h true U (fun _ => true) fuel)
        (emit w (.node_source_item_mark_read (node_from_id w item.nodeId) item true)) item
        (fun u => nodup_storePut (hU u)) (fun _ _ _ => rfl) hf
    have hc : Run w.nodes true item.sourceId U w.items
        ([.node_source_item_mark_read (node_from_id w item.nodeId) item true]
          ++ commitEvents w item true ++ es) w'.items :=
      (Run.commit hd hp hres (fun _ => rfl) (node_from_id w item.nodeId)).trans hrun
    refine ⟨w', mark true item, _, ?_, hnodes, rfl, rfl, ?_, hc, fun _ => ?_⟩
    · simp only [node_source_item_mark_read, hacc, if_true]
      exact hbody
    · rw [htrace]; simp [commitEvents]
    · exact find_touched_mark hrun

theorem mark_read_call_run (h : Handler) (fuel : Nat) (w : World) (item : Item)
    (hd : db_find w item.id = some item) (hunread : item.readStatus = false)
    (hres : resolves w.nodes item.nodeId = true) (hfuel : w.items.length ≤ fuel) :
    ∃ w3 item3 es, node_source_item_mark_read h (item_read_state_changed h fuel) w
        (node_from_id w item.nodeId) item true = some (w3, item3)
      ∧ w3.nodes = w.nodes ∧ item3.sourceId = item.sourceId ∧ item3.id = item.id
      ∧ w3.trace = w.trace ++ es
      ∧ Run w.nodes true item.sourceId False w.items es w3.items
      ∧ (h.acceptReadChange (node_from_id w item.nodeId) item true = true →
          db_find w3 item.id = some (mark true item)) :=
  mark_read_call_run_gen False h fuel w item hd hunread hres hfuel (fun u => u.elim)

theorem Bulk.of_run {w w3 : World} {S : String} {es : List Event}
    (hnodes : w3.nodes = w.nodes) (htrace : w3.trace = w.trace ++ es)
    (hrun : Run w.nodes true S False w.items es w3.items) : Bulk w es w3 where
  trace := htrace
  items := forall2_touched_congr (fun _ => rfl) hrun.items
  res := fun n => by rw [hnodes]
  nds := by rw [hnodes]
  ok := fun e he => okEvent_bulk (fun _ => rfl) rfl (hrun.ok e he)

theorem Bulk.read_stays {w w' : World} {es : List Event} (hb : Bulk w es w') {j : Nat}
    {r : Item} (hr : db_find w j = some r) (hread : r.readStatus = true) :
    ∃ r', db_find w' j = some r' ∧ r'.readStatus = true := by
  obtain ⟨r', hr', ht⟩ := (forall2_touched_find hb.items j).1 r hr
  refine ⟨r', hr', ?_⟩
  rcases ht with ht | ⟨ht, _⟩
  · rw [ht]; exact hread
  · rw [ht]; rfl

theorem Bulk.lost_stays {w w' : World} {es : List Event} (hb : Bulk w es w') {j : Nat}
    {r : Item} (hr : db_find w j = some r) (hlost : resolves w.nodes r.nodeId = false) :
    db_find w' j = some r ∧ resolves w'.nodes r.nodeId = false := by
  obtain ⟨r', hr', ht⟩ := (forall2_touched_find hb.items j).1 r hr
  rcases ht with ht | ⟨_, _, hres, _⟩
  · exact ⟨by rw [← ht]; exact hr', by rw [hb.res]; exact hlost⟩
  · rw [hlost] at hres; cases hres

/-- One visit of the `itemset_mark_read` loop, with its calls: loads and unloads are
well bracketed, and the visit either only loads (and unloads) the item, or it
processes an unread item, touching (with unique ids) only rows of that item's
source id and flagging only the item's node and the nodes of its duplicates. -/
theorem itemsetLoop_visit_gen (U : Prop) (h : Handler) (fuel : Nat) (w : World) (id : Nat)
    (hfuel : w.items.length ≤ fuel) (hU : U → (w.items.map (fun r => r.id)).Nodup) :
    ∃ w1 es, itemsetLoop h fuel [id] w = some w1 ∧ Bulk w es w1
      ∧ (∀ q, warnC q es
          = match db_find w id with
            | some item =>
              if (!item.readStatus && !resolves w.nodes item.nodeId && q item.id) = true
              then 1 else 0
            | none => 0)
      ∧ (Sync h → ∀ r, db_find w id = some r → resolves w.nodes r.nodeId = true →
          ∃ r', db_find w1 id = some r' ∧ r'.readStatus = true)
      ∧ (∀ held, balance held es = some held)
      ∧ ((w1.items = w.items
            ∧ (es = [.item_load id false] ∨ es = [.item_load id true, .item_unload id]))
        ∨ (∃ item, db_find w id = some item ∧ item.readStatus = false
            ∧ List.Forall₂ (Touched w.nodes true item.sourceId U) w.items w1.items
            ∧ (U → ∀ e ∈ es, evSrc item.sourceId e)
            ∧ (∀ n, .set_recount_flag n ∈ es →
                n = item.nodeId ∨ n ∈ (db_item_get_duplicate_nodes w item.sourceId).2))) := by
  cases hd : db_find w id with
  | none =>
    refine ⟨_, _, itemsetLoop_single_none hd, Bulk.single w (.item_load id false) trivial,
      fun q => ?_, (fun _ r hr => by cases hr), fun held => ?_, Or.inl ⟨rfl, Or.inl rfl⟩⟩
    · simp [warnC, warnOf, List.countP_cons]
    · rw [balance_single]; rfl
  | some item =>
    have hid : item.id = id := find_id_eq hd
    cases hr : item.readStatus with
    | true =>
      refine ⟨_, _, itemsetLoop_single_read hd hr,
        (Bulk.single w (.item_load id true) trivial).seq
          (Bulk.single (emit w (.item_load id true)) (.item_unload item.id) trivial),
        fun q => ?_, fun _ r hr' _ => ?_, fun held => ?_, Or.inl ⟨rfl, Or.inr ?_⟩⟩
      · simp [warnC, warnOf, List.countP_cons, hr]
      · cases hr'
        exact ⟨item, hd, hr⟩
      · rw [hid]
        exact balance_wrap id balance_nil held
      · rw [hid]; rfl
    | false =>
      cases hn : node_from_id w item.nodeId with
      | none =>
        have hlost : resolves w.nodes item.nodeId = false := by
          show (node_from_id w item.nodeId).isSome = false
          rw [hn]; rfl
        obtain ⟨esf, hbf, hwf, hflf⟩ := Bulk.flag_nodes
          (db_item_get_duplicate_nodes w item.sourceId).2
          (emit (g_warning (emit w (.item_load id true)) item)
            (.db_item_get_duplicate_nodes item.sourceId))
        have hb1 : Bulk w [.item_load id true] (emit w (.item_load id true)) :=
          Bulk.single w _ trivial
        have hb2 : Bulk (emit w (.item_load id true)) [.g_warning item.id item.nodeId]
            (g_warning (emit w (.item_load id true)) item) :=
          Bulk.single _ _ ⟨item, by rw [hid]; exact hd, rfl, hlost, hr⟩
        have hb3 : Bulk (g_warning (emit w (.item_load id true)) item)
            [.db_item_get_duplicate_nodes item.sourceId]
            (emit (g_warning (emit w (.item_load id true)) item)
              (.db_item_get_duplicate_nodes item.sourceId)) :=
          Bulk.single _ _ trivial
        have hb5 := Bulk.single (duplicateNodesLoop (db_item_get_duplicate_nodes w item.sourceId).2
            (emit (g_warning (emit w (.item_load id true)) item)
              (.db_item_get_duplicate_nodes item.sourceId))) (.item_unload item.id) trivial
        have hitems : (item_unload
            (duplicateNodesLoop (db_item_get_duplicate_nodes w item.sourceId).2
              (emit (g_warning (emit w (.item_load id true)) item)
                (.db_item_get_duplicate_nodes item.sourceId))) item).items = w.items :=
          (duplicateNodesLoop_spec _ _).1
        have hmid : ∀ held, balance held
            ([Event.g_warning item.id item.nodeId]
              ++ ([Event.db_item_get_duplicate_nodes item.sourceId] ++ esf)) = some held := by
          intro held
          rw [balance_append, balance_single]
          show balance held ([Event.db_item_get_duplicate_nodes item.sourceId] ++ esf) = _
          rw [balance_append, balance_single]
          exact balance_flags hflf held
        refine ⟨_, _, itemsetLoop_single_lost hd hr hn,
          hb1.seq (hb2.seq (hb3.seq (hbf.seq hb5))), fun q => ?_, fun _ r hr' hres => ?_,
          fun held => ?_, Or.inr ⟨item, rfl, hr, ?_, fun _ e he => ?_, fun n hmem => ?_⟩⟩
        · rw [warnC_append, warnC_append, warnC_append, warnC_append, hwf q]
          by_cases hq : q item.id = true
          · simp [warnC, warnOf, List.countP_cons, hr, hlost, hq]
          · simp [warnC, warnOf, List.countP_cons, hr, hlost, hq]
        · cases hr'
          rw [hlost] at hres; cases hres
        · have := balance_wrap id hmid held
          rw [hid]
          simpa [List.append_assoc] using this
        · rw [hitems]; exact forall2_touched_refl _ _ _ _ _
        · simp only [List.mem_append, List.mem_singleton] at he
          rcases he with he | he | he | he | he
          · subst he; trivial
          · subst he; trivial
          · subst he; trivial
          · obtain ⟨n, _, hen⟩ := hflf e he
            subst hen; trivial
          · subst he; trivial
        · simp only [List.mem_append, List.mem_singleton] at hmem
          rcases hmem with he | he | he | he | he
          · cases he
          · cases he
          · cases he
          · obtain ⟨n', hn', hen⟩ := hflf _ he
            cases hen
            exact Or.inr hn'
          · cases he
      | some node =>
        have hnid : node.id = item.nodeId := node_from_id_id hn
        have hres : resolves w.nodes item.nodeId = true := by
          show (node_from_id w item.nodeId).isSome = true
          rw [hn]; rfl
        have hb1 : Bulk w [.item_load id true] (emit w (.item_load id true)) :=
          Bulk.single w _ trivial
        have hb2 := Bulk.flag_node (emit w (.item_load id true)) node
        have hres2 : resolves (item_state_set_recount_flag (emit w (.item_load id true)) node).1.nodes
            item.nodeId = true := by
          rw [hb2.res]; exact hres
        have hnode2 : node_from_id (item_state_set_recount_flag (emit w (.item_load id true))
              node).1 item.nodeId
            = some (item_state_set_recount_flag (emit w (.item_load id true)) node).2 := by
          rw [node_from_id_set_recount]
          show (node_from_id w item.nodeId).map _ = _
          rw [hn, hnid]
          simp [flagIf, item_state_set_recount_flag]
        obtain ⟨w3, item3, esc, hcall, hnodes3, hsrc3, hid3, htrace3, hrunU, hdone3⟩ :=
          mark_read_call_run_gen U h fuel
            (item_state_set_recount_flag (emit w (.item_load id true)) node).1 item
            (by rw [hid]; exact hd) hr hres2 hfuel hU
        rw [hnode2] at hcall hdone3
        have hrun3 : Run (item_state_set_recount_flag (emit w (.item_load id true)) node).1.nodes
            true item.sourceId False w.items esc w3.items := hrunU.forget
        have hb3 : Bulk (item_state_set_recount_flag (emit w (.item_load id true)) node).1
            esc w3 := Bulk.of_run hnodes3 htrace3 hrun3
        have hb4 : Bulk w3 [.db_item_get_duplicate_nodes item3.sourceId]
            (db_item_get_duplicate_nodes w3 item3.sourceId).1 := Bulk.single _ _ trivial
        obtain ⟨esf, hbf, hwf, hflf⟩ := Bulk.flag_nodes
          (db_item_get_duplicate_nodes w3 item3.sourceId).2
          (db_item_get_duplicate_nodes w3 item3.sourceId).1
        have hb6 := Bulk.single (duplicateNodesLoop (db_item_get_duplicate_nodes w3 item3.sourceId).2
            (db_item_get_duplicate_nodes w3 item3.sourceId).1) (.item_unload item3.id) trivial
        have hitems : (item_unload
            (duplicateNodesLoop (db_item_get_duplicate_nodes w3 item3.sourceId).2
              (db_item_get_duplicate_nodes w3 item3.sourceId).1) item3).items = w3.items :=
          (duplicateNodesLoop_spec _ _).1
        have hdups : (db_item_get_duplicate_nodes w3 item3.sourceId).2
            = (db_item_get_duplicate_nodes w item.sourceId).2 := by
          show (w3.items.filter _).map _ = (w.items.filter _).map _
          rw [hsrc3]
          exact forall2_touched_dup_nodes hrunU.items item.sourceId
        have hmid : ∀ held, balance held
            ([Event.set_recount_flag node.id]
              ++ (esc ++ ([Event.db_item_get_duplicate_nodes item3.sourceId] ++ esf)))
            = some held := by
          intro held
          rw [balance_append, balance_single]
          show balance held (esc ++ ([Event.db_item_get_duplicate_nodes item3.sourceId] ++ esf))
            = _
          rw [balance_append, hrunU.bal held]
          show balance held ([Event.db_item_get_duplicate_nodes item3.sourceId] ++ esf) = _
          rw [balance_append, balance_single]
          exact balance_flags hflf held
        refine ⟨_, _, itemsetLoop_single_call hd hr hn hcall,
          hb1.seq (hb2.seq (hb3.seq (hb4.seq (hbf.seq hb6)))),
          fun q => ?_, fun hs r hr' _ => ?_, fun held => ?_,
          Or.inr ⟨item, rfl, hr, ?_, fun u e he => ?_, fun n hmem => ?_⟩⟩
        · rw [warnC_append, warnC_append, warnC_append, warnC_append, warnC_append, hwf q,
            warnC_run_zero hrun3.ok q]
          simp [warnC, warnOf, List.countP_cons, hr, hres]
        · cases hr'
          have h3 : db_find w3 id = some (mark true item) := by
            rw [← hid]; exact hdone3 (hs _ _ _)
          exact (hb4.seq (hbf.seq hb6)).read_stays h3 rfl
        · have := balance_wrap id hmid held
          rw [hid3, hid]
          simpa [List.append_assoc] using this
        · rw [hitems]
          exact hrunU.items.imp (fun _ _ hab => touched_nodes_congr hb2.res hab)
        · simp only [List.mem_append, List.mem_singleton] at he
          rcases he with he | he | he | he | he | he
          · subst he; trivial
          · subst he; trivial
          · exact hrunU.src u e he
          · subst he; trivial
          · obtain ⟨n, _, hen⟩ := hflf e he
            subst hen; trivial
          · subst he; trivial
        · simp only [List.mem_append, List.mem_singleton] at hmem
          rcases hmem with he | he | he | he | he | he
          · cases he
          · cases he
            exact Or.inl hnid
          · exact (hrunU.ok _ he).elim
          · cases he
          · obtain ⟨n', hn', hen⟩ := hflf _ he
            cases hen
            rw [hdups] at hn'
            exact Or.inr hn'
          · cases he

/-- One visit of the `itemset_mark_read` loop, with its calls. -/
theorem itemsetLoop_visit_run (h : Handler) (fuel : Nat) (w : World) (id : Nat)
    (hfuel : w.items.length ≤ fuel) :
    ∃ w1 es, itemsetLoop h fuel [id] w = some w1 ∧ Bulk w es w1
      ∧ (∀ q, warnC q es
          = match db_find w id with
            | some item =>
              if (!item.readStatus && !resolves w.nodes item.nodeId && q item.id) = true
              then 1 else 0
            | none => 0)
      ∧ (Sync h → ∀ r, db_find w id = some r → resolves w.nodes r.nodeId = true →
          ∃ r', db_find w1 id = some r' ∧ r'.readStatus = true) := by
  obtain ⟨w1, es, h1, h2, h3, h4, _⟩ :=
    itemsetLoop_visit_gen False h fuel w id hfuel (fun u => u.elim)
  exact ⟨w1, es, h1, h2, h3, h4⟩

/-- The whole `itemset_mark_read` loop, with its calls: every lost unread item gets
one diagnostic per occurrence in the item list, and under a synchronous handler
every listed item that loads and whose node resolves ends up read. -/
theorem itemsetLoop_run (h : Handler) (fuel : Nat) :
    ∀ (L : List Nat) (w : World), w.items.length ≤ fuel →
      ∃ w' es, itemsetLoop h fuel L w = some w' ∧ Bulk w es w'
        ∧ (∀ o r, db_find w o = some r → r.readStatus = false →
            resolves w.nodes r.nodeId = false → warnC (fun i => i == o) es = L.count o)
        ∧ (Sync h → ∀ id ∈ L, ∀ r, db_find w id = some r →
            resolves w.nodes r.nodeId = true →
            ∃ r', db_find w' id = some r' ∧ r'.readStatus = true) := by
  intro L
  induction L with
  | nil =>
    intro w _
    exact ⟨w, [], rfl, ⟨by simp, forall2_touched_refl _ _ _ _ _, fun _ => rfl, rfl,
      by intro e he; cases he⟩, fun _ _ _ _ _ => rfl, fun _ id hid => by cases hid⟩
  | cons id L ih =>
    intro w hfuel
    obtain ⟨w1, es1, hvisit, hb1, hwarn1, hread1⟩ := itemsetLoop_visit_run h fuel w id hfuel
    have hlen : w1.items.length = w.items.length := hb1.items.length_eq.symm
    obtain ⟨w', es2, hloop, hb2, hwarn2, hread2⟩ := ih w1 (by rw [hlen]; exact hfuel)
    refine ⟨w', es1 ++ es2, ?_, hb1.seq hb2, ?_, ?_⟩
    · rw [itemsetLoop_cons, hvisit]; exact hloop
    · intro o r hr hunread hlost
      obtain ⟨hr1, hlost1⟩ := hb1.lost_stays hr hlost
      rw [warnC_append, hwarn2 o r hr1 hunread hlost1, hwarn1]
      by_cases hio : id = o
      · subst hio
        have hrid : r.id = id := find_id_eq hr
        rw [hr]
        simp [hunread, hlost, hrid]
        omega
      · rw [List.count_cons_of_ne (fun e => hio e.symm)]
        cases hd : db_find w id with
        | none => simp
        | some item =>
          have hid : item.id = id := find_id_eq hd
          have : (item.id == o) = false := by rw [hid]; simpa using hio
          simp [this]
    · intro hs id' hid' r hr hres
      rcases List.mem_cons.mp hid' with he | hL
      · subst he
        obtain ⟨r1, hr1, hread⟩ := hread1 hs r hr hres
        exact hb2.read_stays hr1 hread
      · obtain ⟨r1, hr1, ht⟩ := (forall2_touched_find hb1.items id').1 r hr
        exact hread2 hs id' hL r1 hr1 (by rw [hb1.res, ht.nodeId_eq]; exact hres)

/-! ## Two runs that differ only in dirty flags and lookups -/

theorem duplicatesLoop_cons_fail {f : World → Item → Bool → Option (World × Item)}
    {it : Item} {s : Bool} {j : Nat} {L : List Nat} {w : World} {d : Item}
    (hd : db_find w j = some d)
    (hc : (d.id != it.id && resolves w.nodes d.nodeId) = true)
    (hf : f (emit w (.item_load j true)) d s = none) :
    duplicatesLoop f it s (j :: L) w = none := by
  have hc2 : (d.id != it.id && (node_from_id (emit w (.item_load j true)) d.nodeId).isSome)
      = true := hc
  simp only [duplicatesLoop, item_load, hd, Option.isSome_some, hc2, if_true, hf]

theorem itemsetLoop_single_fail {h : Handler} {fuel : Nat} {id : Nat} {w : World}
    {item : Item} {node : Node} (hd : db_find w id = some item)
    (hr : item.readStatus = false) (hn : node_from_id w item.nodeId = some node)
    (hc : node_source_item_mark_read h (item_read_state_changed h fuel)
        (item_state_set_recount_flag (emit w (.item_load id true)) node).1
        (some (item_state_set_recount_flag (emit w (.item_load id true)) node).2)
        item true = none) :
    itemsetLoop h fuel [id] w = none := by
  have hn2 : node_from_id (emit w (.item_load id true)) item.nodeId = some node := hn
  simp only [itemsetLoop, item_load, hd, hr, Option.isSome_some, Bool.not_false, if_true, hn2]
  rw [hc]

theorem itemset_mark_read_eq {h : Handler} {fuel : Nat} {w : World} {node : Node}
    (hpos : 0 < node.unreadCount) :
    itemset_mark_read h fuel w node
      = itemsetLoop h fuel node.itemSet (emit w (.node_get_itemset node.id)) := by
  have hne : ¬ node.unreadCount = 0 := by omega
  simp [itemset_mark_read, hne, node_get_itemset]

/-- C16: on a node with `unreadCount > 0` (budget at least the number of stored rows)
`itemset_mark_read` returns; every handler call it makes, directly or through the
duplicate fan-out, has `newState = true`, is made for a row of the store as it was
before the call, and carries the node that `node_from_id` resolves the item's
`nodeId` to (the same node up to its dirty flag, which the path itself sets); and
when the handler commits synchronously, every item of the node's item set that
loads and whose owning `nodeId` resolves is persisted with `readStatus = true`
afterwards. -/
theorem itemset_mark_read_all_read (h : Handler) (fuel : Nat) (w : World) (node : Node)
    (hpos : 0 < node.unreadCount) (hfuel : w.items.length ≤ fuel) :
    ∃ w' es, itemset_mark_read h fuel w node = some w' ∧ w'.trace = w.trace ++ es
      ∧ (∀ nd x b, .node_source_item_mark_read nd x b ∈ es →
          b = true ∧ db_find w x.id = some x
          ∧ ∃ n, nd = some n ∧ n.id = x.nodeId
            ∧ (node_from_id w x.nodeId).map clr = some (clr n))
      ∧ (Sync h → ∀ id ∈ node.itemSet, ∀ r, db_find w id = some r →
          (node_from_id w r.nodeId).isSome = true →
          ∃ r', db_find w' id = some r' ∧ r'.readStatus = true) := by
  obtain ⟨w', es, hloop, hbulk, _, hread⟩ :=
    itemsetLoop_run h fuel node.itemSet (emit w (.node_get_itemset node.id)) hfuel
  have hb0 : Bulk w [.node_get_itemset node.id] (emit w (.node_get_itemset node.id)) :=
    Bulk.single w _ trivial
  have hb := hb0.seq hbulk
  refine ⟨w', [.node_get_itemset node.id] ++ es, ?_, hb.trace, ?_, ?_⟩
  · rw [itemset_mark_read_eq hpos]; exact hloop
  · intro nd x b hx
    obtain ⟨r, hf, _, hb', hxr, _, hn⟩ := hb.ok _ hx
    subst hxr
    exact ⟨hb', hf, hn⟩
  · intro hs id hid r hr hres
    exact hread hs id hid r hr hres

/-- Witness for C16: node `n1` of the two-item scenario. -/
theorem itemset_mark_read_all_read_witness :
    ∃ w' es, itemset_mark_read syncHandler 2 scenarioWorld scenarioN1 = some w'
      ∧ w'.trace = scenarioWorld.trace ++ es
      ∧ (∀ nd x b, .node_source_item_mark_read nd x b ∈ es →
          b = true ∧ db_find scenarioWorld x.id = some x
          ∧ ∃ n, nd = some n ∧ n.id = x.nodeId
            ∧ (node_from_id scenarioWorld x.nodeId).map clr = some (clr n))
      ∧ ∀ id ∈ scenarioN1.itemSet, ∀ r, db_find scenarioWorld id = some r →
          (node_from_id scenarioWorld r.nodeId).isSome = true →
          ∃ r', db_find w' id = some r' ∧ r'.readStatus = true := by
  obtain ⟨w', es, hres, htrace, hcalls, hread⟩ :=
    itemset_mark_read_all_read syncHandler 2 scenarioWorld scenarioN1 (by decide) (by decide)
  exact ⟨w', es, hres, htrace, hcalls, hread (fun _ _ _ => rfl)⟩

/-! ## Loads and unloads -/

theorem balanceStep_counts (q : Nat → Bool) (held held' : List Nat) (e : Event)
    (h : balanceStep held e = some held') :
    (if unlOf q e = true then 1 else 0) + held'.countP q
      = (if loadOf q e = true then 1 else 0) + held.countP q := by
  cases e with
  | item_load id found =>
    cases found with
    | false =>
      have : held' = held := (Option.some.inj h).symm
      subst this
      simp [unlOf, loadOf]
    | true =>
      have : held' = id :: held := (Option.some.inj h).symm
      subst this
      by_cases hq : q id = true
      · simp [unlOf, loadOf, List.countP_cons, hq]; omega
      · simp [unlOf, loadOf, List.countP_cons, hq]
  | item_unload id =>
    cases held with
    | nil => cases h
    | cons top rest =>
      by_cases ht : top = id
      · subst ht
        have : held' = rest := by
          have h2 : (if (top == top) = true then some rest else none) = some held' := h
          simpa using h2.symm
        subst this
        by_cases hq : q top = true
        · simp [unlOf, loadOf, List.countP_cons, hq]; omega
        · simp [unlOf, loadOf, List.countP_cons, hq]
      · have h2 : (if (top == id) = true then some rest else none) = some held' := h
        simp [ht] at h2
  | _ =>
    have : held' = held := (Option.some.inj h).symm
    subst this
    simp [unlOf, loadOf]

/-- A trace that replays from `held` to `held'` releases, for the ids selected by
`q`, as many instances as it loads, up to the difference of the two stacks. -/
theorem balance_counts (q : Nat → Bool) :
    ∀ (es : List Event) (held held' : List Nat), balance held es = some held' →
      unlC q es + held'.countP q = loadC q es + held.countP q := by
  intro es
  induction es with
  | nil =>
    intro held held' h
    have : held' = held := (Option.some.inj h).symm
    subst this
    simp [unlC, loadC]
  | cons e es ih =>
    intro held held' h
    rw [balance_cons] at h
    cases hstep : balanceStep held e with
    | none => rw [hstep] at h; cases h
    | some st =>
      rw [hstep] at h
      have h1 := balanceStep_counts q held st e hstep
      have h2 := ih st held' h
      simp only [unlC, loadC, List.countP_cons] at h2 ⊢
      omega

theorem balanced_counts {es : List Event} (h : ∀ held, balance held es = some held)
    (q : Nat → Bool) : unlC q es = loadC q es := by
  have := balance_counts q es [] [] (h [])
  simpa using this

/-- The whole `itemset_mark_read` loop returns with loads and unloads well bracketed. -/
theorem itemsetLoop_bal (h : Handler) (fuel : Nat) :
    ∀ (L : List Nat) (w : World), w.items.length ≤ fuel →
      ∃ w' es, itemsetLoop h fuel L w = some w' ∧ w'.trace = w.trace ++ es
        ∧ ∀ held, balance held es = some held := by
  intro L
  induction L with
  | nil => intro w _; exact ⟨w, [], rfl, by simp, fun _ => rfl⟩
  | cons id L ih =>
    intro w hfuel
    obtain ⟨w1, es1, hvisit, hb1, _, _, hbal1, _⟩ :=
      itemsetLoop_visit_gen False h fuel w id hfuel (fun u => u.elim)
    have hlen : w1.items.length = w.items.length := hb1.items.length_eq.symm
    obtain ⟨w', es2, hloop, htrace2, hbal2⟩ := ih w1 (by rw [hlen]; exact hfuel)
    refine ⟨w', es1 ++ es2, ?_, ?_, fun held => balance_seq (hbal1 held) (hbal2 held)⟩
    · rw [itemsetLoop_cons, hvisit]; exact hloop
    · rw [htrace2, hb1.trace, List.append_assoc]

/-! ## Propagation to duplicates for either target state -/

theorem not_pending_state {s : Bool} {r : Item} (h : pending s r = false) :
    r.readStatus = s ∧ r.updateStatus = false := by
  have hg := guard_of_not_pending h
  simp only [Bool.and_eq_true, beq_iff_eq, Bool.not_eq_true'] at hg
  exact ⟨hg.1.symm, hg.2⟩

/-- C23: for either target state `newState`, with a handler that commits every
change synchronously and an item with `validGuid = true` whose request passes the
guard of the entry point (its `readStatus` differs from `newState`, or its updated
marker is set), `item_set_read_state` returns (budget at least the number of stored
rows plus two), its finalizer runs (the item is written to the store with
`readStatus = newState` and `updateStatus = false`), and afterwards every stored
item with another id, the same `sourceId` and a resolving owning node is persisted
with `readStatus = newState` and `updateStatus = false`. -/
theorem item_set_read_state_symmetric (h : Handler) (hs : Sync h) (w : World) (item : Item)
    (newState : Bool) (fuel : Nat) (hv : item.validGuid = true)
    (hp : item.readStatus ≠ newState ∨ item.updateStatus = true)
    (hfuel : w.items.length + 2 ≤ fuel) :
    ∃ w' item' es, item_set_read_state h fuel w item newState = some (w', item')
      ∧ w'.trace = w.trace ++ es
      ∧ .db_item_state_update { item with readStatus := newState, updateStatus := false } ∈ es
      ∧ ∀ j r, db_find w j = some r → j ≠ item.id → r.sourceId = item.sourceId →
          (node_from_id w r.nodeId).isSome = true →
          ∃ r', db_find w' j = some r' ∧ r'.readStatus = newState
            ∧ r'.updateStatus = false := by
  obtain ⟨n, rfl⟩ : ∃ n, fuel = n + 1 := ⟨fuel - 1, by omega⟩
  obtain ⟨w', A', es, hres, _, htrace, hcase⟩ :=
    item_set_read_state_top h newState False w item n (fun u => u.elim) (by omega)
  have hpend : pending newState item = true := by
    unfold pending
    rcases hp with hp | hp
    · cases hn : newState <;> cases hr : item.readStatus <;> simp_all
    · simp [hp]
  rcases hcase with ⟨hp', _⟩ | ⟨_, hacc', _⟩ | ⟨_, _, _, es', hes, _, _, hdone⟩
  · rw [hpend] at hp'; cases hp'
  · rw [hs] at hacc'; cases hacc'
  · refine ⟨w', A', es, hres, htrace, ?_, ?_⟩
    · rw [hes]
      simp [commitEvents, mark]
    · intro j r hr hne hsrc hnode
      obtain ⟨r', hr', hnp⟩ := hdone hs hv j r hne hr hsrc hnode
      exact ⟨r', hr', not_pending_state hnp⟩

/-- Witness for C23 with `newState = false`: A and its duplicate B are both read, and
A is marked unread again. -/
theorem item_set_read_state_symmetric_witness :
    ∃ w' item' es, item_set_read_state syncHandler 4 readWorld readA false = some (w', item')
      ∧ w'.trace = readWorld.trace ++ es
      ∧ .db_item_state_update { readA with readStatus := false, updateStatus := false } ∈ es
      ∧ ∀ j r, db_find readWorld j = some r → j ≠ readA.id → r.sourceId = readA.sourceId →
          (node_from_id readWorld r.nodeId).isSome = true →
          ∃ r', db_find w' j = some r' ∧ r'.readStatus = false ∧ r'.updateStatus = false :=
  item_set_read_state_symmetric syncHandler (fun _ _ _ => rfl) readWorld readA false 4 rfl
    (Or.inl (by decide)) (by decide)

/-! ## The bulk path and an updated item that is already read -/

theorem forall2_mem_right {R : Item → Item → Prop} {l l' : List Item}
    (h : List.Forall₂ R l l') : ∀ b ∈ l', ∃ a ∈ l, R a b := by
  induction h with
  | nil => intro b hb; cases hb
  | @cons a b as bs hab _ ih =>
    intro b' hb'
    rcases List.mem_cons.mp hb' with hb' | hb'
    · subst hb'; exact ⟨a, List.mem_cons_self _ _, hab⟩
    · obtain ⟨a', ha', hr⟩ := ih b' hb'
      exact ⟨a', List.mem_cons_of_mem _ ha', hr⟩

/-- One visit of the `itemset_mark_read` loop in a store with unique ids, seen from a
stored item `X` that is already read and shares its source id with no unread
item: the row of `X` is kept and nothing is called for it; unread rows after the
visit were unread rows before it; and every dirty flag written is that of the node
of a row sharing its source id with an unread row. -/
theorem itemsetLoop_visit_keeps (h : Handler) (fuel : Nat) (x : Nat) (X : Item)
    (w : World) (id : Nat) (hfuel : w.items.length ≤ fuel)
    (hnd : (w.items.map (fun r => r.id)).Nodup) (hX : db_find w x = some X)
    (hsrc : ∀ r ∈ w.items, r.readStatus = false → r.sourceId ≠ X.sourceId) :
    ∃ w1 es, itemsetLoop h fuel [id] w = some w1 ∧ w1.trace = w.trace ++ es
      ∧ w1.items.length = w.items.length
      ∧ (w1.items.map (fun r => r.id)).Nodup
      ∧ db_find w1 x = some X
      ∧ (∀ r' ∈ w1.items, r'.readStatus = false → r' ∈ w.items)
      ∧ (∀ r' ∈ w1.items, ∃ r ∈ w.items, r.sourceId = r'.sourceId ∧ r.nodeId = r'.nodeId)
      ∧ hdlC (fun i => i == x) es = 0 ∧ updC (fun i => i == x) es = 0
      ∧ (∀ n, .set_recount_flag n ∈ es → ∃ y ∈ w.items, y.readStatus = false
          ∧ ∃ r ∈ w.items, r.sourceId = y.sourceId ∧ r.nodeId = n) := by
  obtain ⟨w1, es, hvisit, hb, _, _, _, hshape⟩ :=
    itemsetLoop_visit_gen True h fuel w id hfuel (fun _ => hnd)
  refine ⟨w1, es, hvisit, hb.trace, ?_⟩
  rcases hshape with ⟨hitems, hes⟩ | ⟨item, hd, hunread, hT, hsrcE, hflags⟩
  · have hfind : db_find w1 x = some X := by
      show w1.items.find? _ = _
      rw [hitems]; exact hX
    refine ⟨by rw [hitems], by rw [hitems]; exact hnd, hfind,
      (fun r' hr' _ => by rw [← hitems]; exact hr'),
      (fun r' hr' => ⟨r', by rw [← hitems]; exact hr', rfl, rfl⟩), ?_, ?_, ?_⟩
    · rcases hes with hes | hes <;> subst hes <;> simp [hdlC, hdlOf, List.countP_cons]
    · rcases hes with hes | hes <;> subst hes <;> simp [updC, updOf, List.countP_cons]
    · intro n hn
      rcases hes with hes | hes <;> subst hes <;> simp at hn
  · have hmem : item ∈ w.items := List.mem_of_find?_eq_some hd
    have hne : item.sourceId ≠ X.sourceId := hsrc item hmem hunread
    have hkeep : ∀ r r', Touched w.nodes true item.sourceId True r r' →
        r.sourceId = X.sourceId → r' = r := by
      intro r r' ht hr
      rcases ht with ht | ⟨_, _, _, hu⟩
      · exact ht
      · exact absurd ((hu trivial).symm.trans hr) hne
    have hfind : db_find w1 x = some X := by
      obtain ⟨r', hr', ht⟩ := (forall2_touched_find hT x).1 X hX
      show w1.items.find? _ = _
      rw [hr', hkeep X r' ht rfl]
    have hcalls : ∀ e ∈ es, ∀ x', (∃ nd b, e = .node_source_item_mark_read nd x' b)
        ∨ e = .db_item_state_update x' → x'.id ≠ x := by
      intro e he x' hx' hid
      rcases hx' with ⟨nd, b, hx'⟩ | hx'
      · subst hx'
        have h1 : x'.sourceId = item.sourceId := hsrcE trivial _ he
        obtain ⟨r, hf, _, _, hxr, _⟩ := hb.ok _ he
        rw [hid] at hf
        have : some r = some X := hf.symm.trans hX
        cases this
        rw [hxr] at h1
        exact hne h1.symm
      · subst hx'
        have h1 : x'.sourceId = item.sourceId := hsrcE trivial _ he
        obtain ⟨r, hf, _, hxr, _⟩ := hb.ok _ he
        rw [hid] at hf
        have : some r = some X := hf.symm.trans hX
        cases this
        rw [hxr] at h1
        exact hne h1.symm
    refine ⟨hT.length_eq.symm, by rw [forall2_touched_ids hT]; exact hnd, hfind, ?_, ?_, ?_, ?_,
      ?_⟩
    · intro r' hr' hun
      obtain ⟨r, hr, ht⟩ := forall2_mem_right hT r' hr'
      rcases ht with ht | ⟨ht, _⟩
      · rw [ht]; exact hr
      · rw [ht] at hun; cases hun
    · intro r' hr'
      obtain ⟨r, hr, ht⟩ := forall2_mem_right hT r' hr'
      exact ⟨r, hr, ht.sourceId_eq.symm, ht.nodeId_eq.symm⟩
    · unfold hdlC
      rw [List.countP_eq_zero]
      intro e he hq
      cases e with
      | node_source_item_mark_read nd x' b =>
        have hx : x'.id = x := by simpa [hdlOf] using hq
        exact hcalls _ he x' (Or.inl ⟨nd, b, rfl⟩) hx
      | _ => simp [hdlOf] at hq
    · unfold updC
      rw [List.countP_eq_zero]
      intro e he hq
      cases e with
      | db_item_state_update x' =>
        have hx : x'.id = x := by simpa [updOf] using hq
        exact hcalls _ he x' (Or.inr rfl) hx
      | _ => simp [updOf] at hq
    · intro n hn
      rcases hflags n hn with hn | hn
      · exact ⟨item, hmem, hunread, item, hmem, rfl, hn.symm⟩
      · obtain ⟨r, hr, hrn⟩ := List.mem_map.mp hn
        obtain ⟨hr1, hr2⟩ := List.mem_filter.mp hr
        exact ⟨item, hmem, hunread, r, hr1, by simpa using hr2, hrn⟩

/-- The whole `itemset_mark_read` loop, seen from such an item `X`. -/
theorem itemsetLoop_keeps (h : Handler) (fuel : Nat) (x : Nat) (X : Item) :
    ∀ (L : List Nat) (w : World), w.items.length ≤ fuel →
      (w.items.map (fun r => r.id)).Nodup → db_find w x = some X →
      (∀ r ∈ w.items, r.readStatus = false → r.sourceId ≠ X.sourceId) →
      ∃ w' es, itemsetLoop h fuel L w = some w' ∧ w'.trace = w.trace ++ es
        ∧ db_find w' x = some X
        ∧ hdlC (fun i => i == x) es = 0 ∧ updC (fun i => i == x) es = 0
        ∧ (∀ n, .set_recount_flag n ∈ es → ∃ y ∈ w.items, y.readStatus = false
            ∧ ∃ r ∈ w.items, r.sourceId = y.sourceId ∧ r.nodeId = n) := by
  intro L
  induction L with
  | nil =>
    intro w _ _ hX _
    exact ⟨w, [], rfl, by simp, hX, rfl, rfl, by intro n hn; cases hn⟩
  | cons id L ih =>
    intro w hfuel hnd hX hsrc
    obtain ⟨w1, es1, hvisit, htrace1, hlen1, hnd1, hX1, hun1, hrow1, hh1, hu1, hf1⟩ :=
      itemsetLoop_visit_keeps h fuel x X w id hfuel hnd hX hsrc
    obtain ⟨w', es2, hloop, htrace2, hX2, hh2, hu2, hf2⟩ :=
      ih w1 (by rw [hlen1]; exact hfuel) hnd1 hX1
        (fun r hr hun => hsrc r (hun1 r hr hun) hun)
    refine ⟨w', es1 ++ es2, ?_, ?_, hX2, ?_, ?_, ?_⟩
    · rw [itemsetLoop_cons, hvisit]; exact hloop
    · rw [htrace2, htrace1, List.append_assoc]
    · rw [hdlC_append, hh1, hh2]
    · rw [updC_append, hu1, hu2]
    · intro n hn
      rcases List.mem_append.mp hn with hn | hn
      · exact hf1 n hn
      · obtain ⟨y, hy, hyun, r, hr, hrs, hrn⟩ := hf2 n hn
        obtain ⟨r0, hr0, hs0, hn0⟩ := hrow1 r hr
        exact ⟨y, hun1 y hy hyun, hyun, r0, hr0, hs0.trans hrs, hn0.trans hrn⟩

/-- C24: `itemset_mark_read` tests only `readStatus`.  In a store with unique ids,
let `X` be a stored item that has its updated marker set and shares its `sourceId`
with no unread stored item (so `X` itself is already read).  Then `itemset_mark_read` on any
node (whether or not its item set lists `X`; budget at least the number of stored
rows) returns with the stored row of `X` exactly as before (so `updateStatus` is
still true), makes no handler call and no store write for `X`, and every dirty
flag it writes is that of the owning node of some stored item sharing its
`sourceId` with an unread item (the unread item itself or one of its duplicates),
which `X` is not.  A request `item_set_read_state X true`, by contrast, passes the
guard and is handed to the handler, and when the handler commits it `X` is
persisted with `updateStatus = false`. -/
theorem itemset_mark_read_keeps_updated (h : Handler) (fuel : Nat) (w : World) (node : Node)
    (x : Nat) (X : Item) (hfuel : w.items.length ≤ fuel)
    (hnd : (w.items.map (fun r => r.id)).Nodup) (hX : db_find w x = some X)
    (hupd : X.updateStatus = true)
    (hsrc : ∀ r ∈ w.items, r.readStatus = false → r.sourceId ≠ X.sourceId) :
    (∃ w' es, itemset_mark_read h fuel w node = some w' ∧ w'.trace = w.trace ++ es
      ∧ db_find w' x = some X ∧ X.readStatus = true
      ∧ hdlC (fun i => i == x) es = 0 ∧ updC (fun i => i == x) es = 0
      ∧ (∀ n, .set_recount_flag n ∈ es → ∃ y ∈ w.items, y.readStatus = false
          ∧ ∃ r ∈ w.items, r.sourceId = y.sourceId ∧ r.nodeId = n))
    ∧ (∃ w2 X2 es2, item_set_read_state h (fuel + 2) w X true = some (w2, X2)
      ∧ w2.trace = w.trace ++ es2
      ∧ hdlC (fun i => i == x) es2 = 1
      ∧ (h.acceptReadChange (node_from_id w X.nodeId) X true = true →
          X2.updateStatus = false
          ∧ ∃ r, db_find w2 x = some r ∧ r.readStatus = true ∧ r.updateStatus = false)) := by
  have hxid : X.id = x := find_id_eq hX
  constructor
  · have hall : X.readStatus = true := by
      cases hrs : X.readStatus with
      | true => rfl
      | false => exact absurd rfl (hsrc X (List.mem_of_find?_eq_some hX) hrs)
    by_cases hz : node.unreadCount = 0
    · exact ⟨w, [], by simp [itemset_mark_read, hz], by simp, hX, hall, rfl, rfl,
        (fun n hn => by cases hn)⟩
    · obtain ⟨w', es, hloop, htrace, hX', hh, hu, hf⟩ :=
        itemsetLoop_keeps h fuel x X node.itemSet (emit w (.node_get_itemset node.id))
          hfuel hnd hX hsrc
      refine ⟨w', [.node_get_itemset node.id] ++ es, ?_, ?_, hX', hall, ?_, ?_, ?_⟩
      · rw [itemset_mark_read_eq (by omega)]; exact hloop
      · rw [htrace]
        show (w.trace ++ [Event.node_get_itemset node.id]) ++ es = _
        rw [List.append_assoc]
      · rw [hdlC_append, hh]; simp [hdlC, hdlOf, List.countP_cons]
      · rw [updC_append, hu]; simp [updC, updOf, List.countP_cons]
      · intro n hn
        rcases List.mem_append.mp hn with hn | hn
        · simp at hn
        · exact hf n hn
  · obtain ⟨w2, X2, es2, hres, _, htrace, hcase⟩ :=
      item_set_read_state_top h true True w X (fuel + 1) (fun _ => hnd) (by omega)
    have hpend : pending true X = true := by simp [pending, hupd]
    have hown : (X.id == x) = true := by simp [hxid]
    refine ⟨w2, X2, es2, hres, htrace, ?_, ?_⟩
    · rcases hcase with ⟨hp', _⟩ | ⟨_, _, _, _, hes⟩ | ⟨_, _, _, es', hes, hrun, _, _⟩
      · rw [hpend] at hp'; cases hp'
      · rw [hes]; simp [hdlC, hdlOf, List.countP_cons, hown]
      · have hzero : hdlC (fun i => i == x) es' = 0 := by
          unfold hdlC
          rw [List.countP_eq_zero]
          intro e he hq
          cases e with
          | node_source_item_mark_read nd x' b =>
            have hx : x'.id = x := by simpa [hdlOf] using hq
            obtain ⟨r, hf, _, _, _, _, hp, _⟩ := hrun.ok _ he
            rw [hx, ← hxid, find_storePut_mark] at hf
            cases hf
            rw [pending_mark] at hp
            cases hp
          | _ => simp [hdlOf] at hq
        rw [hes, hdlC_append, hdlC_append, hzero]
        simp [hdlC, hdlOf, List.countP_cons, hown, commitEvents]
    · intro hacc
      rcases hcase with ⟨hp', _⟩ | ⟨_, hacc', _⟩ | ⟨_, _, hA, es', _, hrun, _, _⟩
      · rw [hpend] at hp'; cases hp'
      · rw [hacc] at hacc'; cases hacc'
      · refine ⟨by rw [hA]; rfl, mark true X, ?_, rfl, rfl⟩
        rw [← hxid]
        exact find_touched_mark hrun

/-- Witness for C24: node `n1` lists the updated item X and the unread item A; the
bulk path marks A and its duplicate B read and leaves X alone, while a direct
request for X clears its updated marker. -/
theorem itemset_mark_read_keeps_updated_witness :
    (∃ w' es, itemset_mark_read syncHandler 3 updatedWorld scenarioN4 = some w'
      ∧ w'.trace = updatedWorld.trace ++ es
      ∧ db_find w' 4 = some updatedX ∧ updatedX.readStatus = true
      ∧ hdlC (fun i => i == 4) es = 0 ∧ updC (fun i => i == 4) es = 0
      ∧ (∀ n, .set_recount_flag n ∈ es → ∃ y ∈ updatedWorld.items, y.readStatus = false
          ∧ ∃ r ∈ updatedWorld.items, r.sourceId = y.sourceId ∧ r.nodeId = n))
    ∧ (∃ w2 X2 es2, item_set_read_state syncHandler (3 + 2) updatedWorld updatedX true
          = some (w2, X2)
      ∧ w2.trace = updatedWorld.trace ++ es2
      ∧ hdlC (fun i => i == 4) es2 = 1
      ∧ (syncHandler.acceptReadChange (node_from_id updatedWorld updatedX.nodeId) updatedX true
          = true →
          X2.updateStatus = false
          ∧ ∃ r, db_find w2 4 = some r ∧ r.readStatus = true ∧ r.updateStatus = false)) :=
  itemset_mark_read_keeps_updated syncHandler 3 updatedWorld scenarioN4 4 updatedX
    (by decide) (by decide) (by decide) rfl (by decide)

/-! ## The bulk path and an item without GUID -/

theorem itemsetLoop_append (h : Handler) (fuel : Nat) :
    ∀ (L1 L2 : List Nat) (w : World),
      itemsetLoop h fuel (L1 ++ L2) w
        = (itemsetLoop h fuel L1 w).bind (itemsetLoop h fuel L2) := by
  intro L1
  induction L1 with
  | nil => intro L2 w; rfl
  | cons id L1 ih =>
    intro L2 w
    rw [List.cons_append, itemsetLoop_cons, itemsetLoop_cons h fuel id L1]
    cases itemsetLoop h fuel [id] w with
    | none => rfl
    | some w1 => exact ih L2 w1

/-- The handler call of `itemset_mark_read` for an item with `validGuid = false`: the
handler call itself and, when it commits, the five steps of the finalizer for this
item; no lookup, no load, nothing for another item. -/
theorem mark_read_call_invalid_guid (h : Handler) (fuel : Nat) (w : World)
    (node : Option Node) (item : Item) (hv : item.validGuid = false) :
    ∃ w4 item4 ec, node_source_item_mark_read h (item_read_state_changed h fuel) w node
        item true = some (w4, item4)
      ∧ w4.trace = w.trace ++ ec ∧ item4.sourceId = item.sourceId ∧ item4.id = item.id
      ∧ (∀ j, j ≠ item.id → db_find w4 j = db_find w j)
      ∧ (∀ e ∈ ec, e = .node_source_item_mark_read node item true
          ∨ e = .db_item_state_update (mark true item) ∨ e = .vfolder_check_item (mark true item)
          ∨ e = .itemlist_update_item (mark true item)
          ∨ e = .node_update_counters (node_from_id w item.nodeId)
          ∨ e = .feedlist_reset_new_item_count) := by
  cases hacc : h.acceptReadChange node item true with
  | false =>
    refine ⟨emit w (.node_source_item_mark_read node item true), item,
      [.node_source_item_mark_read node item true], ?_, rfl, rfl, rfl, fun _ _ => rfl, ?_⟩
    · simp [node_source_item_mark_read, hacc]
    · intro e he
      rw [List.mem_singleton] at he
      exact Or.inl he
  | true =>
    refine ⟨committed (emit w (.node_source_item_mark_read node item true)) item true,
      mark true item,
      [.node_source_item_mark_read node item true]
        ++ commitEvents (emit w (.node_source_item_mark_read node item true)) item true,
      ?_, ?_, rfl, rfl, fun j hj => ?_, ?_⟩
    · simp only [node_source_item_mark_read, hacc, if_true, item_read_state_changed,
        item_read_state_changed_body_eq, hv]
      rfl
    · rw [committed_trace]
      show (w.trace ++ [_]) ++ _ = _
      rw [List.append_assoc]
    · show (storePut (mark true item) w.items).find? _ = _
      rw [find_storePut]
      have hne : ¬ item.id = j := fun e => hj e.symm
      simp [hne, db_find]
    · intro e he
      simp only [commitEvents, List.mem_append, List.mem_singleton, List.mem_cons,
        List.not_mem_nil, or_false] at he
      rcases he with he | he | he | he | he | he
      · exact Or.inl he
      · exact Or.inr (Or.inl he)
      · exact Or.inr (Or.inr (Or.inl he))
      · exact Or.inr (Or.inr (Or.inr (Or.inl he)))
      · exact Or.inr (Or.inr (Or.inr (Or.inr (Or.inl he))))
      · exact Or.inr (Or.inr (Or.inr (Or.inr (Or.inr he))))

/-- One visit of the `itemset_mark_read` loop to an unread item with
`validGuid = false`. -/
theorem itemsetLoop_visit_invalid_guid (h : Handler) (fuel : Nat) (w : World) (id : Nat)
    (item : Item) (hfuel : w.items.length ≤ fuel) (hd : db_find w id = some item)
    (hunread : item.readStatus = false) (hv : item.validGuid = false) :
    ∃ w1 es, itemsetLoop h fuel [id] w = some w1 ∧ w1.trace = w.trace ++ es
      ∧ (∀ e ∈ es, soloEvent item e)
      ∧ (∀ j, j ≠ id → db_find w1 j = db_find w j)
      ∧ .db_item_get_duplicate_nodes item.sourceId ∈ es
      ∧ (∀ n ∈ (db_item_get_duplicate_nodes w item.sourceId).2, ∀ nd,
          node_from_id w n = some nd →
          node_from_id w1 n = some { nd with needsRecount := true }) := by
  have hid : item.id = id := find_id_eq hd
  obtain ⟨w0, hw0, _, hflag⟩ := itemsetLoop_visit h fuel w id hfuel
  have hflags : ∀ n ∈ (db_item_get_duplicate_nodes w item.sourceId).2, ∀ nd,
      node_from_id w n = some nd →
      node_from_id w0 n = some { nd with needsRecount := true } := by
    intro n hn nd hnd
    have hvt : visitTargets w id
        = item.nodeId :: (db_item_get_duplicate_nodes w item.sourceId).2 := by
      simp [visitTargets, hd, hunread]
    have hmem : n ∈ visitTargets w id := by
      rw [hvt]; exact List.mem_cons_of_mem _ hn
    rw [hflag n, hnd]
    simp [hmem, flagIf]
  cases hn : node_from_id w item.nodeId with
  | none =>
    obtain ⟨esf, hbf, _, hflf⟩ := Bulk.flag_nodes
      (db_item_get_duplicate_nodes w item.sourceId).2
      (emit (g_warning (emit w (.item_load id true)) item)
        (.db_item_get_duplicate_nodes item.sourceId))
    have heq : itemsetLoop h fuel [id] w = _ := itemsetLoop_single_lost hd hunread hn
    have hw : w0 = _ := Option.some.inj (hw0.symm.trans heq)
    refine ⟨w0, [.item_load id true, .g_warning item.id item.nodeId,
        .db_item_get_duplicate_nodes item.sourceId] ++ esf ++ [.item_unload item.id],
      hw0, ?_, ?_, ?_, by simp, hflags⟩
    · rw [hw]
      show (duplicateNodesLoop _ _).trace ++ [_] = _
      rw [hbf.trace]
      simp [g_warning, emit, List.append_assoc]
    · intro e he
      rcases List.mem_append.mp he with he | he
      · rcases List.mem_append.mp he with he | he
        · simp only [List.mem_cons, List.mem_singleton, List.not_mem_nil, or_false] at he
          rcases he with rfl | rfl | rfl
          · exact hid.symm
          · trivial
          · rfl
        · obtain ⟨n, _, hen⟩ := hflf e he
          subst hen; trivial
      · rw [List.mem_singleton] at he
        subst he; rfl
    · intro j _
      rw [hw]
      show (duplicateNodesLoop _ _).items.find? _ = _
      rw [(duplicateNodesLoop_spec _ _).1]
      rfl
  | some node =>
    obtain ⟨w4, item4, ec, hcall, htrace4, hsrc4, hid4, hrows4, hec⟩ :=
      mark_read_call_invalid_guid h fuel
        (item_state_set_recount_flag (emit w (.item_load id true)) node).1
        (some (item_state_set_recount_flag (emit w (.item_load id true)) node).2) item hv
    obtain ⟨esf, hbf, _, hflf⟩ := Bulk.flag_nodes
      (db_item_get_duplicate_nodes w4 item4.sourceId).2
      (db_item_get_duplicate_nodes w4 item4.sourceId).1
    have heq : itemsetLoop h fuel [id] w = _ := itemsetLoop_single_call hd hunread hn hcall
    have hw : w0 = _ := Option.some.inj (hw0.symm.trans heq)
    refine ⟨w0, [.item_load id true, .set_recount_flag node.id] ++ ec
        ++ [.db_item_get_duplicate_nodes item.sourceId] ++ esf ++ [.item_unload item.id],
      hw0, ?_, ?_, ?_, by simp, hflags⟩
    · rw [hw]
      show (duplicateNodesLoop _ _).trace ++ [_] = _
      rw [hbf.trace]
      show (w4.trace ++ [_]) ++ esf ++ [_] = _
      rw [htrace4, hsrc4, hid4]
      simp [item_state_set_recount_flag, emit, List.append_assoc]
    · intro e he
      rcases List.mem_append.mp he with he | he
      · rcases List.mem_append.mp he with he | he
        · rcases List.mem_append.mp he with he | he
          · rcases List.mem_append.mp he with he | he
            · simp only [List.mem_cons, List.mem_singleton, List.not_mem_nil, or_false] at he
              rcases he with rfl | rfl
              · exact hid.symm
              · trivial
            · rcases hec _ he with rfl | rfl | rfl | rfl | rfl | rfl
              · rfl
              · rfl
              all_goals trivial
          · rw [List.mem_singleton] at he
            subst he; rfl
        · obtain ⟨n, _, hen⟩ := hflf e he
          subst hen; trivial
      · rw [List.mem_singleton] at he
        subst he; rfl
    · intro j hj
      rw [hw]
      show (duplicateNodesLoop _ _).items.find? _ = _
      rw [(duplicateNodesLoop_spec _ _).1]
      exact hrows4 j (by rw [hid]; exact hj)

/-- C20 (amended): when the loop of `itemset_mark_read` (node with `unreadCount > 0`,
budget at least the number of stored rows) reaches an id of the item set whose
item is unread and has `validGuid = false`, the visit makes no duplicate-item
lookup and loads no other item, its only handler call and store write are for this
item, and every stored row with another id is as before: there is no read-state
propagation.  The duplicate-node lookup for its `sourceId` is made all the same,
and every node it returns that resolves is marked `needsRecount` after the visit.
Here `wa` is the world in which the loop reaches the id, `wb` the world after the
visit and `es` the calls of the visit. -/
theorem itemset_mark_read_invalid_guid (h : Handler) (fuel : Nat) (w : World) (node : Node)
    (L1 : List Nat) (id : Nat) (L2 : List Nat) (hpos : 0 < node.unreadCount)
    (hset : node.itemSet = L1 ++ id :: L2) (hfuel : w.items.length ≤ fuel) :
    ∃ wa wb w' es,
      itemsetLoop h fuel L1 (emit w (.node_get_itemset node.id)) = some wa
      ∧ itemsetLoop h fuel [id] wa = some wb ∧ wb.trace = wa.trace ++ es
      ∧ itemsetLoop h fuel L2 wb = some w'
      ∧ itemset_mark_read h fuel w node = some w'
      ∧ ∀ item, db_find wa id = some item → item.readStatus = false →
          item.validGuid = false →
          (∀ sid, .db_item_get_duplicates sid ∉ es)
          ∧ (∀ j b, .item_load j b ∈ es → j = id)
          ∧ (∀ x, .db_item_state_update x ∈ es → x.id = id)
          ∧ (∀ nd x b, .node_source_item_mark_read nd x b ∈ es → x = item)
          ∧ (∀ j, j ≠ id → db_find wb j = db_find wa j)
          ∧ .db_item_get_duplicate_nodes item.sourceId ∈ es
          ∧ (∀ n ∈ (db_item_get_duplicate_nodes wa item.sourceId).2, ∀ nd,
              node_from_id wa n = some nd →
              node_from_id wb n = some { nd with needsRecount := true }) := by
  obtain ⟨wa, esa, hla, hba, _, _⟩ :=
    itemsetLoop_run h fuel L1 (emit w (.node_get_itemset node.id)) hfuel
  have hlena : wa.items.length ≤ fuel := by
    rw [← hba.items.length_eq]; exact hfuel
  obtain ⟨wb, es, hvisit, hbv, _, _⟩ := itemsetLoop_visit_run h fuel wa id hlena
  have hlenb : wb.items.length ≤ fuel := by
    rw [← hbv.items.length_eq]; exact hlena
  obtain ⟨w', esb, hlb, _, _, _⟩ := itemsetLoop_run h fuel L2 wb hlenb
  refine ⟨wa, wb, w', es, hla, hvisit, hbv.trace, hlb, ?_, ?_⟩
  · rw [itemset_mark_read_eq hpos, hset, itemsetLoop_append, hla]
    show itemsetLoop h fuel (id :: L2) wa = _
    rw [itemsetLoop_cons, hvisit]
    exact hlb
  · intro item hd hunread hv
    obtain ⟨w1, es1, hv1, htr1, hall, hrows, hlook, hflags⟩ :=
      itemsetLoop_visit_invalid_guid h fuel wa id item hlena hd hunread hv
    have hid : item.id = id := find_id_eq hd
    have hw1 : w1 = wb := Option.some.inj (hv1.symm.trans hvisit)
    subst hw1
    have hes : es1 = es := List.append_cancel_left (htr1.symm.trans hbv.trace)
    subst hes
    refine ⟨fun sid hmem => hall _ hmem, fun j b hmem => ?_, fun x hmem => ?_,
      fun nd x b hmem => hall _ hmem, hrows, hlook, hflags⟩
    · have : j = item.id := hall _ hmem
      rw [this, hid]
    · have : x = mark true item := hall _ hmem
      rw [this]; exact hid

/-- Witness for C20 (amended): node `n1` of `looseWorld`, whose only item, `looseA`, has
no GUID; the loop reaches it in the world right after the item-set query. -/
theorem itemset_mark_read_invalid_guid_witness :
    ∃ wb w' es,
      itemsetLoop syncHandler 2 [1] (emit looseWorld (.node_get_itemset scenarioN1.id))
        = some wb
      ∧ wb.trace = (emit looseWorld (.node_get_itemset scenarioN1.id)).trace ++ es
      ∧ itemset_mark_read syncHandler 2 looseWorld scenarioN1 = some w'
      ∧ db_find (emit looseWorld (.node_get_itemset scenarioN1.id)) 1 = some looseA
      ∧ looseA.readStatus = false ∧ looseA.validGuid = false
      ∧ (∀ sid, .db_item_get_duplicates sid ∉ es)
      ∧ (∀ j b, .item_load j b ∈ es → j = 1)
      ∧ (∀ x, .db_item_state_update x ∈ es → x.id = 1)
      ∧ (∀ nd x b, .node_source_item_mark_read nd x b ∈ es → x = looseA)
      ∧ (∀ j, j ≠ 1 →
          db_find wb j = db_find (emit looseWorld (.node_get_itemset scenarioN1.id)) j)
      ∧ .db_item_get_duplicate_nodes looseA.sourceId ∈ es
      ∧ (∀ n ∈ (db_item_get_duplicate_nodes
              (emit looseWorld (.node_get_itemset scenarioN1.id)) looseA.sourceId).2,
          ∀ nd, node_from_id (emit looseWorld (.node_get_itemset scenarioN1.id)) n = some nd →
            node_from_id wb n = some { nd with needsRecount := true }) := by
  obtain ⟨wa, wb, w', es, hla, hvisit, htrace, _, hres, hfacts⟩ :=
    itemset_mark_read_invalid_guid syncHandler 2 looseWorld scenarioN1 [] 1 []
      (by decide) rfl (by decide)
  have hwa : wa = emit looseWorld (.node_get_itemset scenarioN1.id) :=
    (Option.some.inj hla).symm
  subst hwa
  exact ⟨wb, w', es, hvisit, htrace, hres, by decide, rfl, rfl,
    hfacts looseA (by decide) rfl rfl⟩

/-! ## Item instances: the record follows the trace -/

theorem memBalance_cons (held : List Nat) (e : MemEvent) (lg : List MemEvent) :
    memBalance held (e :: lg) = (memStep held e).bind (fun st => memBalance st lg) := by
  simp only [memBalance, List.foldlM_cons]
  rfl

theorem memBalance_single (held : List Nat) (e : MemEvent) :
    memBalance held [e] = memStep held e := by
  rw [memBalance_cons]
  cases memStep held e <;> rfl

theorem memBalance_append (held : List Nat) (a b : List MemEvent) :
    memBalance held (a ++ b) = (memBalance held a).bind (fun st => memBalance st b) := by
  induction a generalizing held with
  | nil => rfl
  | cons e a ih =>
    rw [List.cons_append, memBalance_cons, memBalance_cons]
    cases memStep held e with
    | none => rfl
    | some st => exact ih st

theorem memBalance_wrap {lg : List MemEvent} (p i j : Nat)
    (h : ∀ held, memBalance held lg = some held) (held : List Nat) :
    memBalance held ([.acquire p i] ++ lg ++ [.release p j]) = some held := by
  rw [memBalance_append, memBalance_append, memBalance_single]
  show (Option.bind (some (p :: held)) (fun st => memBalance st lg)).bind _ = _
  rw [Option.some_bind, h (p :: held), Option.some_bind, memBalance_single]
  simp [memStep]

theorem memStep_counts (p : Nat) (held held' : List Nat) (e : MemEvent)
    (h : memStep held e = some held') :
    (if isRel p e = true then 1 else 0) + held'.countP (fun q => q == p)
      = (if isAcq p e = true then 1 else 0) + held.countP (fun q => q == p) := by
  cases e with
  | acquire q i =>
    have : held' = q :: held := (Option.some.inj h).symm
    subst this
    by_cases hq : q = p
    · simp [isRel, isAcq, List.countP_cons, hq]; omega
    · simp [isRel, isAcq, List.countP_cons, hq]
  | release q i =>
    cases held with
    | nil => cases h
    | cons top rest =>
      by_cases ht : top = q
      · subst ht
        have : held' = rest := by
          have h2 : (if (top == top) = true then some rest else none) = some held' := h
          simpa using h2.symm
        subst this
        by_cases hq : top = p
        · simp [isRel, isAcq, List.countP_cons, hq]; omega
        · simp [isRel, isAcq, List.countP_cons, hq]
      · have h2 : (if (top == q) = true then some rest else none) = some held' := h
        simp [ht] at h2

theorem memBalance_counts (p : Nat) :
    ∀ (lg : List MemEvent) (held held' : List Nat), memBalance held lg = some held' →
      lg.countP (isRel p) + held'.countP (fun q => q == p)
        = lg.countP (isAcq p) + held.countP (fun q => q == p) := by
  intro lg
  induction lg with
  | nil =>
    intro held held' h
    have : held' = held := (Option.some.inj h).symm
    subst this
    simp
  | cons e lg ih =>
    intro held held' h
    rw [memBalance_cons] at h
    cases hstep : memStep held e with
    | none => rw [hstep] at h; cases h
    | some st =>
      rw [hstep] at h
      have h1 := memStep_counts p held st e hstep
      have h2 := ih st held' h
      simp only [List.countP_cons] at h2 ⊢
      omega

theorem acq_count (p : Nat) (lg : List MemEvent) :
    lg.countP (isAcq p) = (lg.filterMap acqOf).count p := by
  induction lg with
  | nil => rfl
  | cons e lg ih =>
    cases e with
    | acquire q i =>
      simp only [List.countP_cons, List.filterMap_cons, acqOf, List.count_cons, isAcq, ih]
    | release q i =>
      simp only [List.countP_cons, List.filterMap_cons, acqOf, isAcq, ih]
      simp

theorem Tracks.idle (w : World) (m : Mem) : Tracks w m w m [] where
  log := by simp
  bal := fun _ => rfl
  fresh := ⟨0, rfl, rfl⟩
  rel := by intro p id h; cases h
  calls := by simp

/-- A stretch that changes only the world, and makes neither a successful load nor an
unload. -/
theorem Tracks.still {w w' : World} (m : Mem)
    (h : w'.trace.filter isLoadUnload = w.trace.filter isLoadUnload) :
    Tracks w m w' m [] where
  log := by simp
  bal := fun _ => rfl
  fresh := ⟨0, rfl, rfl⟩
  rel := by intro p id h; cases h
  calls := by simp [h]

theorem Tracks.join {w w1 w2 : World} {m m1 m2 : Mem} {la lb : List MemEvent}
    (a : Tracks w m w1 m1 la) (b : Tracks w1 m1 w2 m2 lb) :
    Tracks w m w2 m2 (la ++ lb) where
  log := by rw [b.log, a.log, List.append_assoc]
  bal := by
    intro held
    rw [memBalance_append, a.bal held]
    exact b.bal held
  fresh := by
    obtain ⟨ka, ha, hfa⟩ := a.fresh
    obtain ⟨kb, hb, hfb⟩ := b.fresh
    refine ⟨kb + ka, by omega, ?_⟩
    rw [List.filterMap_append, hfa, hfb, ha, List.range'_append_1]
  rel := by
    obtain ⟨ka, ha, _⟩ := a.fresh
    obtain ⟨kb, hb, _⟩ := b.fresh
    intro p id h
    rcases List.mem_append.mp h with h | h
    · have := a.rel p id h
      omega
    · have := b.rel p id h
      omega
  calls := by rw [b.calls, a.calls, List.map_append, List.append_assoc]

/-- A successful load, a stretch, and the unload of the loaded instance. -/
theorem Tracks.bracket {w w2 : World} {m m2 : Mem} {lg : List MemEvent} (id : Nat) (d : Item)
    (t : Tracks (emit w (.item_load id true))
      { next := m.next + 1, log := m.log ++ [.acquire m.next id] } w2 m2 lg) :
    Tracks w m (item_unload w2 d) { m2 with log := m2.log ++ [.release m.next d.id] }
      ([.acquire m.next id] ++ lg ++ [.release m.next d.id]) where
  log := by
    show m2.log ++ _ = _
    rw [t.log]
    simp [List.append_assoc]
  bal := memBalance_wrap m.next id d.id t.bal
  fresh := by
    obtain ⟨k, hk, hf⟩ := t.fresh
    refine ⟨k + 1, ?_, ?_⟩
    · show m2.next = _
      rw [hk]
      show m.next + 1 + k = _
      omega
    · rw [List.filterMap_append, List.filterMap_append, hf]
      simp [acqOf, List.filterMap_cons, List.range'_succ]
  rel := by
    obtain ⟨k, hk, _⟩ := t.fresh
    have hk2 : m2.next = m.next + 1 + k := hk
    intro p id' h
    show m.next ≤ p ∧ p < m2.next
    simp only [List.mem_append, List.mem_singleton] at h
    rcases h with (h | h) | h
    · cases h
    · have := t.rel p id' h
      have h1 : m.next + 1 ≤ p := this.1
      exact ⟨by omega, this.2⟩
    · cases h
      omega
  calls := by
    show (w2.trace ++ [Event.item_unload d.id]).filter isLoadUnload = _
    rw [List.filter_append, t.calls]
    show ((w.trace ++ [Event.item_load id true]).filter isLoadUnload ++ _) ++ _ = _
    rw [List.filter_append]
    simp [isLoadUnload, shadow, List.append_assoc]

theorem Tracks.quiet (w : World) (m : Mem) (e : Event) (he : isLoadUnload e = false) :
    Tracks w m (emit w e) m [] := by
  apply Tracks.still
  show (w.trace ++ [e]).filter isLoadUnload = _
  rw [List.filter_append]
  simp [he]

theorem Tracks.steps (w : World) (m : Mem) (item : Item) (s : Bool) :
    Tracks w m (committed w item s) m [] := by
  apply Tracks.still
  rw [committed_trace, List.filter_append]
  simp [commitEvents, isLoadUnload]

theorem Agree.rebase {w w1 : World} {m m1 : Mem} {la : List MemEvent}
    (t : Tracks w m w1 m1 la) {r : Option (World × Mem × Item)} {o : Option (World × Item)}
    (a : Agree w1 m1 r o) : Agree w m r o := by
  cases r with
  | none => cases o with
    | none => trivial
    | some _ => exact a.elim
  | some r => cases o with
    | none => exact a.elim
    | some o =>
      obtain ⟨h1, h2, lg, tl⟩ := a
      exact ⟨h1, h2, la ++ lg, t.join tl⟩

theorem AgreeW.rebaseW {w w1 : World} {m m1 : Mem} {la : List MemEvent}
    (t : Tracks w m w1 m1 la) {r : Option (World × Mem)} {o : Option World}
    (a : AgreeW w1 m1 r o) : AgreeW w m r o := by
  cases r with
  | none => cases o with
    | none => trivial
    | some _ => exact a.elim
  | some r => cases o with
    | none => exact a.elim
    | some o =>
      obtain ⟨h1, lg, tl⟩ := a
      exact ⟨h1, la ++ lg, t.join tl⟩

/-! ## Item instances: the functions agree with the functions without instances -/

theorem item_load_ptr_none {w : World} {m : Mem} {j : Nat} (hn : db_find w j = none) :
    item_load_ptr w m j = (emit w (.item_load j false), m, none) := by
  simp [item_load_ptr, item_load, hn]

theorem item_load_ptr_some {w : World} {m : Mem} {j : Nat} {d : Item}
    (hd : db_find w j = some d) :
    item_load_ptr w m j
      = (emit w (.item_load j true),
         { next := m.next + 1, log := m.log ++ [.acquire m.next j] }, some (d, m.next)) := by
  simp [item_load_ptr, item_load, hd]

theorem duplicatesLoop_ptr_cons_none
    {f : World → Mem → Item → Nat → Bool → Option (World × Mem × Item)}
    {it : Item} {p : Nat} {s : Bool} {j : Nat} {L : List Nat} {w : World} {m : Mem}
    (hn : db_find w j = none) :
    duplicatesLoop_ptr f it p s (j :: L) w m
      = duplicatesLoop_ptr f it p s L (emit w (.item_load j false)) m := by
  simp only [duplicatesLoop_ptr, item_load_ptr_none hn]

theorem duplicatesLoop_ptr_cons_skip
    {f : World → Mem → Item → Nat → Bool → Option (World × Mem × Item)}
    {it : Item} {p : Nat} {s : Bool} {j : Nat} {L : List Nat} {w : World} {m : Mem}
    {d : Item} (hd : db_find w j = some d)
    (hc : (d.id != it.id && resolves w.nodes d.nodeId) = false) :
    duplicatesLoop_ptr f it p s (j :: L) w m
      = duplicatesLoop_ptr f it p s L (item_unload (emit w (.item_load j true)) d)
          { next := m.next + 1,
            log := m.log ++ [.acquire m.next j] ++ [.release m.next d.id] } := by
  have hc2 : (d.id != it.id && (node_from_id (emit w (.item_load j true)) d.nodeId).isSome)
      = false := hc
  simp only [duplicatesLoop_ptr, item_load_ptr_some hd]
  rw [hc2]
  rfl

theorem duplicatesLoop_ptr_cons_call
    {f : World → Mem → Item → Nat → Bool → Option (World × Mem × Item)}
    {it : Item} {p : Nat} {s : Bool} {j : Nat} {L : List Nat} {w w2 : World} {m m2 : Mem}
    {d d2 : Item} (hd : db_find w j = some d)
    (hc : (d.id != it.id && resolves w.nodes d.nodeId) = true)
    (hf : f (emit w (.item_load j true))
      { next := m.next + 1, log := m.log ++ [.acquire m.next j] } d m.next s
        = some (w2, m2, d2)) :
    duplicatesLoop_ptr f it p s (j :: L) w m
      = duplicatesLoop_ptr f it p s L (item_unload w2 d2)
          { m2 with log := m2.log ++ [.release m.next d2.id] } := by
  have hc2 : (d.id != it.id && (node_from_id (emit w (.item_load j true)) d.nodeId).isSome)
      = true := hc
  simp only [duplicatesLoop_ptr, item_load_ptr_some hd]
  rw [hc2]
  simp only [if_true, hf]
  rfl

theorem duplicatesLoop_ptr_cons_fail
    {f : World → Mem → Item → Nat → Bool → Option (World × Mem × Item)}
    {it : Item} {p : Nat} {s : Bool} {j : Nat} {L : List Nat} {w : World} {m : Mem}
    {d : Item} (hd : db_find w j = some d)
    (hc : (d.id != it.id && resolves w.nodes d.nodeId) = true)
    (hf : f (emit w (.item_load j true))
      { next := m.next + 1, log := m.log ++ [.acquire m.next j] } d m.next s = none) :
    duplicatesLoop_ptr f it p s (j :: L) w m = none := by
  have hc2 : (d.id != it.id && (node_from_id (emit w (.item_load j true)) d.nodeId).isSome)
      = true := hc
  simp only [duplicatesLoop_ptr, item_load_ptr_some hd]
  rw [hc2]
  simp only [if_true, hf]

/-- The fan-out loop with instances agrees with the loop without, if the entry point
it re-enters does. -/
theorem agree_duplicatesLoop
    {fP : World → Mem → Item → Nat → Bool → Option (World × Mem × Item)}
    {f : World → Item → Bool → Option (World × Item)}
    (hf : ∀ w m d q s, Agree w m (fP w m d q s) (f w d s))
    (it : Item) (p : Nat) (s : Bool) :
    ∀ (L : List Nat) (w : World) (m : Mem),
      AgreeW w m (duplicatesLoop_ptr fP it p s L w m) (duplicatesLoop f it s L w) := by
  intro L
  induction L with
  | nil => intro w m; exact ⟨rfl, [], Tracks.idle w m⟩
  | cons j L ih =>
    intro w m
    cases hd : db_find w j with
    | none =>
      rw [duplicatesLoop_ptr_cons_none hd, duplicatesLoop_cons_none hd]
      exact AgreeW.rebaseW (Tracks.quiet w m _ (by rfl)) (ih _ _)
    | some d =>
      cases hc : (d.id != it.id && resolves w.nodes d.nodeId) with
      | false =>
        rw [duplicatesLoop_ptr_cons_skip hd hc, duplicatesLoop_cons_skip hd hc]
        have t := Tracks.bracket j d (Tracks.idle (emit w (.item_load j true))
          { next := m.next + 1, log := m.log ++ [.acquire m.next j] })
        exact AgreeW.rebaseW t (ih _ _)
      | true =>
        have ha := hf (emit w (.item_load j true))
          { next := m.next + 1, log := m.log ++ [.acquire m.next j] } d m.next s
        cases hP : fP (emit w (.item_load j true))
            { next := m.next + 1, log := m.log ++ [.acquire m.next j] } d m.next s with
        | none =>
          cases hF : f (emit w (.item_load j true)) d s with
          | none =>
            rw [duplicatesLoop_ptr_cons_fail hd hc hP, duplicatesLoop_cons_fail hd hc hF]
            trivial
          | some r => rw [hP, hF] at ha; exact ha.elim
        | some rP =>
          cases hF : f (emit w (.item_load j true)) d s with
          | none => rw [hP, hF] at ha; exact ha.elim
          | some r =>
            rw [hP, hF] at ha
            obtain ⟨h1, h2, lg, t⟩ := ha
            rw [duplicatesLoop_ptr_cons_call hd hc
                (show _ = some (rP.1, rP.2.1, rP.2.2) from hP),
              duplicatesLoop_cons_call hd hc (show _ = some (r.1, r.2) from hF)]
            have t2 := Tracks.bracket j rP.2.2 t
            rw [← h1, ← h2]
            exact AgreeW.rebaseW t2 (ih _ _)

theorem item_read_state_changed_body_ptr_eq
    (f : World → Mem → Item → Nat → Bool → Option (World × Mem × Item))
    (w : World) (m : Mem) (item : Item) (p : Nat) (s : Bool) :
    item_read_state_changed_body_ptr f w m item p s
      = if item.validGuid then
          (duplicatesLoop_ptr f (mark s item) p s
            (((committed w item s).items.filter (fun r => r.sourceId == item.sourceId)).map
              (fun r => r.id))
            (emit (committed w item s) (.db_item_get_duplicates item.sourceId)) m).map
            (fun r => (r.1, r.2, mark s item))
        else some (committed w item s, m, mark s item) := rfl

theorem agree_body
    {fP : World → Mem → Item → Nat → Bool → Option (World × Mem × Item)}
    {f : World → Item → Bool → Option (World × Item)}
    (hf : ∀ w m d q s, Agree w m (fP w m d q s) (f w d s))
    (w : World) (m : Mem) (item : Item) (p : Nat) (s : Bool) :
    Agree w m (item_read_state_changed_body_ptr fP w m item p s)
      (item_read_state_changed_body f w item s) := by
  rw [item_read_state_changed_body_ptr_eq, item_read_state_changed_body_eq]
  cases hv : item.validGuid with
  | false => exact ⟨rfl, rfl, [], Tracks.steps w m item s⟩
  | true =>
    simp only [if_true]
    have hl := agree_duplicatesLoop hf (mark s item) p s
      (((committed w item s).items.filter (fun r => r.sourceId == item.sourceId)).map
        (fun r => r.id))
      (emit (committed w item s) (.db_item_get_duplicates item.sourceId)) m
    have t : Tracks w m (emit (committed w item s) (.db_item_get_duplicates item.sourceId))
        m ([] ++ []) :=
      (Tracks.steps w m item s).join (Tracks.quiet _ m _ (by rfl))
    have hl2 := AgreeW.rebaseW t hl
    cases hP : duplicatesLoop_ptr fP (mark s item) p s
        (((committed w item s).items.filter (fun r => r.sourceId == item.sourceId)).map
          (fun r => r.id))
        (emit (committed w item s) (.db_item_get_duplicates item.sourceId)) m with
    | none =>
      cases hF : duplicatesLoop f (mark s item) s
          (((committed w item s).items.filter (fun r => r.sourceId == item.sourceId)).map
            (fun r => r.id))
          (emit (committed w item s) (.db_item_get_duplicates item.sourceId)) with
      | none => trivial
      | some r => rw [hP, hF] at hl2; exact hl2.elim
    | some rP =>
      cases hF : duplicatesLoop f (mark s item) s
          (((committed w item s).items.filter (fun r => r.sourceId == item.sourceId)).map
            (fun r => r.id))
          (emit (committed w item s) (.db_item_get_duplicates item.sourceId)) with
      | none => rw [hP, hF] at hl2; exact hl2.elim
      | some r =>
        rw [hP, hF] at hl2
        obtain ⟨h1, lg, tl⟩ := hl2
        exact ⟨h1, rfl, lg, tl⟩

theorem agree_dispatch (h : Handler)
    {cP : World → Mem → Item → Nat → Bool → Option (World × Mem × Item)}
    {c : World → Item → Bool → Option (World × Item)}
    (hc : ∀ w m d q s, Agree w m (cP w m d q s) (c w d s))
    (w : World) (m : Mem) (node : Option Node) (item : Item) (p : Nat) (s : Bool) :
    Agree w m (node_source_item_mark_read_ptr h cP w m node item p s)
      (node_source_item_mark_read h c w node item s) := by
  unfold node_source_item_mark_read_ptr node_source_item_mark_read
  cases hacc : h.acceptReadChange node item s with
  | false =>
    simp only [Bool.false_eq_true, if_false]
    exact ⟨rfl, rfl, [], Tracks.quiet w m _ (by rfl)⟩
  | true =>
    simp only [if_true]
    exact Agree.rebase (Tracks.quiet w m _ (by rfl)) (hc _ _ _ _ _)

/-- The entry point with instances agrees with the entry point without. -/
theorem agree_entry (h : Handler) :
    ∀ (n : Nat) (w : World) (m : Mem) (item : Item) (p : Nat) (s : Bool),
      Agree w m (item_set_read_state_ptr h n w m item p s) (item_set_read_state h n w item s) := by
  intro n
  induction n with
  | zero => intro w m item p s; trivial
  | succ n ih =>
    intro w m item p s
    cases hg : (s == item.readStatus && !item.updateStatus) with
    | true =>
      simp only [item_set_read_state_ptr, item_set_read_state, hg, if_true]
      exact ⟨rfl, rfl, [], Tracks.idle w m⟩
    | false =>
      simp only [item_set_read_state_ptr, item_set_read_state, hg, Bool.false_eq_true,
        if_false]
      exact agree_dispatch h (fun w m d q s => agree_body ih w m d q s) w m _ item p s

/-- The finalizer with instances agrees with the finalizer without. -/
theorem agree_changed (h : Handler) (fuel : Nat) (w : World) (m : Mem) (item : Item)
    (p : Nat) (s : Bool) :
    Agree w m (item_read_state_changed_ptr h fuel w m item p s)
      (item_read_state_changed h fuel w item s) :=
  agree_body (agree_entry h fuel) w m item p s

/-! ## Item instances: the bulk path -/

theorem duplicateNodesLoop_quiet (dups : List String) (w : World) :
    (duplicateNodesLoop dups w).trace.filter isLoadUnload = w.trace.filter isLoadUnload := by
  obtain ⟨esf, hb, _, hfl⟩ := Bulk.flag_nodes dups w
  rw [hb.trace, List.filter_append]
  have : esf.filter isLoadUnload = [] := by
    rw [List.filter_eq_nil_iff]
    intro e he
    obtain ⟨n, _, hen⟩ := hfl e he
    subst hen
    simp [isLoadUnload]
  rw [this, List.append_nil]

theorem itemsetLoop_cons_none {h : Handler} {fuel : Nat} {id : Nat} {L : List Nat}
    {w : World} (hd : db_find w id = none) :
    itemsetLoop h fuel (id :: L) w = itemsetLoop h fuel L (emit w (.item_load id false)) := by
  rw [itemsetLoop_cons, itemsetLoop_single_none hd]; rfl

theorem itemsetLoop_cons_read {h : Handler} {fuel : Nat} {id : Nat} {L : List Nat}
    {w : World} {item : Item} (hd : db_find w id = some item) (hr : item.readStatus = true) :
    itemsetLoop h fuel (id :: L) w
      = itemsetLoop h fuel L (item_unload (emit w (.item_load id true)) item) := by
  rw [itemsetLoop_cons, itemsetLoop_single_read hd hr]; rfl

theorem itemsetLoop_cons_lost {h : Handler} {fuel : Nat} {id : Nat} {L : List Nat}
    {w : World} {item : Item} (hd : db_find w id = some item)
    (hr : item.readStatus = false) (hn : node_from_id w item.nodeId = none) :
    itemsetLoop h fuel (id :: L) w
      = itemsetLoop h fuel L (item_unload
          (duplicateNodesLoop (db_item_get_duplicate_nodes w item.sourceId).2
            (emit (g_warning (emit w (.item_load id true)) item)
              (.db_item_get_duplicate_nodes item.sourceId)))
          item) := by
  rw [itemsetLoop_cons, itemsetLoop_single_lost hd hr hn]; rfl

theorem itemsetLoop_cons_call {h : Handler} {fuel : Nat} {id : Nat} {L : List Nat}
    {w w3 : World} {item item3 : Item} {node : Node} (hd : db_find w id = some item)
    (hr : item.readStatus = false) (hn : node_from_id w item.nodeId = some node)
    (hc : node_source_item_mark_read h (item_read_state_changed h fuel)
        (item_state_set_recount_flag (emit w (.item_load id true)) node).1
        (some (item_state_set_recount_flag (emit w (.item_load id true)) node).2)
        item true = some (w3, item3)) :
    itemsetLoop h fuel (id :: L) w
      = itemsetLoop h fuel L (item_unload
          (duplicateNodesLoop (db_item_get_duplicate_nodes w3 item3.sourceId).2
            (db_item_get_duplicate_nodes w3 item3.sourceId).1)
          item3) := by
  rw [itemsetLoop_cons, itemsetLoop_single_call hd hr hn hc]; rfl

theorem itemsetLoop_cons_fail {h : Handler} {fuel : Nat} {id : Nat} {L : List Nat}
    {w : World} {item : Item} {node : Node} (hd : db_find w id = some item)
    (hr : item.readStatus = false) (hn : node_from_id w item.nodeId = some node)
    (hc : node_source_item_mark_read h (item_read_state_changed h fuel)
        (item_state_set_recount_flag (emit w (.item_load id true)) node).1
        (some (item_state_set_recount_flag (emit w (.item_load id true)) node).2)
        item true = none) :
    itemsetLoop h fuel (id :: L) w = none := by
  rw [itemsetLoop_cons, itemsetLoop_single_fail hd hr hn hc]; rfl

theorem itemsetLoop_ptr_cons_none {h : Handler} {fuel : Nat} {id : Nat} {L : List Nat}
    {w : World} {m : Mem} (hd : db_find w id = none) :
    itemsetLoop_ptr h fuel (id :: L) w m
      = itemsetLoop_ptr h fuel L (emit w (.item_load id false)) m := by
  simp only [itemsetLoop_ptr, item_load_ptr_none hd]

theorem itemsetLoop_ptr_cons_read {h : Handler} {fuel : Nat} {id : Nat} {L : List Nat}
    {w : World} {m : Mem} {item : Item} (hd : db_find w id = some item)
    (hr : item.readStatus = true) :
    itemsetLoop_ptr h fuel (id :: L) w m
      = itemsetLoop_ptr h fuel L (item_unload (emit w (.item_load id true)) item)
          { next := m.next + 1,
            log := m.log ++ [.acquire m.next id] ++ [.release m.next item.id] } := by
  simp only [itemsetLoop_ptr, item_load_ptr_some hd, hr, Bool.not_true, Bool.false_eq_true,
    if_false]
  rfl

theorem itemsetLoop_ptr_cons_lost {h : Handler} {fuel : Nat} {id : Nat} {L : List Nat}
    {w : World} {m : Mem} {item : Item} (hd : db_find w id = some item)
    (hr : item.readStatus = false) (hn : node_from_id w item.nodeId = none) :
    itemsetLoop_ptr h fuel (id :: L) w m
      = itemsetLoop_ptr h fuel L (item_unload
          (duplicateNodesLoop (db_item_get_duplicate_nodes w item.sourceId).2
            (emit (g_warning (emit w (.item_load id true)) item)
              (.db_item_get_duplicate_nodes item.sourceId)))
          item)
          { next := m.next + 1,
            log := m.log ++ [.acquire m.next id] ++ [.release m.next item.id] } := by
  have hn2 : node_from_id (emit w (.item_load id true)) item.nodeId = none := hn
  simp only [itemsetLoop_ptr, item_load_ptr_some hd, hr, Bool.not_false, if_true, hn2]
  rfl

theorem itemsetLoop_ptr_cons_call {h : Handler} {fuel : Nat} {id : Nat} {L : List Nat}
    {w w3 : World} {m m3 : Mem} {item item3 : Item} {node : Node}
    (hd : db_find w id = some item) (hr : item.readStatus = false)
    (hn : node_from_id w item.nodeId = some node)
    (hc : node_source_item_mark_read_ptr h (item_read_state_changed_ptr h fuel)
        (item_state_set_recount_flag (emit w (.item_load id true)) node).1
        { next := m.next + 1, log := m.log ++ [.acquire m.next id] }
        (some (item_state_set_recount_flag (emit w (.item_load id true)) node).2)
        item m.next true = some (w3, m3, item3)) :
    itemsetLoop_ptr h fuel (id :: L) w m
      = itemsetLoop_ptr h fuel L (item_unload
          (duplicateNodesLoop (db_item_get_duplicate_nodes w3 item3.sourceId).2
            (db_item_get_duplicate_nodes w3 item3.sourceId).1)
          item3)
          { m3 with log := m3.log ++ [.release m.next item3.id] } := by
  have hn2 : node_from_id (emit w (.item_load id true)) item.nodeId = some node := hn
  simp only [itemsetLoop_ptr, item_load_ptr_some hd, hr, Bool.not_false, if_true, hn2]
  rw [hc]
  rfl

theorem itemsetLoop_ptr_cons_fail {h : Handler} {fuel : Nat} {id : Nat} {L : List Nat}
    {w : World} {m : Mem} {item : Item} {node : Node}
    (hd : db_find w id = some item) (hr : item.readStatus = false)
    (hn : node_from_id w item.nodeId = some node)
    (hc : node_source_item_mark_read_ptr h (item_read_state_changed_ptr h fuel)
        (item_state_set_recount_flag (emit w (.item_load id true)) node).1
        { next := m.next + 1, log := m.log ++ [.acquire m.next id] }
        (some (item_state_set_recount_flag (emit w (.item_load id true)) node).2)
        item m.next true = none) :
    itemsetLoop_ptr h fuel (id :: L) w m = none := by
  have hn2 : node_from_id (emit w (.item_load id true)) item.nodeId = some node := hn
  simp only [itemsetLoop_ptr, item_load_ptr_some hd, hr, Bool.not_false, if_true, hn2]
  rw [hc]

/-- The loop of the bulk path with instances agrees with the loop without. -/
theorem agree_itemsetLoop (h : Handler) (fuel : Nat) :
    ∀ (L : List Nat) (w : World) (m : Mem),
      AgreeW w m (itemsetLoop_ptr h fuel L w m) (itemsetLoop h fuel L w) := by
  intro L
  induction L with
  | nil => intro w m; exact ⟨rfl, [], Tracks.idle w m⟩
  | cons id L ih =>
    intro w m
    cases hd : db_find w id with
    | none =>
      rw [itemsetLoop_ptr_cons_none hd, itemsetLoop_cons_none hd]
      exact AgreeW.rebaseW (Tracks.quiet w m _ (by rfl)) (ih _ _)
    | some item =>
      cases hr : item.readStatus with
      | true =>
        rw [itemsetLoop_ptr_cons_read hd hr, itemsetLoop_cons_read hd hr]
        have t := Tracks.bracket id item (Tracks.idle (emit w (.item_load id true))
          { next := m.next + 1, log := m.log ++ [.acquire m.next id] })
        exact AgreeW.rebaseW t (ih _ _)
      | false =>
        cases hn : node_from_id w item.nodeId with
        | none =>
          rw [itemsetLoop_ptr_cons_lost hd hr hn, itemsetLoop_cons_lost hd hr hn]
          have t0 : Tracks (emit w (.item_load id true))
              { next := m.next + 1, log := m.log ++ [.acquire m.next id] }
              (duplicateNodesLoop (db_item_get_duplicate_nodes w item.sourceId).2
                (emit (g_warning (emit w (.item_load id true)) item)
                  (.db_item_get_duplicate_nodes item.sourceId)))
              { next := m.next + 1, log := m.log ++ [.acquire m.next id] } [] := by
            apply Tracks.still
            rw [duplicateNodesLoop_quiet]
            show ((emit w (.item_load id true)).trace ++ [Event.g_warning item.id item.nodeId]
              ++ [Event.db_item_get_duplicate_nodes item.sourceId]).filter isLoadUnload = _
            rw [List.filter_append, List.filter_append]
            simp [isLoadUnload]
          exact AgreeW.rebaseW (Tracks.bracket id item t0) (ih _ _)
        | some node =>
          have ha := agree_dispatch h (agree_changed h fuel)
            (item_state_set_recount_flag (emit w (.item_load id true)) node).1
            { next := m.next + 1, log := m.log ++ [.acquire m.next id] }
            (some (item_state_set_recount_flag (emit w (.item_load id true)) node).2)
            item m.next true
          cases hP : node_source_item_mark_read_ptr h (item_read_state_changed_ptr h fuel)
              (item_state_set_recount_flag (emit w (.item_load id true)) node).1
              { next := m.next + 1, log := m.log ++ [.acquire m.next id] }
              (some (item_state_set_recount_flag (emit w (.item_load id true)) node).2)
              item m.next true with
          | none =>
            cases hF : node_source_item_mark_read h (item_read_state_changed h fuel)
                (item_state_set_recount_flag (emit w (.item_load id true)) node).1
                (some (item_state_set_recount_flag (emit w (.item_load id true)) node).2)
                item true with
            | none =>
              rw [itemsetLoop_ptr_cons_fail hd hr hn hP, itemsetLoop_cons_fail hd hr hn hF]
              trivial
            | some r => rw [hP, hF] at ha; exact ha.elim
          | some rP =>
            cases hF : node_source_item_mark_read h (item_read_state_changed h fuel)
                (item_state_set_recount_flag (emit w (.item_load id true)) node).1
                (some (item_state_set_recount_flag (emit w (.item_load id true)) node).2)
                item true with
            | none => rw [hP, hF] at ha; exact ha.elim
            | some r =>
              rw [hP, hF] at ha
              obtain ⟨h1, h2, lg, t⟩ := ha
              rw [itemsetLoop_ptr_cons_call hd hr hn
                  (show _ = some (rP.1, rP.2.1, rP.2.2) from hP),
                itemsetLoop_cons_call hd hr hn (show _ = some (r.1, r.2) from hF)]
              have tpre : Tracks (emit w (.item_load id true))
                  { next := m.next + 1, log := m.log ++ [.acquire m.next id] }
                  (item_state_set_recount_flag (emit w (.item_load id true)) node).1
                  { next := m.next + 1, log := m.log ++ [.acquire m.next id] } [] := by
                apply Tracks.still
                show ((emit w (.item_load id true)).trace
                  ++ [Event.set_recount_flag node.id]).filter isLoadUnload = _
                rw [List.filter_append]
                simp [isLoadUnload]
              have tpost : Tracks rP.1 rP.2.1
                  (duplicateNodesLoop (db_item_get_duplicate_nodes rP.1 rP.2.2.sourceId).2
                    (db_item_get_duplicate_nodes rP.1 rP.2.2.sourceId).1)
                  rP.2.1 [] := by
                apply Tracks.still
                rw [duplicateNodesLoop_quiet]
                show (rP.1.trace
                  ++ [Event.db_item_get_duplicate_nodes rP.2.2.sourceId]).filter isLoadUnload = _
                rw [List.filter_append]
                simp [isLoadUnload]
              have t2 := Tracks.bracket id rP.2.2 ((tpre.join t).join tpost)
              rw [← h1, ← h2]
              exact AgreeW.rebaseW t2 (ih _ _)

/-- The bulk path with instances agrees with the bulk path without. -/
theorem agree_itemset_mark_read (h : Handler) (fuel : Nat) (w : World) (m : Mem)
    (node : Node) :
    AgreeW w m (itemset_mark_read_ptr h fuel w m node) (itemset_mark_read h fuel w node) := by
  unfold itemset_mark_read_ptr itemset_mark_read
  by_cases hz : node.unreadCount = 0
  · simp only [hz, beq_self_eq_true, if_true]
    exact ⟨rfl, [], Tracks.idle w m⟩
  · have hz2 : (node.unreadCount == 0) = false := by simpa using hz
    simp only [hz2, Bool.false_eq_true, if_false]
    exact AgreeW.rebaseW (Tracks.quiet w m (.node_get_itemset node.id) (by rfl))
      (agree_itemsetLoop h fuel node.itemSet _ m)

/-- What `Tracks` says about a run whose calls are `es`. -/
theorem Tracks.released {w w' : World} {m m' : Mem} {lg : List MemEvent} {es : List Event}
    (t : Tracks w m w' m' lg) (htr : w'.trace = w.trace ++ es) :
    Released m es lg ∧ ∀ p, p < m.next → ∀ id, MemEvent.release p id ∉ lg := by
  obtain ⟨k, hk, hf⟩ := t.fresh
  have hown : ∀ q id, MemEvent.release q id ∈ lg → q ∈ lg.filterMap acqOf := by
    intro q id hq
    have := t.rel q id hq
    rw [hf, List.mem_range'_1]
    omega
  refine ⟨⟨?_, ⟨k, hf⟩, t.bal, ?_, hown⟩, ?_⟩
  · have hc := t.calls
    rw [htr, List.filter_append] at hc
    exact (List.append_cancel_left hc).symm
  · intro q hq
    have h1 := memBalance_counts q lg [] [] (t.bal [])
    have h2 : lg.countP (isRel q) = lg.countP (isAcq q) := by simpa using h1
    rw [h2, acq_count]
    have hnd : (lg.filterMap acqOf).Nodup := by
      rw [hf]; exact List.nodup_range' _ _
    exact List.count_eq_one_of_mem hnd hq
  · intro p hp id hmem
    have := t.rel p id hmem
    omega

/-! ## Acquire, use, release -/

/-- C21: acquire-use-release balance, with the item instances made explicit.  Every
run of `item_read_state_changed` (for an item that is instance `p`, an instance
that exists already) and of `itemset_mark_read` returns, given a recursion budget
above, respectively at least, the number of stored rows; it is the run of the
function without instances (same world, same item); and the record `lg` of
instances it leaves is `Released`: it has one entry for each successful
`item_load` and each `item_unload` of the trace `es`, in the same order, and none
for a failed load; every successful load makes a new instance; every instance made
in the run is released exactly once, by an `item_unload` that releases the most
recently loaded instance still held; and nothing but instances made in the run is
released.  In particular the instance `p` passed in by the caller is never
released, and neither is any other instance that existed before the run. -/
theorem load_unload_balance (h : Handler) :
    (∀ (fuel : Nat) (w : World) (m : Mem) (item : Item) (p : Nat) (newState : Bool),
      w.items.length < fuel → p < m.next →
      ∃ w' m' item' es lg,
        item_read_state_changed_ptr h fuel w m item p newState = some (w', m', item')
        ∧ item_read_state_changed h fuel w item newState = some (w', item')
        ∧ w'.trace = w.trace ++ es ∧ m'.log = m.log ++ lg
        ∧ Released m es lg
        ∧ ∀ id, MemEvent.release p id ∉ lg)
    ∧ (∀ (fuel : Nat) (w : World) (m : Mem) (node : Node), w.items.length ≤ fuel →
      ∃ w' m' es lg,
        itemset_mark_read_ptr h fuel w m node = some (w', m')
        ∧ itemset_mark_read h fuel w node = some w'
        ∧ w'.trace = w.trace ++ es ∧ m'.log = m.log ++ lg
        ∧ Released m es lg
        ∧ ∀ p, p < m.next → ∀ id, MemEvent.release p id ∉ lg) := by
  constructor
  · intro fuel w m item p newState hfuel hp
    have hf : pend (fun _ => true) newState (storePut (mark newState item) w.items) < fuel :=
      lt_of_le_of_lt ((pend_storePut_le _ newState item w.items).trans
        (pend_le_length _ newState _)) hfuel
    obtain ⟨w', es, hbody, _, htrace, _, _, _⟩ :=
      item_read_state_changed_body_spec (U := False)
        (item_set_read_state_spec h newState False (fun _ => true) fuel) w item
        (fun u => u.elim) (fun _ _ _ => rfl) hf
    have horig : item_read_state_changed h fuel w item newState
        = some (w', mark newState item) := hbody
    have ha := agree_changed h fuel w m item p newState
    rw [horig] at ha
    cases hP : item_read_state_changed_ptr h fuel w m item p newState with
    | none => rw [hP] at ha; exact ha.elim
    | some rP =>
      rw [hP] at ha
      obtain ⟨h1, h2, lg, t⟩ := ha
      have h1' : rP.1 = w' := h1
      have h2' : rP.2.2 = mark newState item := h2
      have htr : rP.1.trace = w.trace ++ (commitEvents w item newState ++ es) := by
        rw [h1', htrace, List.append_assoc]
      obtain ⟨hrel, hout⟩ := t.released htr
      refine ⟨w', rP.2.1, mark newState item, commitEvents w item newState ++ es, lg, ?_,
        horig, by rw [htrace, List.append_assoc], t.log, hrel, hout p hp⟩
      rw [← h1', ← h2']
  · intro fuel w m node hfuel
    have hex : ∃ w' es, itemset_mark_read h fuel w node = some w'
        ∧ w'.trace = w.trace ++ es := by
      by_cases hz : node.unreadCount = 0
      · exact ⟨w, [], by simp [itemset_mark_read, hz], by simp⟩
      · obtain ⟨w', es, hloop, htrace, _⟩ :=
          itemsetLoop_bal h fuel node.itemSet (emit w (.node_get_itemset node.id)) hfuel
        refine ⟨w', [.node_get_itemset node.id] ++ es, ?_, ?_⟩
        · rw [itemset_mark_read_eq (by omega)]; exact hloop
        · rw [htrace]
          show (w.trace ++ [Event.node_get_itemset node.id]) ++ es = _
          rw [List.append_assoc]
    obtain ⟨w', es, horig, htrace⟩ := hex
    have ha := agree_itemset_mark_read h fuel w m node
    rw [horig] at ha
    cases hP : itemset_mark_read_ptr h fuel w m node with
    | none => rw [hP] at ha; exact ha.elim
    | some rP =>
      rw [hP] at ha
      obtain ⟨h1, lg, t⟩ := ha
      have h1' : rP.1 = w' := h1
      obtain ⟨hrel, hout⟩ := t.released (by rw [h1']; exact htrace)
      refine ⟨w', rP.2, es, lg, ?_, horig, htrace, t.log, hrel, hout⟩
      rw [← h1']

/-- Witness for C21: the finalizer on item A of the two-item scenario, held by the
caller as instance 0.  The run loads A and its duplicate B, and in the re-entrant
run for B both again: instances 1 to 4, each released once, instance 0 never. -/
theorem load_unload_balance_witness :
    (∃ w' m' item' es lg,
        item_read_state_changed_ptr syncHandler 3 scenarioWorld ⟨1, []⟩ scenarioA 0 true
          = some (w', m', item')
        ∧ item_read_state_changed syncHandler 3 scenarioWorld scenarioA true = some (w', item')
        ∧ w'.trace = scenarioWorld.trace ++ es ∧ m'.log = ([] : List MemEvent) ++ lg
        ∧ Released ⟨1, []⟩ es lg
        ∧ ∀ id, MemEvent.release 0 id ∉ lg)
    ∧ (item_read_state_changed_ptr syncHandler 3 scenarioWorld ⟨1, []⟩ scenarioA 0 true).map
        (fun r => r.2.1.log)
      = some [.acquire 1 1, .release 1 1, .acquire 2 2, .acquire 3 1, .release 3 1,
              .acquire 4 2, .release 4 2, .release 2 2] :=
  ⟨(load_unload_balance syncHandler).1 3 scenarioWorld ⟨1, []⟩ scenarioA 0 true
    (by decide) (by decide), by decide⟩

end ItemState

/-! ## `main.c`: command line against preferences -/

namespace Main

/-- C22: the choice of the initial main-window state.  With the option value
`"shown"` and both preferences `show_tray_icon` and `start_in_tray` set, the result
is `MAINWINDOW_HIDDEN`, not `MAINWINDOW_SHOWN`: the preferences override the command
line.  For the rest the choice is as described: `"iconified"` gives
`MAINWINDOW_ICONIFIED` and `"hidden"` gives `MAINWINDOW_HIDDEN` whatever the
preferences are, and `"shown"` gives `MAINWINDOW_SHOWN` exactly when the two
preferences are not both set. -/
theorem initialState_shown_overridden :
    initialState "shown" true true = .MAINWINDOW_HIDDEN
    ∧ (∀ show_tray_icon start_in_tray,
        initialState "iconified" show_tray_icon start_in_tray = .MAINWINDOW_ICONIFIED)
    ∧ (∀ show_tray_icon start_in_tray,
        initialState "hidden" show_tray_icon start_in_tray = .MAINWINDOW_HIDDEN)
    ∧ (∀ show_tray_icon start_in_tray,
        initialState "shown" show_tray_icon start_in_tray
          = if show_tray_icon && start_in_tray then .MAINWINDOW_HIDDEN
            else .MAINWINDOW_SHOWN) := by
  refine ⟨by decide, ?_, ?_, ?_⟩ <;> intro a b <;> cases a <;> cases b <;> decide

end Main

/-! ## `ui/ui_prefs.c`: the update interval survives the change of unit -/

namespace UiPrefs

theorem gint_of_range {x : Int} (hlo : -2147483648 ≤ x) (hhi : x < 2147483648) :
    gint x = x := by
  unfold gint
  omega

/-- C25: for every stored interval `t` (a `gint`, in minutes), what
`on_default_update_interval_value_changed` computes from the unit and value that
`on_prefbtn_clicked` puts into the dialog for `t` is `t` again; the multiplication
by 60 or 1440 does not overflow. -/
theorem update_interval_round_trip (t : Int) (hlo : -2147483648 ≤ t) (hhi : t < 2147483648) :
    on_default_update_interval_value_changed (on_prefbtn_clicked t).1 (on_prefbtn_clicked t).2
      = t := by
  unfold on_prefbtn_clicked
  by_cases hd : t.tmod 1440 = 0
  · have h1 := Int.tdiv_add_tmod t 1440
    rw [hd] at h1
    have h2 : t.tdiv 1440 * 1440 = t := by omega
    simp only [hd, if_true, on_default_update_interval_value_changed]
    rw [h2]
    exact gint_of_range hlo hhi
  · by_cases hh : t.tmod 60 = 0
    · have h1 := Int.tdiv_add_tmod t 60
      rw [hh] at h1
      have h2 : t.tdiv 60 * 60 = t := by omega
      simp only [hd, hh, if_true, if_false, on_default_update_interval_value_changed]
      rw [h2]
      exact gint_of_range hlo hhi
    · simp [hd, hh, on_default_update_interval_value_changed]

/-- Witness for C25: two days, stored as 2880 minutes. -/
theorem update_interval_round_trip_witness :
    on_prefbtn_clicked 2880 = (2, 2)
    ∧ on_default_update_interval_value_changed (on_prefbtn_clicked 2880).1
        (on_prefbtn_clicked 2880).2 = 2880 :=
  ⟨by decide, update_interval_round_trip 2880 (by decide) (by decide)⟩

end UiPrefs
